import Mathlib

/-!
# Event-driven TCP server (HW7/TCP_Server/server.c): a shallow embedding

Conventions of the embedding.

* A byte is a `Char`.  A *C string* is the list of its bytes without the
  terminating NUL; a *buffer* (`char[]`) is the list of all its bytes, NUL bytes
  included, and `cstr` reads the C string stored at its start.
* C `int`s are `Int`s; every length met here is far below `2^31`, so no
  operation wraps.
* Sending on a socket is recorded as a pair of the descriptor and the bytes.
* `malloc`/`strdup` in the protocol handlers are taken to succeed.
* The account file is an explicit argument: `none` when `fopen` fails, else its
  bytes.
* A connection is the list of the results of its coming `recv` calls; when the
  list is used up the next `recv` does not return.
* The event loop's `char buff[BUFF_SIZE]` is an explicit argument, since the
  source reads it before writing it; it keeps its bytes from one
  `recv_until_delim` call to the next.
* The arrays `poll_fds` and `sessions` are lists holding all allocated slots;
  the outcome of each allocation is an explicit argument, and a write outside
  an array ends the run (the behaviour of the program is undefined there).
* A pass of the event loop takes the descriptors `poll` reports and the results
  of the coming `accept` and `recv` calls as arguments; a call whose result
  list is used up does not return.
* A `Session` that `remove_from_poll` has freed keeps its content: the source
  goes on reading `leftover_len` and `active` of such sessions.
* The `pthread_mutex_lock` and `pthread_mutex_unlock` calls of a function are
  listed per return path, in the order the path makes them.
-/

namespace TcpServer

/-! ## Constants and data -/

/-- Macro `BUFF_SIZE`. -/
def BUFF_SIZE : Nat := 4096

/-- The terminating byte of a C string. -/
abbrev NUL : Char := Char.ofNat 0

/-- The C string stored at the start of a buffer: the bytes before the first NUL
(the whole list when it holds none). -/
def cstr (buf : List Char) : List Char := buf.takeWhile (fun c => c != NUL)

/-- Struct `Account`; `username` is `none` for the `NULL` pointer. -/
structure Account where
  username : Option (List Char)
  status : Int
deriving DecidableEq

/-- Struct `Session`, without its mutex.  `leftover` lists the bytes of the
`char[BUFF_SIZE]` array written so far (none in a fresh session); only the first
`leftover_len` of them are meaningful, and the source never reads the others. -/
structure Session where
  logged_in : Int
  username : List Char
  sockfd : Int
  client_ip : List Char
  client_port : Int
  active : Int
  leftover : List Char
  leftover_len : Int
deriving DecidableEq

/-- One `send` call: the descriptor and the bytes handed to it. -/
abbrev Sent := Int × List Char

/-! ## Account lookup (`load_account`) -/

/-- The lines `getline` returns one after the other: each keeps its newline, the
last one may lack it.  `cur` is the current line, reversed. -/
def getlines_aux : List Char → List Char → List (List Char)
  | [], cur => if cur = [] then [] else [cur.reverse]
  | c :: cs, cur =>
    if c = Char.ofNat 10 then (c :: cur).reverse :: getlines_aux cs []
    else getlines_aux cs (c :: cur)

/-- All lines of a file, as successive `getline` calls deliver them. -/
def getlines (content : List Char) : List (List Char) := getlines_aux content []

/-- The delimiter set `" \t\n"` given to `strtok`. -/
def tok_delims : List Char := [Char.ofNat 32, Char.ofNat 9, Char.ofNat 10]

/-- One `strtok` step on the C string `s`: skip leading delimiters; `none` when
nothing is left, else the token and the text after the delimiter that ended it
(where the next `strtok(NULL, ..)` resumes). -/
def strtok (s : List Char) (delims : List Char) : Option (List Char × List Char) :=
  match s.dropWhile (fun c => delims.contains c) with
  | [] => none
  | t => some (t.takeWhile (fun c => !delims.contains c),
               (t.dropWhile (fun c => !delims.contains c)).drop 1)

/-- Function `isspace` in the C locale. -/
def isspace (c : Char) : Bool :=
  c.toNat = 32 || (9 ≤ c.toNat && c.toNat ≤ 13)

/-- Function `isdigit`. -/
def isdigit (c : Char) : Bool := 48 ≤ c.toNat && c.toNat ≤ 57

/-- Value of a run of decimal digits. -/
def digits_value (ds : List Char) : Int :=
  ds.foldl (fun acc c => 10 * acc + ((c.toNat : Int) - 48)) 0

/-- The value `strtol` returns for a decimal number: the number itself when a
`long` (64 bits) holds it, else `LONG_MAX` or `LONG_MIN`. -/
def clamp_long (v : Int) : Int :=
  if v > 9223372036854775807 then 9223372036854775807
  else if v < -9223372036854775808 then -9223372036854775808
  else v

/-- Conversion of a `long` to `int`: the low 32 bits, read in two's complement. -/
def int_of_long (v : Int) : Int := (v + 2147483648) % 4294967296 - 2147483648

/-- Function `strtol(s, NULL, 10)`: leading white space, an optional sign, then
digits. -/
def strtol (s : List Char) : Int :=
  clamp_long
    (match s.dropWhile isspace with
     | [] => 0
     | c :: t =>
       if c = Char.ofNat 45 then - digits_value (t.takeWhile isdigit)
       else if c = Char.ofNat 43 then digits_value (t.takeWhile isdigit)
       else digits_value ((c :: t).takeWhile isdigit))

/-- Function `atoi`, which is `(int) strtol(s, NULL, 10)`: the value the `int`
variable `status` of `load_account` receives. -/
def atoi (s : List Char) : Int := int_of_long (strtol s)

/-- The `while (getline ..)` loop of `load_account` over the remaining lines.
`acc` is the caller's out-parameter, written only on a hit. -/
def load_account_loop (inputUsername : List Char) (acc : Account) :
    List (List Char) → Int × Account
  | [] => (0, acc)
  | line :: rest =>
    match strtok (cstr line) tok_delims with
    | none => load_account_loop inputUsername acc rest
    | some (username, after) =>
      match strtok after tok_delims with
      | none => load_account_loop inputUsername acc rest
      | some (statusStr, _) =>
        if username = inputUsername then
          (1, { username := some inputUsername, status := atoi statusStr })
        else load_account_loop inputUsername acc rest

/-- Function `load_account`: return value and the out-parameter `acc`. -/
def load_account (file : Option (List Char)) (inputUsername : List Char) (acc : Account) :
    Int × Account :=
  match file with
  | none => (-1, acc)
  | some content => load_account_loop inputUsername acc (getlines content)

/-! ## Protocol handlers -/

/-- Function `send_response`: `snprintf(response, BUFF_SIZE, "%s\r\n", code)` then
one `send` of `strlen(response)` bytes. -/
def send_response (sockfd : Int) (code : List Char) : Sent :=
  (sockfd, (code ++ [Char.ofNat 13, Char.ofNat 10]).take (BUFF_SIZE - 1))

/-- Function `process_user_command`. -/
def process_user_command (file : Option (List Char)) (session : Session) (arg : List Char) :
    Session × List Sent :=
  let sockfd := session.sockfd
  if session.logged_in ≠ 0 then
    (session, [send_response sockfd "213".toList])
  else if arg.length = 0 then
    (session, [send_response sockfd "300".toList])
  else
    match load_account file arg { username := none, status := 0 } with
    | (result, acc) =>
      if result = 1 then
        if acc.status = 0 then
          (session, [send_response sockfd "211".toList])
        else
          ({ session with logged_in := 1, username := acc.username.getD [] },
           [send_response sockfd "110".toList])
      else if result = 0 then
        (session, [send_response sockfd "212".toList])
      else
        (session, [send_response sockfd "500".toList])

/-- Function `process_post_command`. -/
def process_post_command (session : Session) : Session × List Sent :=
  let sockfd := session.sockfd
  if session.logged_in = 0 then
    (session, [send_response sockfd "221".toList])
  else
    (session, [send_response sockfd "120".toList])

/-- Function `process_bye_command`. -/
def process_bye_command (session : Session) : Session × List Sent :=
  let sockfd := session.sockfd
  if session.logged_in = 0 then
    (session, [send_response sockfd "221".toList])
  else
    ({ session with logged_in := 0, username := [] }, [send_response sockfd "130".toList])

/-- Function `strchr` on a C string: offset of the first `c`. -/
def strchr : List Char → Char → Option Nat
  | [], _ => none
  | x :: xs, c => if x = c then some 0 else (strchr xs c).map (· + 1)

/-- Function `toupper` in the C locale. -/
def toupper (c : Char) : Char :=
  if 97 ≤ c.toNat ∧ c.toNat ≤ 122 then Char.ofNat (c.toNat - 32) else c

/-- The `cmd` and `arg` arrays of `process_command` after parsing, before the
upper-casing loop: `cmd` holds at most 19 bytes, `arg` at most `BUFF_SIZE - 1`. -/
def parse_command (buffer : List Char) : List Char × List Char :=
  match strchr buffer (Char.ofNat 32) with
  | some space_ptr =>
    let cmd_len := if space_ptr ≥ 20 then 20 - 1 else space_ptr
    (buffer.take cmd_len, (buffer.drop (space_ptr + 1)).take (BUFF_SIZE - 1))
  | none => (buffer.take (20 - 1), [])

/-- Function `process_command`. -/
def process_command (file : Option (List Char)) (session : Session) (buffer : List Char) :
    Session × List Sent :=
  match parse_command buffer with
  | (cmd0, arg) =>
    let cmd := cmd0.map toupper
    if cmd = "USER".toList then process_user_command file session arg
    else if cmd = "POST".toList then process_post_command session
    else if cmd = "BYE".toList then process_bye_command session
    else (session, [send_response session.sockfd "300".toList])

/-- The command name of a line: the text before its first space. -/
def command_name (line : List Char) : List Char :=
  line.takeWhile (fun c => c != Char.ofNat 32)

/-- An anonymous session used in the concrete instances below. -/
def anon_session : Session :=
  { logged_in := 0, username := [], sockfd := 7, client_ip := "10.0.0.2".toList,
    client_port := 40000, active := 1, leftover := [], leftover_len := 0 }

/-- The same session after `alice` logged in. -/
def auth_session : Session :=
  { anon_session with logged_in := 1, username := "alice".toList }

/-- An account file with one active and one locked account. -/
def sample_file : Option (List Char) := some "alice 1\nbob 0\n".toList


/-! ## Stream reassembly (`recv_until_delim`) -/

/-- The delimiter the event loop passes: carriage return, line feed. -/
def crlf : List Char := [Char.ofNat 13, Char.ofNat 10]

/-- First offset at which `needle` starts in the C string `hay`. -/
def find_sub (needle : List Char) : List Char → Option Nat
  | [] => if needle = [] then some 0 else none
  | c :: cs =>
    if needle.isPrefixOf (c :: cs) then some 0 else (find_sub needle cs).map (· + 1)

/-- Function `strstr` applied to a buffer: it reads the C string stored there, so
the search ends at the first NUL byte. -/
def strstr (haystack needle : List Char) : Option Nat := find_sub needle (cstr haystack)

/-- Function `memcpy(dst + off, src, |src|)`, within the bounds of `dst`. -/
def memcpy (dst : List Char) (off : Nat) (src : List Char) : List Char :=
  dst.take off ++ src ++ dst.drop (off + src.length)

/-- The result of one `recv` call on a connection: the bytes it delivered (the
return value is their number, 0 meaning the peer closed), or failure (-1).  A
real call delivers at most `sizeof(temp_buf) = BUFF_SIZE` bytes. -/
inductive RecvResult where
  | received (bytes : List Char)
  | failed
deriving DecidableEq

/-- What a call of `recv_until_delim` leaves behind: its return value, the
session, the caller's buffer and the `recv` results not yet consumed. -/
structure RecvReturn where
  ret : Int
  session : Session
  out_buf : List Char
  sock : List RecvResult
deriving DecidableEq

/-- The `if(delim_pos)` block of `recv_until_delim`: the delimiter was found at
offset `msg_len` of `out_buf`, which holds `total_len` buffered bytes.  The
source computes `remain_len` in `size_t` and stores it in an `int`, which for
these magnitudes is the integer difference. -/
def extract_message (delim : List Char) (sock : List RecvResult) (session : Session)
    (out_buf : List Char) (total_len : Int) (msg_len : Nat) : RecvReturn :=
  let out_buf1 := out_buf.set msg_len NUL
  let remain_len : Int := total_len - ((msg_len : Int) + (delim.length : Int))
  if remain_len > 0 then
    { ret := msg_len,
      session := { session with
        leftover := memcpy session.leftover 0
          ((out_buf1.drop (msg_len + delim.length)).take remain_len.toNat),
        leftover_len := remain_len },
      out_buf := out_buf1, sock := sock }
  else
    { ret := msg_len, session := session, out_buf := out_buf1, sock := sock }

/-- The `while(1)` loop of `recv_until_delim`.  `sock` lists the results of the
coming `recv` calls; when it is used up the next `recv` never returns and the
result is `none`. -/
def recv_loop (max_len : Int) (delim : List Char) :
    List RecvResult → Session → List Char → Int → Option RecvReturn
  | [], session, out_buf, total_len =>
    match strstr out_buf delim with
    | some msg_len => some (extract_message delim [] session out_buf total_len msg_len)
    | none => none
  | r :: rest, session, out_buf, total_len =>
    match strstr out_buf delim with
    | some msg_len =>
      some (extract_message delim (r :: rest) session out_buf total_len msg_len)
    | none =>
      match r with
      | RecvResult.failed =>
        some { ret := -1, session := session, out_buf := out_buf, sock := rest }
      | RecvResult.received bytes =>
        if (bytes.length : Int) ≤ 0 then
          some { ret := bytes.length, session := session, out_buf := out_buf, sock := rest }
        else
          let bytes_recv : Int :=
            if total_len + (bytes.length : Int) ≥ max_len then max_len - total_len - 1
            else bytes.length
          let out_buf1 := memcpy out_buf total_len.toNat (bytes.take bytes_recv.toNat)
          let total_len1 := total_len + bytes_recv
          recv_loop max_len delim rest session (out_buf1.set total_len1.toNat NUL) total_len1

/-- Function `recv_until_delim`. -/
def recv_until_delim (session : Session) (out_buf : List Char) (max_len : Int)
    (delim : List Char) (sock : List RecvResult) : Option RecvReturn :=
  if session.leftover_len > 0 then
    recv_loop max_len delim sock { session with leftover_len := 0 }
      (memcpy out_buf 0 (session.leftover.take session.leftover_len.toNat))
      session.leftover_len
  else
    recv_loop max_len delim sock session out_buf 0

/-- The lines successive `recv_until_delim` calls return into the same buffer, up
to the first call that blocks or returns a value `<= 0` (which the caller takes
as the end of the connection); `fuel` bounds the number of calls. -/
def recv_lines : Nat → Session → List Char → List RecvResult → List (List Char)
  | 0, _, _, _ => []
  | fuel + 1, s, buf, sock =>
    match recv_until_delim s buf BUFF_SIZE crlf sock with
    | none => []
    | some r =>
      if r.ret ≤ 0 then [] else cstr r.out_buf :: recv_lines fuel r.session r.out_buf r.sock

/-! ## Work queue and the connection branch of the event loop -/

/-- A `Session*`: `none` is `NULL`, `some a` the session allocated at address `a`. -/
abbrev SessionPtr := Option Nat

/-- Struct `WorkItem`; `message` is the C string held in `char message[BUFF_SIZE]`. -/
structure WorkItem where
  session : SessionPtr
  message : List Char
deriving DecidableEq

/-- The globals `work_queue[100]`, `queue_front`, `queue_rear`, `queue_count`. -/
structure WorkQueue where
  work_queue : List WorkItem
  queue_front : Int
  queue_rear : Int
  queue_count : Int
deriving DecidableEq

/-- The queue at program start: static storage is zero-initialised. -/
def initial_queue : WorkQueue :=
  { work_queue := List.replicate 100 { session := none, message := [] },
    queue_front := 0, queue_rear := 0, queue_count := 0 }

/-- Function `enqueue_work`; `message` is the C string the caller's buffer holds. -/
def enqueue_work (q : WorkQueue) (session : SessionPtr) (message : List Char) : WorkQueue :=
  if q.queue_count < 100 then
    { work_queue := q.work_queue.set q.queue_rear.toNat
        { session := session, message := message.take (BUFF_SIZE - 1) },
      queue_front := q.queue_front,
      queue_rear := (q.queue_rear + 1) % 100,
      queue_count := q.queue_count + 1 }
  else q

/-- The queue after `enqueue_work` was called for each message in turn, for the
session at `ptr`. -/
def enqueue_all (ptr : SessionPtr) : WorkQueue → List (List Char) → WorkQueue
  | q, [] => q
  | q, m :: ms => enqueue_all ptr (enqueue_work q ptr m) ms

/-- How the `while(1)` loop of the connection branch of `main` ends. -/
inductive ReadOutcome where
  /-- Left by `break`, `leftover_len` being 0, no call having returned `<= 0`. -/
  | finished (session : Session) (buff : List Char) (sock : List RecvResult) (q : WorkQueue)
  /-- Left by `break` after `teardowns` calls returned `<= 0`: each time the
  socket was closed, `active` set to 0, `remove_from_poll(i)` called and `i`
  decremented. -/
  | torn_down (teardowns : Nat) (session : Session) (buff : List Char)
      (sock : List RecvResult) (q : WorkQueue)
  /-- A `recv` inside `recv_until_delim` never returns. -/
  | blocked (q : WorkQueue)
deriving DecidableEq

/-- The `while(1)` loop at the connection branch of `main` from its exit test
`if (session->leftover_len == 0) break;` on, once the session was torn down
`teardowns` times.  The source has no `break` at the teardown: it reads
`leftover_len` of the session `remove_from_poll` has freed (the embedding takes
the freed session to keep its content) and, when it is not 0, calls
`recv_until_delim` on it again; a `recv` on the closed descriptor fails. -/
def closed_loop (ptr : SessionPtr) :
    Nat → Nat → Session → List Char → List RecvResult → WorkQueue → Option ReadOutcome
  | 0, teardowns, session, buff, sock, q =>
    if session.leftover_len = 0 then
      some (ReadOutcome.torn_down teardowns session buff sock q)
    else none
  | fuel + 1, teardowns, session, buff, sock, q =>
    if session.leftover_len = 0 then
      some (ReadOutcome.torn_down teardowns session buff sock q)
    else
      match recv_until_delim session buff BUFF_SIZE crlf [RecvResult.failed] with
      | none => some (ReadOutcome.blocked q)
      | some r =>
        if r.ret ≤ 0 then
          closed_loop ptr fuel (teardowns + 1) { r.session with active := 0 } r.out_buf sock q
        else
          closed_loop ptr fuel teardowns r.session r.out_buf sock
            (enqueue_work q ptr (cstr r.out_buf))

/-- The `while(1)` loop at the connection branch of `main`, for the session at
address `ptr` with the stack buffer `buff`; `none` when the fuel (a bound on the
iterations) runs out. -/
def read_loop (ptr : SessionPtr) :
    Nat → Session → List Char → List RecvResult → WorkQueue → Option ReadOutcome
  | 0, _, _, _, _ => none
  | fuel + 1, session, buff, sock, q =>
    match recv_until_delim session buff BUFF_SIZE crlf sock with
    | none => some (ReadOutcome.blocked q)
    | some r =>
      if r.ret ≤ 0 then
        closed_loop ptr fuel 1 { r.session with active := 0 } r.out_buf r.sock q
      else
        if r.session.leftover_len = 0 then
          some (ReadOutcome.finished r.session r.out_buf r.sock
            (enqueue_work q ptr (cstr r.out_buf)))
        else
          read_loop ptr fuel r.session r.out_buf r.sock (enqueue_work q ptr (cstr r.out_buf))

/-- The part of `worker_thread` after the dequeue, for an item whose session
pointer refers to `target` (`none` for `NULL`): the command is processed only
when the session is still active.  Returns the session and what was sent. -/
def worker_process (file : Option (List Char)) (target : Option Session) (message : List Char) :
    Option Session × List Sent :=
  match target with
  | none => (none, [])
  | some s =>
    if s.active ≠ 0 then
      (some (process_command file s message).1, (process_command file s message).2)
    else (some s, [])

/-- One worker handling the given messages of one session one after the other,
in this order; the result lists, per message, what was sent for it. -/
def process_in_order (file : Option (List Char)) :
    Option Session → List (List Char) → Option Session × List (List Sent)
  | target, [] => (target, [])
  | target, m :: ms =>
    ((process_in_order file (worker_process file target m).1 ms).1,
     (worker_process file target m).2 ::
       (process_in_order file (worker_process file target m).1 ms).2)

/-! ## Vocabulary of the statements -/

/-- The bytes of a sequence of lines on the wire: each line followed by the
delimiter. -/
def wire : List (List Char) → List Char
  | [] => []
  | l :: ls => l ++ crlf ++ wire ls

/-- A complete line as a client sends it before the delimiter: no NUL byte and
no delimiter inside (the first delimiter of `l ++ crlf` is the final one). -/
def is_line (l : List Char) : Prop :=
  NUL ∉ l ∧ find_sub crlf (l ++ crlf) = some l.length

instance (l : List Char) : Decidable (is_line l) := by
  unfold is_line; exact inferInstance

/-- A zero-filled `char[BUFF_SIZE]`. -/
def zero_buf : List Char := List.replicate BUFF_SIZE NUL

/-- The given number of `BYE` lines. -/
def bye_lines (n : Nat) : List (List Char) := List.replicate n "BYE".toList

/-- The work queue an outcome of the extraction loop leaves. -/
def ReadOutcome.queue : ReadOutcome → WorkQueue
  | ReadOutcome.finished _ _ _ q => q
  | ReadOutcome.torn_down _ _ _ _ q => q
  | ReadOutcome.blocked q => q

/-- The number of teardowns in an extraction loop. -/
def ReadOutcome.teardowns : ReadOutcome → Nat
  | ReadOutcome.torn_down n _ _ _ _ => n
  | _ => 0

/-- Whether the extraction loop ended by tearing the session down. -/
def ReadOutcome.is_torn_down : ReadOutcome → Bool
  | ReadOutcome.torn_down _ _ _ _ _ => true
  | _ => false

/-- What the caller sees of a `recv_until_delim` call: the return value, the C
string left in `out_buf`, the session's pending leftover bytes and the `recv`
results still to come. -/
def RecvReturn.summary (r : RecvReturn) : Int × List Char × List Char × List RecvResult :=
  (r.ret, cstr r.out_buf, r.session.leftover.take r.session.leftover_len.toNat, r.sock)

/-- The next `recv_until_delim` call of the event loop on the same session, with
the same buffer. -/
def next_call (r : Option RecvReturn) : Option RecvReturn :=
  r.bind (fun r => recv_until_delim r.session r.out_buf BUFF_SIZE crlf r.sock)

/-- The byte stream `A\r\n\nX\rZ\r\n` (the lines `A` and `\nX\rZ`), delivered by
one `recv`. -/
def whole_stream : List RecvResult := [RecvResult.received "A\r\n\nX\rZ\r\n".toList]

/-- The same byte stream cut after its sixth byte, delivered by two `recv`s. -/
def split_stream : List RecvResult :=
  [RecvResult.received "A\r\n\nX\r".toList, RecvResult.received "Z\r\n".toList]

/-! ## The loop of `recv_until_delim`, iteration by iteration -/

/-- Macro `INITIAL_POLL_SIZE`. -/
def INITIAL_POLL_SIZE : Nat := 64

/-- Constant `INET_ADDRSTRLEN` of `<netinet/in.h>`. -/
def INET_ADDRSTRLEN : Nat := 16

/-- Constant `POLLIN` of `<poll.h>` (its value on Linux). -/
def POLLIN : Int := 1

/-- Struct `pollfd`. -/
structure PollFd where
  fd : Int
  events : Int
  revents : Int
deriving DecidableEq

/-- A `Session*` held in the `sessions` array: `none` is `NULL`, `some (a, s)`
the pointer to the session `s` allocated at address `a`, which the array owns. -/
abbrev SessionRef := Option (Nat × Session)

/-- The globals `poll_fds`, `sessions`, `poll_size`, `poll_count` and
`active_connections`.  Each list is an allocated array with all its slots, those
at and beyond `poll_count` included. -/
structure Registry where
  poll_fds : List PollFd
  sessions : List SessionRef
  poll_size : Int
  poll_count : Int
  active_connections : Int
deriving DecidableEq

/-- How the allocation calls made during one `add_to_poll` turn out: whether each
`realloc` of `expand_poll_arrays` succeeds, the address `malloc` returns for the
new `Session` (`none` for `NULL`), and the indeterminate content of the array
slots a `realloc` adds. -/
structure Alloc where
  realloc_poll_fds : Bool
  realloc_sessions : Bool
  malloc_session : Option Nat
  fresh_fd : PollFd
  fresh_ref : SessionRef
deriving DecidableEq

/-- A successful `realloc` of an array to `n` elements: the old elements are
kept, the added ones hold `fresh`. -/
def realloc_array {α : Type} (a : List α) (n : Nat) (fresh : α) : List α :=
  a.take n ++ List.replicate (n - a.length) fresh

/-- The `for(i = poll_size; i < new_size; i++)` loop of `expand_poll_arrays`:
`n` iterations starting at index `i`. -/
def init_slots : Nat → Nat → List PollFd → List SessionRef → List PollFd × List SessionRef
  | 0, _, fds, ss => (fds, ss)
  | n + 1, i, fds, ss =>
    init_slots n (i + 1)
      (fds.modify (fun p => { p with fd := -1, events := 0 }) i) (ss.set i none)

/-- Function `expand_poll_arrays`. -/
def expand_poll_arrays (env : Alloc) (r : Registry) : Registry :=
  let new_size := r.poll_size * 2
  if env.realloc_poll_fds = false then r
  else
    let fds1 := realloc_array r.poll_fds new_size.toNat env.fresh_fd
    if env.realloc_sessions = false then { r with poll_fds := fds1 }
    else
      let ss1 := realloc_array r.sessions new_size.toNat env.fresh_ref
      { r with
        poll_fds := (init_slots (new_size - r.poll_size).toNat r.poll_size.toNat fds1 ss1).1,
        sessions := (init_slots (new_size - r.poll_size).toNat r.poll_size.toNat fds1 ss1).2,
        poll_size := new_size }

/-- The session `add_to_poll` initialises; its `leftover` array is not written. -/
def new_session (sockfd : Int) (ip : List Char) (port : Int) : Session :=
  { logged_in := 0, username := [], sockfd := sockfd, client_ip := ip.take INET_ADDRSTRLEN,
    client_port := port, active := 1, leftover := [], leftover_len := 0 }

/-- How a call of `add_to_poll` ends. -/
inductive AddOutcome where
  /-- It returned `ret`, leaving the globals `reg`. -/
  | returned (ret : Int) (reg : Registry)
  /-- It wrote slot `index` of an array that has no such slot: the behaviour of
  the program is undefined from here on. -/
  | overrun (index : Int)
deriving DecidableEq

/-- Function `add_to_poll`. -/
def add_to_poll (env : Alloc) (r : Registry) (sockfd : Int) (ip : List Char) (port : Int) :
    AddOutcome :=
  let r1 := if r.poll_count ≥ r.poll_size then expand_poll_arrays env r else r
  match env.malloc_session with
  | none => AddOutcome.returned (-1) r1
  | some a =>
    if 0 ≤ r1.poll_count ∧ r1.poll_count.toNat < r1.poll_fds.length
        ∧ r1.poll_count.toNat < r1.sessions.length then
      AddOutcome.returned 0
        { r1 with
          poll_fds := r1.poll_fds.modify (fun p => { p with fd := sockfd, events := POLLIN })
            r1.poll_count.toNat,
          sessions := r1.sessions.set r1.poll_count.toNat
            (some (a, new_session sockfd ip port)),
          poll_count := r1.poll_count + 1,
          active_connections := r1.active_connections + 1 }
    else AddOutcome.overrun r1.poll_count

/-- The `for(i = index; i < poll_count - 1; i++) a[i] = a[i + 1]` loop of
`remove_from_poll` on one array: `n` iterations starting at index `i`. -/
def shift_down {α : Type} : Nat → Nat → List α → List α
  | 0, _, a => a
  | n + 1, i, a =>
    shift_down n (i + 1) (match a[i + 1]? with
      | some x => a.set i x
      | none => a)

/-- Function `remove_from_poll`.  Freeing the session leaves the arrays as they
are; the slot at the old `poll_count - 1` keeps its content. -/
def remove_from_poll (r : Registry) (index : Int) : Registry :=
  if index < 0 ∨ index ≥ r.poll_count then r
  else
    { r with
      poll_fds := shift_down (r.poll_count - 1 - index).toNat index.toNat r.poll_fds,
      sessions := shift_down (r.poll_count - 1 - index).toNat index.toNat r.sessions,
      poll_count := r.poll_count - 1,
      active_connections := r.active_connections - 1 }

/-- The registry when `main` enters its event loop: `INITIAL_POLL_SIZE` slots
from `calloc`, all set to `fd = -1` and `NULL`, the listening socket at index 0. -/
def initial_registry (listen_sock : Int) : Registry :=
  { poll_fds := { fd := listen_sock, events := POLLIN, revents := 0 } ::
      List.replicate (INITIAL_POLL_SIZE - 1) { fd := -1, events := 0, revents := 0 },
    sessions := List.replicate INITIAL_POLL_SIZE none,
    poll_size := INITIAL_POLL_SIZE,
    poll_count := 1,
    active_connections := 0 }

/-- One call on the registry: `add_to_poll` with the outcome of its allocations,
or `remove_from_poll`. -/
inductive RegistryOp where
  | add (env : Alloc) (sockfd : Int) (ip : List Char) (port : Int)
  | remove (index : Int)
deriving DecidableEq

/-- The registry after a sequence of calls; `none` once an `add_to_poll` has
overrun an array. -/
def run_ops : Registry → List RegistryOp → Option Registry
  | r, [] => some r
  | r, RegistryOp.add env sockfd ip port :: ops =>
    match add_to_poll env r sockfd ip port with
    | AddOutcome.returned _ r1 => run_ops r1 ops
    | AddOutcome.overrun _ => none
  | r, RegistryOp.remove index :: ops => run_ops (remove_from_poll r index) ops

/-- Allocation outcomes in which everything succeeds, the session getting
address `a`. -/
def alloc_ok (a : Nat) : Alloc :=
  { realloc_poll_fds := true, realloc_sessions := true, malloc_session := some a,
    fresh_fd := { fd := 0, events := 0, revents := 0 }, fresh_ref := none }

/-- The `i`-th of a series of sample connections: descriptor `100 + i`, from
port `5000 + i`, its session at address `i`. -/
def sample_add (i : Nat) : RegistryOp :=
  RegistryOp.add (alloc_ok i) (100 + (i : Int)) "10.0.0.2".toList (5000 + (i : Int))

/-- The calls accepting the sample connections `1` to `n`. -/
def sample_adds (n : Nat) : List RegistryOp := (List.range n).map (fun i => sample_add (i + 1))

/-- A registry whose counters fit its arrays: the listening socket is in,
`poll_count <= poll_size`, and both arrays have at least `poll_size` slots (the
`sessions` array exactly that many). -/
def Registry.wf (r : Registry) : Prop :=
  1 ≤ r.poll_count ∧ r.poll_count ≤ r.poll_size
    ∧ r.poll_size.toNat ≤ r.poll_fds.length ∧ r.sessions.length = r.poll_size.toNat

instance (r : Registry) : Decidable r.wf := by
  unfold Registry.wf; exact inferInstance

/-- A registry holding the listening socket and three connections, with
descriptors 101, 102 and 103. -/
def small_registry : Registry :=
  { poll_fds := [{ fd := 3, events := POLLIN, revents := 0 },
                 { fd := 101, events := POLLIN, revents := 0 },
                 { fd := 102, events := POLLIN, revents := POLLIN },
                 { fd := 103, events := POLLIN, revents := 0 },
                 { fd := -1, events := 0, revents := 0 },
                 { fd := -1, events := 0, revents := 0 }],
    sessions := [none, some (1, new_session 101 "10.0.0.2".toList 5001),
                 some (2, new_session 102 "10.0.0.2".toList 5002),
                 some (3, new_session 103 "10.0.0.2".toList 5003), none, none],
    poll_size := 6, poll_count := 4, active_connections := 3 }

/-- Allocation outcomes in which the first `realloc` of `expand_poll_arrays`
fails while `malloc` succeeds. -/
def alloc_no_growth (a : Nat) : Alloc := { alloc_ok a with realloc_poll_fds := false }

/-- Allocation outcomes in which the `realloc` of `sessions` fails after the one
of `poll_fds` succeeded, while `malloc` succeeds. -/
def alloc_half_growth (a : Nat) : Alloc := { alloc_ok a with realloc_sessions := false }

/-- Allocation outcomes in which `malloc` returns `NULL`. -/
def alloc_no_session : Alloc := { alloc_ok 0 with malloc_session := none }

/-- The registry once 63 connections were accepted: all 64 slots are in use. -/
def full_registry : Option Registry := run_ops (initial_registry 3) (sample_adds 63)

/-- Slot `i` of the descriptor table and slot `i` of the session table denote
the same connection: the session is present and `poll_fds[i].fd` is its
`sockfd`. -/
def slots_agree (r : Registry) (i : Nat) : Prop :=
  ∃ p a s, r.poll_fds[i]? = some p ∧ r.sessions[i]? = some (some (a, s)) ∧ p.fd = s.sockfd

/-- Successive `remove_from_poll` calls with the given indices. -/
def remove_all : Registry → List Int → Registry
  | r, [] => r
  | r, i :: rest => remove_all (remove_from_poll r i) rest

/-- Each index is that of a connection (`1 <= index < poll_count`) at the time
of its `remove_from_poll` call. -/
def valid_removes : Registry → List Int → Bool
  | _, [] => true
  | r, i :: rest =>
    decide (1 ≤ i) && decide (i < r.poll_count) && valid_removes (remove_from_poll r i) rest

/-- The arguments of one `add_to_poll` call and the outcome of its allocations. -/
structure AddCall where
  env : Alloc
  sockfd : Int
  ip : List Char
  port : Int
deriving DecidableEq

/-- Successive `add_to_poll` calls that all succeed: `none` as soon as one of
them does not return 0. -/
def add_all : Registry → List AddCall → Option Registry
  | r, [] => some r
  | r, c :: rest =>
    match add_to_poll c.env r c.sockfd c.ip c.port with
    | AddOutcome.returned ret r1 => if ret = 0 then add_all r1 rest else none
    | AddOutcome.overrun _ => none

/-- The return value of an `add_to_poll` call with the counters it leaves
(`poll_count`, `poll_size`, `active_connections`); `none` after an overrun. -/
def AddOutcome.summary : AddOutcome → Option (Int × Int × Int × Int)
  | AddOutcome.returned ret r => some (ret, r.poll_count, r.poll_size, r.active_connections)
  | AddOutcome.overrun _ => none

/-- The sample connection `i` as an `add_to_poll` call whose allocations succeed. -/
def sample_call (i : Nat) : AddCall :=
  { env := alloc_ok i, sockfd := 100 + (i : Int), ip := "10.0.0.2".toList,
    port := 5000 + (i : Int) }

/-- The calls accepting the sample connections `1` to `n`. -/
def sample_calls (n : Nat) : List AddCall := (List.range n).map (fun i => sample_call (i + 1))

/-- The calls on connections: every `add_to_poll`, and `remove_from_poll(i)`
with `i >= 1` (index 0 is the listening socket). -/
def RegistryOp.on_connection : RegistryOp → Bool
  | RegistryOp.add _ _ _ _ => true
  | RegistryOp.remove index => decide (1 ≤ index)

/-- The calls whose growth step, if it is taken, succeeds: an `add_to_poll` both
of whose `realloc` calls would succeed, and every `remove_from_poll`. -/
def RegistryOp.growth_succeeds : RegistryOp → Bool
  | RegistryOp.add env _ _ _ => env.realloc_poll_fds && env.realloc_sessions
  | RegistryOp.remove _ => true

/-- A 64th connection accepted while the `realloc` of `sessions` fails, the one
of `poll_fds` having succeeded. -/
def half_grown_add : RegistryOp :=
  RegistryOp.add (alloc_half_growth 64) 164 "10.0.0.2".toList 5064

/-- A 64th connection accepted while the `realloc` of `poll_fds` fails. -/
def ungrown_call : AddCall :=
  { env := alloc_no_growth 64, sockfd := 164, ip := "10.0.0.2".toList, port := 5064 }

/-- Three sample connections accepted, then the first one removed, then a
removal with an index out of range. -/
def sample_ops : List RegistryOp :=
  sample_adds 3 ++ [RegistryOp.remove 1, RegistryOp.remove 9]

/-- The registry the sample calls lead to. -/
def sample_state : Registry :=
  (run_ops (initial_registry 3) sample_ops).getD (initial_registry 3)

/-- The registry once the sample connections 1, 2 and 3 were accepted. -/
def three_connections : Registry :=
  (run_ops (initial_registry 3) (sample_adds 3)).getD (initial_registry 3)

/-- A fourth connection whose `Session` allocation fails. -/
def failing_call : AddCall :=
  { env := alloc_no_session, sockfd := 104, ip := "10.0.0.2".toList, port := 5004 }

/-- The registry holds the listening socket at index 0 and exactly the
connections of `done`, the `i`-th of them at index `i`, in a table whose
capacity is the least `64 * 2^j` that has room for them. -/
def holds_connections (listen_sock : Int) (r : Registry) (done : List AddCall) : Prop :=
  r.poll_count = (done.length : Int) + 1
  ∧ r.poll_count ≤ r.poll_size
  ∧ (∃ j : Nat, r.poll_size = ((INITIAL_POLL_SIZE * 2 ^ j : Nat) : Int)
      ∧ ∀ j' : Nat, j' < j → INITIAL_POLL_SIZE * 2 ^ j' < done.length + 1)
  ∧ (∃ p, r.poll_fds[0]? = some p ∧ p.fd = listen_sock)
  ∧ ∀ (i : Nat) (c : AddCall), done[i]? = some c →
      ∃ a p, c.env.malloc_session = some a
        ∧ r.sessions[i + 1]? = some (some (a, new_session c.sockfd c.ip c.port))
        ∧ r.poll_fds[i + 1]? = some p ∧ p.fd = c.sockfd ∧ p.events = POLLIN

/-- The registry once the sample connections 1 to 65 were accepted. -/
def grown_registry : Registry :=
  (add_all (initial_registry 3) (sample_calls 65)).getD (initial_registry 3)

/-! ## The work queue as a FIFO -/

/-- The dequeue of `worker_thread`, done under `queue_mutex`: `none` while
`queue_count` is 0 (the worker waits on `queue_cond`), else the item at
`queue_front` and the queue after it. -/
def dequeue_work (q : WorkQueue) : Option (WorkItem × WorkQueue) :=
  if q.queue_count = 0 then none
  else
    some (q.work_queue[q.queue_front.toNat]?.getD { session := none, message := [] },
          { q with queue_front := (q.queue_front + 1) % 100,
                   queue_count := q.queue_count - 1 })

/-- A step on the work queue: an `enqueue_work` call of the event loop, or a
worker's attempt to dequeue.  Each runs with `queue_mutex` held, so the steps of
the threads happen one after the other. -/
inductive QueueOp where
  | enqueue (session : SessionPtr) (message : List Char)
  | dequeue
deriving DecidableEq

/-- The work item `enqueue_work` writes for its arguments: the session pointer
and the message cut to `BUFF_SIZE - 1` bytes. -/
def stored_item (session : SessionPtr) (message : List Char) : WorkItem :=
  { session := session, message := message.take (BUFF_SIZE - 1) }

/-- The queue after a sequence of steps, and the items the workers dequeued, in
the order of their dequeues.  A dequeue attempt on an empty queue takes nothing. -/
def run_queue : WorkQueue → List QueueOp → WorkQueue × List WorkItem
  | q, [] => (q, [])
  | q, QueueOp.enqueue session message :: ops => run_queue (enqueue_work q session message) ops
  | q, QueueOp.dequeue :: ops =>
    match dequeue_work q with
    | none => run_queue q ops
    | some (item, q1) => ((run_queue q1 ops).1, item :: (run_queue q1 ops).2)

/-- The items accepted during a sequence of steps: those of the `enqueue_work`
calls that found `queue_count < 100`, in the order of the calls. -/
def accepted_items : WorkQueue → List QueueOp → List WorkItem
  | _, [] => []
  | q, QueueOp.enqueue session message :: ops =>
    if q.queue_count < 100 then
      stored_item session message :: accepted_items (enqueue_work q session message) ops
    else accepted_items (enqueue_work q session message) ops
  | q, QueueOp.dequeue :: ops =>
    match dequeue_work q with
    | none => accepted_items q ops
    | some (_, q1) => accepted_items q1 ops

/-- The items the circular buffer holds, oldest first: `queue_count` slots from
`queue_front` on, wrapping at 100. -/
def queue_contents (q : WorkQueue) : List WorkItem :=
  (List.range q.queue_count.toNat).map
    (fun k => q.work_queue[(q.queue_front.toNat + k) % 100]?.getD
      { session := none, message := [] })

/-- Specification: `enqueue` on a bounded FIFO list of capacity 100; an item
offered to a full list is dropped. -/
def fifo_enqueue (l : List WorkItem) (item : WorkItem) : List WorkItem :=
  if l.length < 100 then l ++ [item] else l

/-- Specification: a run of the bounded FIFO list over the same steps, giving
the final list and the items taken from its head, in order. -/
def run_fifo : List WorkItem → List QueueOp → List WorkItem × List WorkItem
  | l, [] => (l, [])
  | l, QueueOp.enqueue session message :: ops =>
    run_fifo (fifo_enqueue l (stored_item session message)) ops
  | [], QueueOp.dequeue :: ops => run_fifo [] ops
  | item :: l, QueueOp.dequeue :: ops => ((run_fifo l ops).1, item :: (run_fifo l ops).2)

/-- The counters of a work queue are consistent with its 100-slot array. -/
def WorkQueue.wf (q : WorkQueue) : Prop :=
  q.work_queue.length = 100 ∧ 0 ≤ q.queue_front ∧ q.queue_front < 100
    ∧ 0 ≤ q.queue_count ∧ q.queue_count ≤ 100
    ∧ q.queue_rear = (q.queue_front + q.queue_count) % 100

/-- A sample run: two commands are enqueued, one is dequeued, a third is
enqueued, then three dequeues are attempted. -/
def sample_queue_ops : List QueueOp :=
  [QueueOp.enqueue (some 1) "USER alice".toList, QueueOp.enqueue (some 1) "POST hi".toList,
   QueueOp.dequeue, QueueOp.enqueue (some 2) "BYE".toList,
   QueueOp.dequeue, QueueOp.dequeue, QueueOp.dequeue]

/-! ## Account records, as `load_account` reads them -/

/-- Two bytes are the same letter in possibly different case, or the same byte. -/
def same_letter (c d : Char) : Prop :=
  c = d ∨ (65 ≤ c.toNat ∧ c.toNat ≤ 90 ∧ d.toNat = c.toNat + 32)
    ∨ (65 ≤ d.toNat ∧ d.toNat ≤ 90 ∧ c.toNat = d.toNat + 32)

instance (c d : Char) : Decidable (same_letter c d) := by
  unfold same_letter; exact inferInstance

/-! ## One pass of the event loop (`main`) -/

/-- The result of an `accept` call on the listening socket: failure (-1), or the
new descriptor with the peer's address and the outcome of the allocations that
`add_to_poll` makes for it. -/
inductive AcceptResult where
  | failed
  | connected (new_sock : Int) (ip : List Char) (port : Int) (env : Alloc)
deriving DecidableEq

/-- What a pass of the event loop reads and writes: the registry, the work
queue, the stack buffer `buff` (the same storage in every iteration), the
results of the coming `accept` calls, for each descriptor the results of its
coming `recv` calls, what was sent and which descriptors were closed; and, as
a record of the pass, the `poll_fds` entries whose `revents` was tested and the
descriptors `recv_until_delim` was called on. -/
structure Server where
  reg : Registry
  queue : WorkQueue
  buff : List Char
  accepts : List AcceptResult
  conns : List (Int × List RecvResult)
  sent : List Sent
  closed : List Int
  examined : List PollFd
  read_from : List Int
deriving DecidableEq

/-- The results of the coming `recv` calls on descriptor `fd`. -/
def pending : List (Int × List RecvResult) → Int → List RecvResult
  | [], _ => []
  | (d, sock) :: rest, fd => if d = fd then sock else pending rest fd

/-- The connections after the `recv` calls on `fd` left `sock` to come. -/
def set_pending : List (Int × List RecvResult) → Int → List RecvResult →
    List (Int × List RecvResult)
  | [], fd, sock => [(fd, sock)]
  | (d, old) :: rest, fd, sock =>
    if d = fd then (d, sock) :: rest else (d, old) :: set_pending rest fd sock

/-- How a pass over the entries ends. -/
inductive PassOutcome where
  /-- The `for` loop reached `poll_count`. -/
  | completed (s : Server)
  /-- An `accept` or a `recv` does not return. -/
  | blocked (s : Server)
  /-- An array was accessed outside its slots. -/
  | undefined (s : Server)
deriving DecidableEq

/-- The state an outcome leaves. -/
def PassOutcome.server : PassOutcome → Server
  | PassOutcome.completed s => s
  | PassOutcome.blocked s => s
  | PassOutcome.undefined s => s

/-- Whether the pass reached the end of the table. -/
def PassOutcome.is_completed : PassOutcome → Bool
  | PassOutcome.completed _ => true
  | _ => false

/-- How the body of the `for` loop ends for one index. -/
inductive Step where
  /-- The loop goes on, its next index being `i`. -/
  | next (i : Nat) (s : Server)
  /-- The pass ends here. -/
  | stop (o : PassOutcome)
  /-- The bound on the iterations of the extraction loop ran out. -/
  | out_of_fuel
deriving DecidableEq

/-- The branch of the loop body for the listening socket: `accept`, then
`add_to_poll` and the greeting 100, or 500 and `close` when it fails. -/
def accept_connection (i : Nat) (s : Server) : Step :=
  match s.accepts with
  | [] => Step.stop (PassOutcome.blocked s)
  | AcceptResult.failed :: rest => Step.next (i + 1) { s with accepts := rest }
  | AcceptResult.connected new_sock ip port env :: rest =>
    match add_to_poll env s.reg new_sock ip port with
    | AddOutcome.returned ret reg1 =>
      if ret = 0 then
        Step.next (i + 1)
          { s with reg := reg1, accepts := rest,
                   sent := s.sent ++ [send_response new_sock "100".toList] }
      else
        Step.next (i + 1)
          { s with reg := reg1, accepts := rest,
                   sent := s.sent ++ [send_response new_sock "500".toList],
                   closed := s.closed ++ [new_sock] }
    | AddOutcome.overrun _ => Step.stop (PassOutcome.undefined { s with accepts := rest })

/-- The `remove_from_poll(i); i--;` pairs of `teardowns` teardowns in one
extraction loop, the first of them at index `i`. -/
def teardown_removes : Nat → Int → Registry → Registry
  | 0, _, r => r
  | n + 1, i, r => teardown_removes n (i - 1) (remove_from_poll r i)

/-- The branch of the loop body for a connection: the extraction loop on
`sessions[i]`.  Each teardown calls `remove_from_poll` with the current index
and decrements it, so after `teardowns` of them the next index of the `for`
loop is `i + 1 - teardowns`; when that is negative the loop goes on to read
`poll_fds` before its first slot. -/
def serve_connection (fuel : Nat) (i : Nat) (s : Server) : Step :=
  match s.reg.sessions[i]? with
  | none => Step.stop (PassOutcome.undefined s)
  | some none => Step.next (i + 1) s
  | some (some (a, session)) =>
    match read_loop (some a) fuel session s.buff (pending s.conns session.sockfd) s.queue with
    | none => Step.out_of_fuel
    | some (ReadOutcome.blocked q) =>
      Step.stop (PassOutcome.blocked
        { s with queue := q, read_from := s.read_from ++ [session.sockfd] })
    | some (ReadOutcome.finished session1 buff1 sock1 q) =>
      Step.next (i + 1)
        { s with reg := { s.reg with sessions := s.reg.sessions.set i (some (a, session1)) },
                 queue := q, buff := buff1,
                 conns := set_pending s.conns session.sockfd sock1,
                 read_from := s.read_from ++ [session.sockfd] }
    | some (ReadOutcome.torn_down teardowns session1 buff1 sock1 q) =>
      if (i : Int) + 1 - (teardowns : Int) < 0 then
        Step.stop (PassOutcome.undefined
          { s with reg := teardown_removes teardowns i s.reg,
                   queue := q, buff := buff1,
                   conns := set_pending s.conns session.sockfd sock1,
                   closed := s.closed ++ List.replicate teardowns session1.sockfd,
                   read_from := s.read_from ++ [session.sockfd] })
      else
        Step.next (i + 1 - teardowns)
          { s with reg := teardown_removes teardowns i s.reg,
                   queue := q, buff := buff1,
                   conns := set_pending s.conns session.sockfd sock1,
                   closed := s.closed ++ List.replicate teardowns session1.sockfd,
                   read_from := s.read_from ++ [session.sockfd] }

/-- The body of `for(int i = 0; i < poll_count; i++)` in `main` for index `i`. -/
def visit (listen_sock : Int) (fuel : Nat) (i : Nat) (s : Server) : Step :=
  match s.reg.poll_fds[i]? with
  | none => Step.stop (PassOutcome.undefined s)
  | some p =>
    if Int.land p.revents POLLIN ≠ 0 then
      if p.fd = listen_sock then accept_connection i { s with examined := s.examined ++ [p] }
      else serve_connection fuel i { s with examined := s.examined ++ [p] }
    else Step.next (i + 1) { s with examined := s.examined ++ [p] }

/-- The `for` loop of `main` from index `i` on; `steps` bounds its iterations
(`none` when it runs out) and `fuel` those of each extraction loop. -/
def poll_pass_loop (listen_sock : Int) (fuel : Nat) : Nat → Nat → Server → Option PassOutcome
  | 0, _, _ => none
  | steps + 1, i, s =>
    if (i : Int) < s.reg.poll_count then
      match visit listen_sock fuel i s with
      | Step.next j s1 => poll_pass_loop listen_sock fuel steps j s1
      | Step.stop o => some o
      | Step.out_of_fuel => none
    else some (PassOutcome.completed s)

/-- What `poll` writes: for each of the first `n` entries, `revents` is the part
of `events` that is ready (`POLLIN` for a descriptor of `ready`), 0 for a
negative descriptor. -/
def poll_revents (ready : List Int) : Nat → List PollFd → List PollFd
  | 0, fds => fds
  | _ + 1, [] => []
  | n + 1, p :: fds =>
    { p with revents := if 0 ≤ p.fd ∧ p.fd ∈ ready then Int.land p.events POLLIN else 0 } ::
      poll_revents ready n fds

/-- The call `poll(poll_fds, poll_count, -1)` returning while the descriptors of
`ready` are readable. -/
def poll (ready : List Int) (r : Registry) : Registry :=
  { r with poll_fds := poll_revents ready r.poll_count.toNat r.poll_fds }

/-- One iteration of the `while(1)` loop of `main`: `poll`, then the pass over
the entries. -/
def event_pass (listen_sock : Int) (fuel steps : Nat) (ready : List Int) (s : Server) :
    Option PassOutcome :=
  poll_pass_loop listen_sock fuel steps 0
    { s with reg := poll ready s.reg, examined := [], read_from := [] }

/-- Successive iterations of the `while(1)` loop of `main`, `poll` reporting the
given descriptors at each; the outcome of the last one reached. -/
def event_passes (listen_sock : Int) (fuel steps : Nat) :
    Server → List (List Int) → Option PassOutcome
  | s, [] => some (PassOutcome.completed s)
  | s, [ready] => event_pass listen_sock fuel steps ready s
  | s, ready :: more =>
    match event_pass listen_sock fuel steps ready s with
    | some (PassOutcome.completed s1) => event_passes listen_sock fuel steps s1 more
    | other => other

/-- The server when `main` enters its event loop, with the given future of its
sockets. -/
def initial_server (listen_sock : Int) (accepts : List AcceptResult)
    (conns : List (Int × List RecvResult)) : Server :=
  { reg := initial_registry listen_sock, queue := initial_queue, buff := zero_buf,
    accepts := accepts, conns := conns, sent := [], closed := [], examined := [],
    read_from := [] }

/-- What a pass leaves, in short: whether it completed, `poll_count`, the
descriptor and `revents` of each entry examined, the descriptors read from,
and what was sent. -/
structure PassSummary where
  completed : Bool
  poll_count : Int
  examined : List (Int × Int)
  read_from : List Int
  sent : List Sent
deriving DecidableEq

/-- The summary of an outcome. -/
def PassOutcome.summary (o : PassOutcome) : PassSummary :=
  { completed := o.is_completed, poll_count := o.server.reg.poll_count,
    examined := o.server.examined.map (fun p => (p.fd, p.revents)),
    read_from := o.server.read_from, sent := o.server.sent }

/-- The entries a pass at index `i` has still to examine: those from `i` up to
`poll_count`. -/
def to_examine (r : Registry) (i : Nat) : List PollFd :=
  (r.poll_fds.take r.poll_count.toNat).drop i

/-- The entry belongs to a connection accepted among `accepts`. -/
def accepted_among (accepts : List AcceptResult) (p : PollFd) : Prop :=
  ∃ ip port env, AcceptResult.connected p.fd ip port env ∈ accepts

/-- The invariant of a pass that `poll` started on the entries `table` with the
`accept` results `accepts` to come: the counters fit the arrays, and the
entries examined so far followed by those still to examine are the entries of
`table`, in their order, followed by entries of connections accepted during
the pass. -/
def pass_inv (table : List PollFd) (accepts : List AcceptResult) (i : Nat) (s : Server) :
    Prop :=
  s.reg.poll_count ≤ s.reg.poll_size ∧ s.reg.poll_size.toNat ≤ s.reg.poll_fds.length
    ∧ s.reg.sessions.length = s.reg.poll_size.toNat
    ∧ (i : Int) ≤ s.reg.poll_count
    ∧ (∃ used, accepts = used ++ s.accepts)
    ∧ ∃ added, s.examined ++ to_examine s.reg i = table ++ added
        ∧ ∀ p ∈ added, accepted_among accepts p

/-- Three clients connect one after the other; the first sends `POST`, the
second closes its connection, the third sends `BYE`. -/
def three_clients : Server :=
  initial_server 3
    [AcceptResult.connected 4 "10.0.0.2".toList 5001 (alloc_ok 1),
     AcceptResult.connected 5 "10.0.0.3".toList 5002 (alloc_ok 2),
     AcceptResult.connected 6 "10.0.0.4".toList 5003 (alloc_ok 3)]
    [(4, [RecvResult.received "POST\r\n".toList]), (5, [RecvResult.received []]),
     (6, [RecvResult.received "BYE\r\n".toList])]

/-- The server once the three clients were accepted, one per pass. -/
def three_accepted : Server :=
  ((event_passes 3 10 100 three_clients [[3], [3], [3]]).map PassOutcome.server).getD
    three_clients

/-- The outcome of the pass in which all three connections are readable. -/
def three_served : PassOutcome :=
  (event_pass 3 10 100 [4, 5, 6] three_accepted).getD (PassOutcome.completed three_accepted)

/-- A client connects and sends two empty lines in one segment. -/
def empty_lines_client : Server :=
  initial_server 3
    [AcceptResult.connected 4 "10.0.0.2".toList 5001 (alloc_ok 1)]
    [(4, [RecvResult.received "\r\n\r\n".toList])]

/-- A first client connects and closes its connection; then a second client
connects and sends nothing.  Both get descriptor 4, the lowest one free. -/
def late_client : Server :=
  initial_server 3
    [AcceptResult.connected 4 "10.0.0.2".toList 5001 (alloc_ok 1),
     AcceptResult.connected 4 "10.0.0.3".toList 5002 (alloc_ok 2)]
    [(4, [RecvResult.received []])]

/-! ## Lock calls -/

/-- The mutexes of the program: the registry lock `sessions_mutex`, the queue
lock `queue_mutex`, and the `session_lock` of the session at an address. -/
inductive Mutex where
  | sessions_mutex
  | queue_mutex
  | session_lock (a : Nat)
deriving DecidableEq

/-- A `pthread_mutex_lock` or `pthread_mutex_unlock` call. -/
inductive LockEvent where
  | lock (m : Mutex)
  | unlock (m : Mutex)
deriving DecidableEq

/-- The loop of `find_session_by_sockfd`: `n` iterations from index `i`. -/
def find_session_loop (r : Registry) (sockfd : Int) : Nat → Nat → SessionRef
  | 0, _ => none
  | n + 1, i =>
    match r.sessions[i]? with
    | some (some (a, s)) =>
      if s.sockfd = sockfd then some (a, s) else find_session_loop r sockfd n (i + 1)
    | _ => find_session_loop r sockfd n (i + 1)

/-- Function `find_session_by_sockfd`: its result and its lock calls, on the
return inside the loop and on the one after it. -/
def find_session_by_sockfd (r : Registry) (sockfd : Int) : SessionRef × List LockEvent :=
  match find_session_loop r sockfd r.poll_count.toNat 0 with
  | some x =>
    (some x, [LockEvent.lock Mutex.sessions_mutex, LockEvent.unlock Mutex.sessions_mutex])
  | none => (none, [LockEvent.lock Mutex.sessions_mutex, LockEvent.unlock Mutex.sessions_mutex])

/-- The lock calls of `add_to_poll`, on the return after a failed `malloc` and
on the final one (`pthread_mutex_init` acquires nothing). -/
def add_to_poll_locks (env : Alloc) : List LockEvent :=
  match env.malloc_session with
  | none => [LockEvent.lock Mutex.sessions_mutex, LockEvent.unlock Mutex.sessions_mutex]
  | some _ => [LockEvent.lock Mutex.sessions_mutex, LockEvent.unlock Mutex.sessions_mutex]

/-- The lock calls of `remove_from_poll`, on the return for an index out of
range and on the final one (`pthread_mutex_destroy` acquires nothing). -/
def remove_from_poll_locks (r : Registry) (index : Int) : List LockEvent :=
  if index < 0 ∨ index ≥ r.poll_count then
    [LockEvent.lock Mutex.sessions_mutex, LockEvent.unlock Mutex.sessions_mutex]
  else [LockEvent.lock Mutex.sessions_mutex, LockEvent.unlock Mutex.sessions_mutex]

/-- The lock calls of `process_user_command` for the session at address `a`, on
each of its return paths. -/
def process_user_command_locks (file : Option (List Char)) (a : Nat) (session : Session)
    (arg : List Char) : List LockEvent :=
  if session.logged_in ≠ 0 then
    [LockEvent.lock (Mutex.session_lock a), LockEvent.unlock (Mutex.session_lock a)]
  else if arg.length = 0 then
    [LockEvent.lock (Mutex.session_lock a), LockEvent.unlock (Mutex.session_lock a)]
  else
    match load_account file arg { username := none, status := 0 } with
    | (result, acc) =>
      if result = 1 ∧ acc.status = 0 then
        [LockEvent.lock (Mutex.session_lock a), LockEvent.unlock (Mutex.session_lock a)]
      else [LockEvent.lock (Mutex.session_lock a), LockEvent.unlock (Mutex.session_lock a)]

/-- The lock calls of `process_post_command`, which has one return path. -/
def process_post_command_locks (a : Nat) : List LockEvent :=
  [LockEvent.lock (Mutex.session_lock a), LockEvent.unlock (Mutex.session_lock a)]

/-- The lock calls of `process_bye_command`, which has one return path. -/
def process_bye_command_locks (a : Nat) : List LockEvent :=
  [LockEvent.lock (Mutex.session_lock a), LockEvent.unlock (Mutex.session_lock a)]

/-- The lock calls of `process_command`: those of the handler it dispatches to,
none for an unknown command. -/
def process_command_locks (file : Option (List Char)) (a : Nat) (session : Session)
    (buffer : List Char) : List LockEvent :=
  match parse_command buffer with
  | (cmd0, arg) =>
    let cmd := cmd0.map toupper
    if cmd = "USER".toList then process_user_command_locks file a session arg
    else if cmd = "POST".toList then process_post_command_locks a
    else if cmd = "BYE".toList then process_bye_command_locks a
    else []

/-- The lock calls of `enqueue_work`. -/
def enqueue_work_locks : List LockEvent :=
  [LockEvent.lock Mutex.queue_mutex, LockEvent.unlock Mutex.queue_mutex]

/-- The lock calls of one iteration of `worker_thread` that waits `waits` times
on `queue_cond` (each wait releases `queue_mutex` and takes it again), then
handles an item whose session pointer refers to `target`. -/
def worker_iteration_locks (file : Option (List Char)) (waits : Nat)
    (target : Option (Nat × Session)) (message : List Char) : List LockEvent :=
  [LockEvent.lock Mutex.queue_mutex]
    ++ (List.replicate waits
          [LockEvent.unlock Mutex.queue_mutex, LockEvent.lock Mutex.queue_mutex]).flatten
    ++ [LockEvent.unlock Mutex.queue_mutex]
    ++ (match target with
        | none => []
        | some (a, s) => if s.active ≠ 0 then process_command_locks file a s message else [])

/-- A call that takes locks, made by the event-loop thread (`add_to_poll`,
`remove_from_poll`, `enqueue_work`), by a worker (an iteration of
`worker_thread`), or by any thread (`find_session_by_sockfd`). -/
inductive LockingCall where
  | add (env : Alloc)
  | remove (r : Registry) (index : Int)
  | find (r : Registry) (sockfd : Int)
  | enqueue
  | work (file : Option (List Char)) (waits : Nat) (target : Option (Nat × Session))
      (message : List Char)

/-- The lock calls of one call. -/
def LockingCall.locks : LockingCall → List LockEvent
  | LockingCall.add env => add_to_poll_locks env
  | LockingCall.remove r index => remove_from_poll_locks r index
  | LockingCall.find r sockfd => (find_session_by_sockfd r sockfd).2
  | LockingCall.enqueue => enqueue_work_locks
  | LockingCall.work file waits target message =>
    worker_iteration_locks file waits target message

/-- The lock calls of a thread that makes the given calls one after the other. -/
def thread_locks (calls : List LockingCall) : List LockEvent :=
  (calls.map LockingCall.locks).flatten

/-- The mutexes a thread holds after the given lock calls, starting with `held`. -/
def held_after : List Mutex → List LockEvent → List Mutex
  | held, [] => held
  | held, LockEvent.lock m :: rest => held_after (m :: held) rest
  | held, LockEvent.unlock m :: rest => held_after (held.erase m) rest

/-- Whether a mutex is a session lock. -/
def Mutex.is_session_lock : Mutex → Bool
  | Mutex.session_lock _ => true
  | _ => false

/-- The lock order is kept along the lock calls of a thread that starts with
`held`: no session lock is acquired while `sessions_mutex` is held. -/
def lock_order_kept : List Mutex → List LockEvent → Bool
  | _, [] => true
  | held, LockEvent.lock m :: rest =>
    !(m.is_session_lock && held.contains Mutex.sessions_mutex)
      && lock_order_kept (m :: held) rest
  | held, LockEvent.unlock m :: rest => lock_order_kept (held.erase m) rest
/-! # Protocol state machine -/

theorem strchr_some_take (c : Char) : ∀ (l : List Char) (i : Nat), strchr l c = some i →
    l.takeWhile (fun x => x != c) = l.take i
  | [], i, h => by simp [strchr] at h
  | x :: xs, i, h => by
    unfold strchr at h
    by_cases hx : x = c
    · simp [hx] at h
      subst h
      simp [hx]
    · simp only [hx, if_false, Option.map_eq_some'] at h
      obtain ⟨j, hj, rfl⟩ := h
      have ih := strchr_some_take c xs j hj
      simp [List.takeWhile_cons, hx, ih]

theorem strchr_none_takeWhile (c : Char) : ∀ (l : List Char), strchr l c = none →
    l.takeWhile (fun x => x != c) = l
  | [], _ => by simp
  | x :: xs, h => by
    unfold strchr at h
    by_cases hx : x = c
    · simp [hx] at h
    · simp only [hx, if_false, Option.map_eq_none'] at h
      simp [List.takeWhile_cons, hx, strchr_none_takeWhile c xs h]

theorem parse_command_fst (line : List Char) :
    (parse_command line).1 = (command_name line).take 19 := by
  unfold parse_command command_name
  cases h : strchr line (Char.ofNat 32) with
  | none => simp [strchr_none_takeWhile _ _ h]
  | some i =>
    simp only [strchr_some_take _ _ _ h]
    by_cases hi : i ≥ 20
    · simp only [hi, if_true, List.take_take]
      congr 1; omega
    · simp only [hi, if_false, List.take_take]
      congr 1; omega

theorem user_line_eq (name : List Char) :
    "USER ".toList ++ name = 'U' :: 'S' :: 'E' :: 'R' :: ' ' :: name := rfl

theorem parse_user_line (name : List Char) :
    parse_command ("USER ".toList ++ name) = ("USER".toList, name.take (BUFF_SIZE - 1)) := by
  rw [user_line_eq]
  simp [parse_command, strchr]

theorem post_line_eq (text : List Char) :
    "POST ".toList ++ text = 'P' :: 'O' :: 'S' :: 'T' :: ' ' :: text := rfl

theorem parse_post_line (text : List Char) :
    (parse_command ("POST ".toList ++ text)).1 = "POST".toList := by
  rw [post_line_eq]
  simp [parse_command, strchr]

/-! Dispatch of `process_command` by the upper-cased `cmd` array. -/

theorem dispatch_user (file : Option (List Char)) (s : Session) (line : List Char)
    (h : (parse_command line).1.map toupper = "USER".toList) :
    process_command file s line = process_user_command file s (parse_command line).2 := by
  unfold process_command
  simp only [h, if_true]

theorem dispatch_post (file : Option (List Char)) (s : Session) (line : List Char)
    (h : (parse_command line).1.map toupper = "POST".toList) :
    process_command file s line = process_post_command s := by
  unfold process_command
  simp only [h]
  rfl

theorem dispatch_other (file : Option (List Char)) (s : Session) (line : List Char)
    (h1 : (parse_command line).1.map toupper ≠ "USER".toList)
    (h2 : (parse_command line).1.map toupper ≠ "POST".toList)
    (h3 : (parse_command line).1.map toupper ≠ "BYE".toList) :
    process_command file s line = (s, [send_response s.sockfd "300".toList]) := by
  unfold process_command
  simp only [h1, h2, h3, if_false]

theorem send_response_code (fd : Int) (a b c : Char) :
    send_response fd [a, b, c] = (fd, [a, b, c, Char.ofNat 13, Char.ofNat 10]) := by
  simp [send_response, BUFF_SIZE]

theorem user_line_dispatch (file : Option (List Char)) (s : Session) (name : List Char) :
    process_command file s ("USER ".toList ++ name)
      = process_user_command file s (name.take (BUFF_SIZE - 1)) := by
  have h : (parse_command ("USER ".toList ++ name)).1.map toupper = "USER".toList := by
    rw [parse_user_line]
    show List.map toupper "USER".toList = "USER".toList
    decide
  rw [dispatch_user file s _ h, parse_user_line]

theorem load_account_loop_found (name : List Char) (a acc : Account) :
    ∀ lines : List (List Char), load_account_loop name a lines = (1, acc) →
      acc.username = some name
  | [], h => by simp [load_account_loop] at h
  | line :: rest, h => by
    unfold load_account_loop at h
    split at h
    · exact load_account_loop_found name a acc rest h
    · split at h
      · exact load_account_loop_found name a acc rest h
      · split at h
        · simp only [Prod.mk.injEq, true_and] at h
          rw [← h]
        · exact load_account_loop_found name a acc rest h

theorem load_account_found (file : Option (List Char)) (name : List Char) (a acc : Account)
    (h : load_account file name a = (1, acc)) : acc.username = some name := by
  unfold load_account at h
  cases file with
  | none => simp at h
  | some content => exact load_account_loop_found name a acc _ h
theorem user_login_step (file : Option (List Char)) (s : Session) (name : List Char)
    (acc : Account) (hanon : s.logged_in = 0) (hne : name ≠ [])
    (hlen : name.length < BUFF_SIZE)
    (hfound : load_account file name { username := none, status := 0 } = (1, acc))
    (hactive : acc.status ≠ 0) :
    process_command file s ("USER ".toList ++ name)
      = ({ s with logged_in := 1, username := name }, [(s.sockfd, "110\r\n".toList)]) := by
  have htake : name.take (BUFF_SIZE - 1) = name :=
    List.take_of_length_le (by unfold BUFF_SIZE at *; omega)
  have hu := load_account_found file name _ acc hfound
  have hl : name.length ≠ 0 := fun h => hne (List.length_eq_zero.mp h)
  rw [user_line_dispatch, htake]
  simp only [process_user_command, hanon, hfound]
  simp [hl, hactive, hu]
  exact send_response_code _ _ _ _

/-- C2: in the AUTHENTICATED state (`logged_in = 1`), `USER <name>` sends exactly
`213` and leaves the session unchanged, for every name (the non-empty ones
included) and whatever the account file holds. -/
theorem C2_user_when_logged_in (file : Option (List Char)) (s : Session) (name : List Char)
    (hauth : s.logged_in = 1) :
    process_command file s ("USER ".toList ++ name) = (s, [(s.sockfd, "213\r\n".toList)]) := by
  rw [user_line_dispatch]
  simp only [process_user_command, hauth]
  simp
  exact send_response_code _ _ _ _

theorem C2_user_when_logged_in_witness :
    process_command sample_file auth_session ("USER ".toList ++ "bob".toList)
      = (auth_session, [(auth_session.sockfd, "213\r\n".toList)]) :=
  C2_user_when_logged_in sample_file auth_session "bob".toList (by decide)

/-- C3: in the ANONYMOUS state, `USER <name>` with a non-empty name sends exactly
`212` when `load_account` reports not-found (0) and exactly `211` when it finds
the account with status 0 (locked); the session is unchanged in both cases. -/
theorem C3_user_unknown_or_locked (file : Option (List Char)) (s : Session)
    (name : List Char) (result : Int) (acc : Account)
    (hanon : s.logged_in = 0) (hne : name ≠ []) (hlen : name.length < BUFF_SIZE)
    (hlookup : load_account file name { username := none, status := 0 } = (result, acc))
    (hcase : result = 0 ∨ (result = 1 ∧ acc.status = 0)) :
    process_command file s ("USER ".toList ++ name)
      = (s, [(s.sockfd, if result = 0 then "212\r\n".toList else "211\r\n".toList)]) := by
  have htake : name.take (BUFF_SIZE - 1) = name :=
    List.take_of_length_le (by unfold BUFF_SIZE at *; omega)
  have hl : name.length ≠ 0 := fun h => hne (List.length_eq_zero.mp h)
  rw [user_line_dispatch, htake]
  simp only [process_user_command, hanon, hlookup]
  rcases hcase with h0 | ⟨h1, hst⟩
  · subst h0
    simp [hl]
    exact send_response_code _ _ _ _
  · subst h1
    simp [hl, hst]
    exact send_response_code _ _ _ _

theorem C3_user_unknown_or_locked_witness :
    process_command sample_file anon_session ("USER ".toList ++ "bob".toList)
        = (anon_session, [(anon_session.sockfd, "211\r\n".toList)])
    ∧ process_command sample_file anon_session ("USER ".toList ++ "carol".toList)
        = (anon_session, [(anon_session.sockfd, "212\r\n".toList)]) :=
  ⟨C3_user_unknown_or_locked sample_file anon_session "bob".toList 1
      { username := some "bob".toList, status := 0 }
      (by decide) (by decide) (by decide) (by decide) (by decide),
   C3_user_unknown_or_locked sample_file anon_session "carol".toList 0
      { username := none, status := 0 }
      (by decide) (by decide) (by decide) (by decide) (by decide)⟩

/-- C4 as stated fails: an AUTHENTICATED session answers `USER ` (empty
argument) with `213`, not `300`, because the login test comes first. -/
theorem C4_empty_user_logged_in_gets_213 :
    process_command sample_file auth_session "USER ".toList
        = (auth_session, [(auth_session.sockfd, "213\r\n".toList)])
    ∧ (process_command sample_file auth_session "USER ".toList).2
        ≠ [(auth_session.sockfd, "300\r\n".toList)] := by
  decide

/-- C4 (amended): a `USER` command with an empty argument (`USER ` or `USER`)
never changes the session; it sends exactly `300` in the ANONYMOUS state and
exactly `213` when the session is logged in. -/
theorem C4_empty_user_argument (file : Option (List Char)) (s : Session) :
    process_command file s "USER ".toList
        = (s, [(s.sockfd, if s.logged_in = 0 then "300\r\n".toList else "213\r\n".toList)])
    ∧ process_command file s "USER".toList
        = (s, [(s.sockfd, if s.logged_in = 0 then "300\r\n".toList else "213\r\n".toList)]) := by
  have h1 : process_command file s "USER ".toList = process_user_command file s [] :=
    dispatch_user file s _ (by decide)
  have h2 : process_command file s "USER".toList = process_user_command file s [] :=
    dispatch_user file s _ (by decide)
  rw [h1, h2]
  simp only [process_user_command]
  by_cases h : s.logged_in = 0
  · simp [h]
    exact send_response_code _ _ _ _
  · simp [h]
    exact send_response_code _ _ _ _

/-- C5: every POST line (`POST` alone or `POST <text>`) sends exactly `221` in
the ANONYMOUS state and exactly `120` when logged in, and returns the session
unchanged. -/
theorem C5_post (file : Option (List Char)) (s : Session) (text : List Char) :
    process_command file s ("POST ".toList ++ text)
        = (s, [(s.sockfd, if s.logged_in = 0 then "221\r\n".toList else "120\r\n".toList)])
    ∧ process_command file s "POST".toList
        = (s, [(s.sockfd, if s.logged_in = 0 then "221\r\n".toList else "120\r\n".toList)]) := by
  have h1 : process_command file s ("POST ".toList ++ text) = process_post_command s :=
    dispatch_post file s _ (by rw [parse_post_line]; decide)
  have h2 : process_command file s "POST".toList = process_post_command s :=
    dispatch_post file s _ (by decide)
  rw [h1, h2]
  simp only [process_post_command]
  by_cases h : s.logged_in = 0
  · simp [h]
    exact send_response_code _ _ _ _
  · simp [h]
    exact send_response_code _ _ _ _

/-- C7 as stated fails: the command name `bye` is none of `USER`, `POST`, `BYE`,
yet a logged-in session answers it with `130` and is logged out, because the
name is upper-cased before it is compared. -/
theorem C7_lowercase_bye_is_recognised :
    command_name "bye".toList ∉ ["USER".toList, "POST".toList, "BYE".toList]
    ∧ process_command sample_file auth_session "bye".toList
        = ({ auth_session with logged_in := 0, username := [] },
           [(auth_session.sockfd, "130\r\n".toList)])
    ∧ process_command sample_file auth_session "bye".toList
        ≠ (auth_session, [(auth_session.sockfd, "300\r\n".toList)]) := by
  decide

/-- C7 (amended): for every session and every line whose command name (the text
before the first space), once its letters are upper-cased, is none of `USER`,
`POST`, `BYE`, `process_command` sends exactly one response, `300`, and returns
the session unchanged. -/
theorem C7_unknown_command (file : Option (List Char)) (s : Session) (line : List Char)
    (hunknown : (command_name line).map toupper
        ∉ ["USER".toList, "POST".toList, "BYE".toList]) :
    process_command file s line = (s, [(s.sockfd, "300\r\n".toList)]) := by
  have hne : ∀ w : List Char, w ∈ ["USER".toList, "POST".toList, "BYE".toList] →
      (parse_command line).1.map toupper ≠ w := by
    intro w hw heq
    rw [parse_command_fst, List.map_take] at heq
    have hwlen : w.length ≤ 4 := by
      simp only [List.mem_cons, List.mem_singleton, List.not_mem_nil, or_false] at hw
      rcases hw with rfl | rfl | rfl <;> decide
    by_cases hlen : ((command_name line).map toupper).length ≤ 19
    · rw [List.take_of_length_le hlen] at heq
      exact hunknown (heq ▸ hw)
    · have := congrArg List.length heq
      rw [List.length_take] at this
      omega
  rw [dispatch_other file s line (hne _ (by simp)) (hne _ (by simp)) (hne _ (by simp))]
  rw [show "300".toList = ['3', '0', '0'] from rfl, send_response_code]
  rfl

theorem C7_unknown_command_witness :
    process_command sample_file auth_session "foo bar".toList
      = (auth_session, [(auth_session.sockfd, "300\r\n".toList)]) :=
  C7_unknown_command sample_file auth_session "foo bar".toList (by decide)


/-! # Stream reassembly -/

theorem find_sub_bound (d : List Char) : ∀ (l : List Char) (n : Nat),
    find_sub d l = some n → n + d.length ≤ l.length
  | [], n, h => by
    unfold find_sub at h
    split at h
    · rename_i hd
      simp only [Option.some.injEq] at h
      subst hd; subst h; simp
    · simp at h
  | c :: cs, n, h => by
    unfold find_sub at h
    split at h
    · rename_i hp
      simp only [Option.some.injEq] at h
      subst h
      have := (List.isPrefixOf_iff_prefix.mp hp).length_le
      simpa using this
    · simp only [Option.map_eq_some'] at h
      obtain ⟨m, hm, rfl⟩ := h
      have := find_sub_bound d cs m hm
      simp only [List.length_cons]
      omega

theorem find_sub_append (d x : List Char) : ∀ (a : List Char) (n : Nat),
    find_sub d a = some n → find_sub d (a ++ x) = some n
  | [], n, h => by
    unfold find_sub at h
    split at h
    · rename_i hd
      simp only [Option.some.injEq] at h
      subst hd; subst h
      cases x with
      | nil => simp [find_sub]
      | cons y ys => simp [find_sub]
    · simp at h
  | c :: cs, n, h => by
    have hb := find_sub_bound d (c :: cs) n h
    unfold find_sub at h
    rw [List.cons_append]
    unfold find_sub
    split at h
    · rename_i hp
      have hp2 : d.isPrefixOf (c :: (cs ++ x)) = true := by
        rw [List.isPrefixOf_iff_prefix] at hp ⊢
        rw [← List.cons_append]
        exact hp.trans (List.prefix_append _ _)
      simp only [hp2, if_true]
      exact h
    · rename_i hp
      simp only [Option.map_eq_some'] at h
      obtain ⟨m, hm, rfl⟩ := h
      have hp2 : ¬ d.isPrefixOf (c :: (cs ++ x)) = true := by
        intro hq
        apply hp
        rw [List.isPrefixOf_iff_prefix] at hq ⊢
        rw [← List.cons_append] at hq
        exact List.prefix_of_prefix_length_le hq (List.prefix_append _ _) (by omega)
      simp [hp2, find_sub_append d x cs m hm]

theorem cstr_append_of_no_nul (a b : List Char) (h : NUL ∉ a) :
    cstr (a ++ b) = a ++ cstr b := by
  unfold cstr
  apply List.takeWhile_append_of_pos
  intro c hc
  simp only [bne_iff_ne, ne_eq]
  intro hcn
  exact h (hcn ▸ hc)

theorem cstr_nul_cons (b : List Char) : cstr (NUL :: b) = [] := by
  simp [cstr]

theorem nul_not_mem_crlf_append (l : List Char) (h : NUL ∉ l) : NUL ∉ l ++ crlf := by
  simp only [List.mem_append, not_or]
  exact ⟨h, by decide⟩

theorem strstr_line (l x : List Char) (hl : is_line l) :
    strstr (l ++ crlf ++ x) crlf = some l.length := by
  unfold strstr
  rw [cstr_append_of_no_nul _ _ (nul_not_mem_crlf_append l hl.1)]
  exact find_sub_append crlf _ _ _ hl.2

/-- The branch of `recv_loop` taken when `strstr` finds the delimiter. -/
theorem recv_loop_found (max_len : Int) (delim : List Char) (sock : List RecvResult)
    (s : Session) (out_buf : List Char) (total_len : Int) (m : Nat)
    (h : strstr out_buf delim = some m) :
    recv_loop max_len delim sock s out_buf total_len
      = some (extract_message delim sock s out_buf total_len m) := by
  cases sock with
  | nil => simp only [recv_loop, h]
  | cons r rest => simp only [recv_loop, h]

/-- The branch of `recv_loop` that reads and stores a whole chunk. -/
theorem recv_loop_read (max_len : Int) (delim : List Char) (rest : List RecvResult)
    (s : Session) (out_buf : List Char) (total_len : Int) (bytes : List Char)
    (h : strstr out_buf delim = none) (hpos : 0 < bytes.length)
    (hfit : total_len + (bytes.length : Int) < max_len) :
    recv_loop max_len delim (RecvResult.received bytes :: rest) s out_buf total_len
      = recv_loop max_len delim rest s
          ((memcpy out_buf total_len.toNat bytes).set (total_len + bytes.length).toNat NUL)
          (total_len + bytes.length) := by
  have h1 : ¬ ((bytes.length : Int) ≤ 0) := by omega
  have h2 : ¬ (total_len + (bytes.length : Int) ≥ max_len) := by omega
  rw [recv_loop]
  simp only [h, h1, h2, if_false, Int.toNat_ofNat, List.take_length]

theorem memcpy_zero (dst src : List Char) : memcpy dst 0 src = src ++ dst.drop src.length := by
  simp [memcpy]

theorem wire_cons_ne_nil (l : List Char) (ls : List (List Char)) : wire (l :: ls) ≠ [] := by
  simp [wire, crlf]

/-- The `if(delim_pos)` block on a buffer that starts with a complete line. -/
theorem extract_message_line (sock : List RecvResult) (s : Session)
    (l rest tail : List Char) :
    extract_message crlf sock s (l ++ crlf ++ (rest ++ tail))
        ((l ++ crlf ++ rest).length : Int) l.length
      = { ret := l.length,
          session :=
            if rest = [] then s
            else { s with leftover := memcpy s.leftover 0 rest,
                          leftover_len := rest.length },
          out_buf := l ++ NUL :: Char.ofNat 10 :: (rest ++ tail),
          sock := sock } := by
  have hset : (l ++ crlf ++ (rest ++ tail)).set l.length NUL
      = l ++ NUL :: Char.ofNat 10 :: (rest ++ tail) := by
    simp [crlf, List.set_append]
  have hdrop : (l ++ NUL :: Char.ofNat 10 :: (rest ++ tail)).drop (l.length + crlf.length)
      = rest ++ tail := by
    have : l.length + crlf.length = (l ++ [NUL, Char.ofNat 10]).length := by simp [crlf]
    rw [this, show l ++ NUL :: Char.ofNat 10 :: (rest ++ tail)
          = (l ++ [NUL, Char.ofNat 10]) ++ (rest ++ tail) by simp]
    exact List.drop_left _ _
  have hrem : ((l ++ crlf ++ rest).length : Int) - ((l.length : Int) + (crlf.length : Int))
      = (rest.length : Int) := by
    simp only [List.length_append, Nat.cast_add]; omega
  unfold extract_message
  simp only [hset, hdrop, hrem, Int.toNat_ofNat, List.take_left]
  by_cases hr : rest = []
  · subst hr; simp
  · have hpos : (rest.length : Int) > 0 := by
      have := List.length_pos.mpr hr
      omega
    simp only [hpos, if_true, hr, if_false]

/-- A call that finds a complete line at the start of the session's leftover. -/
theorem recv_until_delim_leftover (s : Session) (buf : List Char) (max_len : Int)
    (sock : List RecvResult) (l rest : List Char) (hl : is_line l)
    (hlen : s.leftover_len = ((l ++ crlf ++ rest).length : Int))
    (hleft : s.leftover.take (l ++ crlf ++ rest).length = l ++ crlf ++ rest) :
    recv_until_delim s buf max_len crlf sock
      = some { ret := l.length,
               session :=
                 if rest = [] then { s with leftover_len := 0 }
                 else { s with leftover := memcpy s.leftover 0 rest,
                               leftover_len := rest.length },
               out_buf := l ++ NUL :: Char.ofNat 10 ::
                 (rest ++ buf.drop (l ++ crlf ++ rest).length),
               sock := sock } := by
  have hpos : s.leftover_len > 0 := by
    rw [hlen]; simp [crlf]; omega
  have hbuf : l ++ crlf ++ rest ++ buf.drop (l ++ crlf ++ rest).length
      = l ++ crlf ++ (rest ++ buf.drop (l ++ crlf ++ rest).length) := by
    simp
  rw [recv_until_delim, if_pos hpos, hlen, Int.toNat_ofNat, hleft, memcpy_zero, hbuf,
    recv_loop_found _ _ _ _ _ _ _ (strstr_line l _ hl), extract_message_line]

/-- A call on an empty leftover whose first `recv` delivers bytes that start with
a complete line. -/
theorem recv_until_delim_read (s : Session) (buf : List Char) (max_len : Int)
    (sock : List RecvResult) (l rest : List Char) (hl : is_line l)
    (hlen : s.leftover_len = 0) (hbuf : strstr buf crlf = none)
    (hfit : ((l ++ crlf ++ rest).length : Int) < max_len) :
    recv_until_delim s buf max_len crlf (RecvResult.received (l ++ crlf ++ rest) :: sock)
      = some { ret := l.length,
               session :=
                 if rest = [] then s
                 else { s with leftover := memcpy s.leftover 0 rest,
                               leftover_len := rest.length },
               out_buf := l ++ NUL :: Char.ofNat 10 ::
                 (rest ++ (buf.drop (l ++ crlf ++ rest).length).set 0 NUL),
               sock := sock } := by
  have hnpos : ¬ s.leftover_len > 0 := by omega
  have hdpos : 0 < (l ++ crlf ++ rest).length := by simp [crlf]
  rw [recv_until_delim, if_neg hnpos, recv_loop_read _ _ _ _ _ _ _ hbuf hdpos (by omega)]
  have hb2 : (memcpy buf (0 : Int).toNat (l ++ crlf ++ rest)).set
        ((0 : Int) + ((l ++ crlf ++ rest).length : Int)).toNat NUL
      = l ++ crlf ++ (rest ++ (buf.drop (l ++ crlf ++ rest).length).set 0 NUL) := by
    simp only [Int.toNat_zero, memcpy_zero, zero_add, Int.toNat_ofNat]
    rw [List.set_append]
    simp
  rw [hb2, recv_loop_found _ _ _ _ _ _ _ (strstr_line l _ hl)]
  exact congrArg some (by rw [zero_add]; exact extract_message_line _ _ _ _ _)

theorem find_sub_none_of_line (l : List Char) (hl : is_line l) : find_sub crlf l = none := by
  cases h : find_sub crlf l with
  | none => rfl
  | some n =>
    have h1 := find_sub_append crlf crlf l n h
    have h2 := find_sub_bound crlf l n h
    rw [hl.2] at h1
    simp only [Option.some.injEq] at h1
    simp only [crlf, List.length_cons, List.length_nil] at h2
    omega

theorem cstr_line_nul (l tail : List Char) (hl : is_line l) : cstr (l ++ NUL :: tail) = l := by
  rw [cstr_append_of_no_nul _ _ hl.1, cstr_nul_cons, List.append_nil]

/-- The extraction loop on a session whose leftover holds complete lines only. -/
theorem read_loop_leftover (ptr : SessionPtr) : ∀ (lines : List (List Char)) (fuel : Nat)
    (s : Session) (buf : List Char) (sock : List RecvResult) (q : WorkQueue),
    lines ≠ [] → (∀ l ∈ lines, is_line l ∧ l ≠ []) →
    s.leftover_len = ((wire lines).length : Int) →
    s.leftover.take (wire lines).length = wire lines →
    lines.length ≤ fuel →
    ∃ lo buf', strstr buf' crlf = none ∧
      read_loop ptr fuel s buf sock q
        = some (ReadOutcome.finished { s with leftover := lo, leftover_len := 0 } buf' sock
            (enqueue_all ptr q lines))
  | [], _, _, _, _, _, hne, _, _, _, _ => absurd rfl hne
  | l :: ls, 0, _, _, _, _, _, _, _, _, hfuel => by simp at hfuel
  | l :: ls, fuel + 1, s, buf, sock, q, _, hlines, hlen, hleft, hfuel => by
    have hl : is_line l ∧ l ≠ [] := hlines l (by simp)
    have hcall := recv_until_delim_leftover s buf BUFF_SIZE sock l (wire ls) hl.1 hlen hleft
    have hret : ¬ ((l.length : Int) ≤ 0) := by
      have := List.length_pos.mpr hl.2
      omega
    rw [read_loop, hcall]
    simp only [hret, if_false, cstr_line_nul l _ hl.1]
    cases ls with
    | nil =>
      refine ⟨s.leftover, l ++ NUL :: Char.ofNat 10 ::
        (wire [] ++ buf.drop (l ++ crlf ++ wire []).length), ?_, ?_⟩
      · unfold strstr
        rw [cstr_line_nul l _ hl.1]
        exact find_sub_none_of_line l hl.1
      · simp [wire, enqueue_all]
    | cons l2 ls2 =>
      have hw : wire (l2 :: ls2) ≠ [] := wire_cons_ne_nil l2 ls2
      have hlen2 : ((wire (l2 :: ls2)).length : Int) ≠ 0 := by
        have := List.length_pos.mpr hw
        omega
      simp only [hw, if_false, hlen2]
      have ih := read_loop_leftover ptr (l2 :: ls2) fuel
        { s with leftover := memcpy s.leftover 0 (wire (l2 :: ls2)),
                 leftover_len := ((wire (l2 :: ls2)).length : Int) }
        (l ++ NUL :: Char.ofNat 10 ::
          (wire (l2 :: ls2) ++ buf.drop (l ++ crlf ++ wire (l2 :: ls2)).length))
        sock (enqueue_work q ptr l) (by simp)
        (fun x hx => hlines x (List.mem_cons_of_mem _ hx)) rfl
        (by simp [memcpy_zero])
        (by simp only [List.length_cons] at hfuel ⊢; omega)
      obtain ⟨lo, buf', hb, hrun⟩ := ih
      exact ⟨lo, buf', hb, by rw [hrun]; rfl⟩

/-- The extraction loop when one `recv` delivers complete lines only. -/
theorem read_loop_pipelined (ptr : SessionPtr) (lines : List (List Char)) (fuel : Nat)
    (s : Session) (buf : List Char) (sock : List RecvResult) (q : WorkQueue)
    (hne : lines ≠ []) (hlines : ∀ l ∈ lines, is_line l ∧ l ≠ [])
    (hlen : s.leftover_len = 0) (hbuf : strstr buf crlf = none)
    (hfit : (wire lines).length < BUFF_SIZE) (hfuel : lines.length ≤ fuel) :
    ∃ lo buf', strstr buf' crlf = none ∧
      read_loop ptr fuel s buf (RecvResult.received (wire lines) :: sock) q
        = some (ReadOutcome.finished { s with leftover := lo, leftover_len := 0 } buf' sock
            (enqueue_all ptr q lines)) := by
  cases lines with
  | nil => exact absurd rfl hne
  | cons l ls =>
    cases fuel with
    | zero => simp at hfuel
    | succ fuel =>
      have hl : is_line l ∧ l ≠ [] := hlines l (by simp)
      have hcall := recv_until_delim_read s buf BUFF_SIZE sock l (wire ls) hl.1 hlen hbuf
        (by exact_mod_cast hfit)
      have hret : ¬ ((l.length : Int) ≤ 0) := by
        have := List.length_pos.mpr hl.2
        omega
      have hw0 : wire (l :: ls) = l ++ crlf ++ wire ls := rfl
      rw [read_loop, hw0, hcall]
      simp only [hret, if_false, cstr_line_nul l _ hl.1]
      cases ls with
      | nil =>
        refine ⟨s.leftover, l ++ NUL :: Char.ofNat 10 ::
          (wire [] ++ (buf.drop (l ++ crlf ++ wire []).length).set 0 NUL), ?_, ?_⟩
        · unfold strstr
          rw [cstr_line_nul l _ hl.1]
          exact find_sub_none_of_line l hl.1
        · simp only [wire, enqueue_all, if_true, hlen]
          rw [← hlen]
      | cons l2 ls2 =>
        have hw : wire (l2 :: ls2) ≠ [] := wire_cons_ne_nil l2 ls2
        have hlen2 : ((wire (l2 :: ls2)).length : Int) ≠ 0 := by
          have := List.length_pos.mpr hw
          omega
        simp only [hw, if_false, hlen2]
        have ih := read_loop_leftover ptr (l2 :: ls2) fuel
          { s with leftover := memcpy s.leftover 0 (wire (l2 :: ls2)),
                   leftover_len := ((wire (l2 :: ls2)).length : Int) }
          (l ++ NUL :: Char.ofNat 10 ::
            (wire (l2 :: ls2) ++
              (buf.drop (l ++ crlf ++ wire (l2 :: ls2)).length).set 0 NUL))
          sock (enqueue_work q ptr l) (by simp)
          (fun x hx => hlines x (List.mem_cons_of_mem _ hx)) rfl
          (by simp [memcpy_zero])
          (by simp only [List.length_cons] at hfuel ⊢; omega)
        obtain ⟨lo, buf', hb, hrun⟩ := ih
        exact ⟨lo, buf', hb, by rw [hrun]; rfl⟩

/-! # Pipelined commands: extraction, queueing and processing -/

theorem process_user_command_shape (file : Option (List Char)) (s : Session)
    (arg : List Char) :
    (process_user_command file s arg).2.length = 1
    ∧ (process_user_command file s arg).1.active = s.active := by
  unfold process_user_command
  split_ifs <;> try exact ⟨rfl, rfl⟩
  split
  split_ifs <;> exact ⟨rfl, rfl⟩

theorem process_command_shape (file : Option (List Char)) (s : Session)
    (line : List Char) :
    (process_command file s line).2.length = 1
    ∧ (process_command file s line).1.active = s.active := by
  unfold process_command
  split
  simp only
  split_ifs
  · exact process_user_command_shape file s _
  · unfold process_post_command; split_ifs <;> exact ⟨rfl, rfl⟩
  · unfold process_bye_command; split_ifs <;> exact ⟨rfl, rfl⟩
  · exact ⟨rfl, rfl⟩

theorem process_in_order_lengths (file : Option (List Char)) :
    ∀ (lines : List (List Char)) (s : Session), s.active ≠ 0 →
      (process_in_order file (some s) lines).2.map List.length
        = List.replicate lines.length 1
  | [], _, _ => rfl
  | l :: ls, s, h => by
    have hs := process_command_shape file s l
    have hw : worker_process file (some s) l
        = (some (process_command file s l).1, (process_command file s l).2) := by
      simp only [worker_process, h, ne_eq, not_false_eq_true, if_true]
    have ih := process_in_order_lengths file ls (process_command file s l).1
      (by rw [hs.2]; exact h)
    simp only [process_in_order, hw, List.map_cons, hs.1, ih, List.length_cons,
      List.replicate_succ]

theorem enqueue_all_count (ptr : SessionPtr) : ∀ (lines : List (List Char)) (q : WorkQueue),
    q.queue_count + (lines.length : Int) ≤ 100 →
      (enqueue_all ptr q lines).queue_count = q.queue_count + (lines.length : Int)
  | [], q, _ => by simp [enqueue_all]
  | l :: ls, q, h => by
    simp only [List.length_cons, Nat.cast_add, Nat.cast_one] at h ⊢
    have hroom : q.queue_count < 100 := by omega
    have hq : (enqueue_work q ptr l).queue_count = q.queue_count + 1 := by
      simp only [enqueue_work, hroom, if_true]
    rw [enqueue_all, enqueue_all_count ptr ls (enqueue_work q ptr l) (by rw [hq]; omega), hq]
    omega

theorem post_line_step (file : Option (List Char)) (s : Session) (text : List Char)
    (hauth : s.logged_in ≠ 0) :
    process_command file s ("POST ".toList ++ text) = (s, [(s.sockfd, "120\r\n".toList)]) := by
  rw [dispatch_post file s _ (by rw [parse_post_line]; decide)]
  simp only [process_post_command, hauth, if_false]
  exact congrArg (fun x => (s, [x])) (send_response_code _ _ _ _)

/-- The two pipelined commands of the example, processed in order by a worker. -/
theorem user_then_post (file : Option (List Char)) (s : Session) (acc : Account)
    (hanon : s.logged_in = 0) (hact : s.active ≠ 0)
    (hfound : load_account file "alice".toList { username := none, status := 0 } = (1, acc))
    (hactive : acc.status ≠ 0) :
    process_in_order file (some s) ["USER alice".toList, "POST hi".toList]
      = (some { s with logged_in := 1, username := "alice".toList },
         [[(s.sockfd, "110\r\n".toList)], [(s.sockfd, "120\r\n".toList)]]) := by
  have h1 : process_command file s "USER alice".toList
      = ({ s with logged_in := 1, username := "alice".toList },
         [(s.sockfd, "110\r\n".toList)]) :=
    user_login_step file s "alice".toList acc hanon (by decide) (by decide) hfound hactive
  have h2 : process_command file { s with logged_in := 1, username := "alice".toList }
        "POST hi".toList
      = ({ s with logged_in := 1, username := "alice".toList },
         [(s.sockfd, "120\r\n".toList)]) :=
    post_line_step file _ "hi".toList (by show (1 : Int) ≠ 0; decide)
  have hact2 : ({ s with logged_in := 1, username := "alice".toList } : Session).active ≠ 0 :=
    hact
  simp only [process_in_order, worker_process, hact, hact2, ne_eq, not_false_eq_true, if_true,
    h1, h2]

/-- C8 as stated fails in its general part.  One read of 101 `BYE` lines into an
empty queue, with no worker running meanwhile, leaves only 100 work items (the
queue a read of 100 lines leaves), so at most 100 responses follow.  One read of
a single empty line enqueues nothing and tears the session down. -/
theorem C8_fewer_responses_than_lines :
    ((read_loop (some 1) 200 anon_session zero_buf
        [RecvResult.received (wire (bye_lines 101))] initial_queue).map ReadOutcome.queue
      = some (enqueue_all (some 1) initial_queue (bye_lines 100))
     ∧ (enqueue_all (some 1) initial_queue (bye_lines 100)).queue_count = 100)
    ∧ ((read_loop (some 1) 200 anon_session zero_buf
        [RecvResult.received (wire [[]])] initial_queue).map
          (fun o => (o.is_torn_down, o.queue))
      = some (true, initial_queue)) := by
  decide!

/-- C8 (amended): when one read delivers `k >= 1` complete non-empty lines (free
of NUL, fewer than `BUFF_SIZE` bytes in all) to a session with empty leftover
whose buffer holds no stale delimiter, the extraction loop ends by `break`
having called `enqueue_work` for exactly these lines in order; the queue accepts
all of them when it has `k` free slots; a worker processing them in this order
on the still active session sends exactly one response per line; and for the
lines `USER alice`, `POST hi` on an ANONYMOUS session with `alice` active these
are `110` then `120`. -/
theorem C8_pipelined_lines (file : Option (List Char)) (ptr : SessionPtr)
    (lines : List (List Char)) (fuel : Nat) (s : Session) (buf : List Char)
    (sock : List RecvResult) (q : WorkQueue)
    (hne : lines ≠ []) (hlines : ∀ l ∈ lines, is_line l ∧ l ≠ [])
    (hlen : s.leftover_len = 0) (hact : s.active ≠ 0) (hbuf : strstr buf crlf = none)
    (hfit : (wire lines).length < BUFF_SIZE) (hfuel : lines.length ≤ fuel) :
    ∃ lo buf',
      read_loop ptr fuel s buf (RecvResult.received (wire lines) :: sock) q
        = some (ReadOutcome.finished { s with leftover := lo, leftover_len := 0 } buf' sock
            (enqueue_all ptr q lines))
      ∧ strstr buf' crlf = none
      ∧ (q.queue_count + (lines.length : Int) ≤ 100 →
          (enqueue_all ptr q lines).queue_count = q.queue_count + (lines.length : Int))
      ∧ (process_in_order file (some { s with leftover := lo, leftover_len := 0 }) lines).2.map
            List.length = List.replicate lines.length 1
      ∧ (∀ acc : Account, lines = ["USER alice".toList, "POST hi".toList] →
          s.logged_in = 0 →
          load_account file "alice".toList { username := none, status := 0 } = (1, acc) →
          acc.status ≠ 0 →
          process_in_order file (some { s with leftover := lo, leftover_len := 0 }) lines
            = (some { s with leftover := lo, leftover_len := 0, logged_in := 1,
                             username := "alice".toList },
               [[(s.sockfd, "110\r\n".toList)], [(s.sockfd, "120\r\n".toList)]])) := by
  obtain ⟨lo, buf', hb, hrun⟩ :=
    read_loop_pipelined ptr lines fuel s buf sock q hne hlines hlen hbuf hfit hfuel
  refine ⟨lo, buf', hrun, hb, enqueue_all_count ptr lines q,
    process_in_order_lengths file lines _ hact, ?_⟩
  intro acc hl hanon hfound hactive
  subst hl
  exact user_then_post file _ acc hanon hact hfound hactive

theorem C8_pipelined_lines_witness :
    ∃ lo buf',
      read_loop (some 1) 2 anon_session zero_buf
          [RecvResult.received (wire ["USER alice".toList, "POST hi".toList])] initial_queue
        = some (ReadOutcome.finished { anon_session with leftover := lo, leftover_len := 0 }
            buf' [] (enqueue_all (some 1) initial_queue
              ["USER alice".toList, "POST hi".toList]))
      ∧ process_in_order sample_file (some { anon_session with leftover := lo, leftover_len := 0 })
            ["USER alice".toList, "POST hi".toList]
          = (some { anon_session with leftover := lo, leftover_len := 0, logged_in := 1,
                                      username := "alice".toList },
             [[(7, "110\r\n".toList)], [(7, "120\r\n".toList)]]) := by
  obtain ⟨lo, buf', hrun, _, _, _, hex⟩ :=
    C8_pipelined_lines sample_file (some 1) ["USER alice".toList, "POST hi".toList] 2
      anon_session zero_buf [] initial_queue (by decide) (by decide) (by decide) (by decide)
      (by decide) (by decide) (by decide)
  exact ⟨lo, buf', hrun,
    hex { username := some "alice".toList, status := 1 } rfl (by decide) (by decide) (by decide)⟩

/-- C9 fails on the stream `A\r\n\nX\rZ\r\n`, whose lines are `A` and `\nX\rZ`,
when it arrives as `A\r\n\nX\r` followed by `Z\r\n`.  The first call returns `A`
and keeps `\nX\r`.  The second call copies these three bytes to the start of
`out_buf` without terminating them, so `strstr` joins the `\r` with the `\n`
the first call left at offset 3: it returns `\nX`, which precedes no delimiter
of the stream, without any `recv`, and the pending `\r` is gone.  The third
call returns `Z`. -/
theorem C9_stale_byte_completes_delimiter :
    (recv_until_delim anon_session zero_buf BUFF_SIZE crlf split_stream).map RecvReturn.summary
      = some (1, "A".toList, "\nX\r".toList, [RecvResult.received "Z\r\n".toList])
    ∧ (next_call (recv_until_delim anon_session zero_buf BUFF_SIZE crlf split_stream)).map
        RecvReturn.summary
      = some (2, "\nX".toList, [], [RecvResult.received "Z\r\n".toList])
    ∧ (next_call (next_call
        (recv_until_delim anon_session zero_buf BUFF_SIZE crlf split_stream))).map
        RecvReturn.summary
      = some (1, "Z".toList, [], []) := by
  refine ⟨?_, ?_, ?_⟩ <;> decide!

/-- C10 fails: the stream `A\r\n\nX\rZ\r\n` yields the lines `A`, `\nX\rZ` when
one `recv` delivers it, and the lines `A`, `\nX`, `Z` when it is cut after its
sixth byte. -/
theorem C10_lines_depend_on_the_cut :
    recv_lines 10 anon_session zero_buf whole_stream
      = ["A".toList, "\nX\rZ".toList]
    ∧ recv_lines 10 anon_session zero_buf split_stream
      = ["A".toList, "\nX".toList, "Z".toList]
    ∧ "A\r\n\nX\r".toList ++ "Z\r\n".toList = "A\r\n\nX\rZ\r\n".toList := by
  refine ⟨?_, ?_, ?_⟩ <;> decide!


/-! # Bounds of the reassembly buffers -/

theorem memcpy_length_le (dst src : List Char) (n : Nat) (h1 : dst.length ≤ n)
    (h2 : src.length ≤ n) : (memcpy dst 0 src).length ≤ n := by
  simp only [memcpy, List.length_append, List.length_take, List.length_drop]
  omega

/-- C12 fails: a read that delivers the two bytes `\r\n` (an empty line) makes
`recv_until_delim` return 0, although `recv` returned 2; the event loop takes
the 0 for a closed connection, enqueues nothing, sets `active` to 0 and ends
the pass with the session torn down. -/
theorem C12_empty_line_closes_session :
    (recv_until_delim anon_session zero_buf BUFF_SIZE crlf
        [RecvResult.received "\r\n".toList]).map RecvReturn.summary
      = some (0, [], [], [])
    ∧ read_loop (some 1) 10 anon_session zero_buf [RecvResult.received "\r\n".toList]
        initial_queue
      = some (ReadOutcome.torn_down 1 { anon_session with active := 0 }
          (NUL :: Char.ofNat 10 :: List.replicate (BUFF_SIZE - 2) NUL) [] initial_queue) := by
  refine ⟨?_, ?_⟩ <;> decide!

/-! # Session registry -/

theorem shift_down_length {α : Type} : ∀ (n i : Nat) (a : List α),
    (shift_down n i a).length = a.length
  | 0, _, _ => rfl
  | n + 1, i, a => by
    rw [shift_down, shift_down_length]
    split <;> simp

/-- The compaction loop, slot by slot: slots below `i` and from `i + n` on keep
their content, slot `j` in between receives the content of slot `j + 1`. -/
theorem shift_down_get {α : Type} : ∀ (n i : Nat) (a : List α) (j : Nat),
    i + n < a.length →
    (shift_down n i a)[j]? = if j < i then a[j]? else if j < i + n then a[j + 1]? else a[j]?
  | 0, i, a, j, _ => by
    simp only [shift_down, Nat.add_zero]
    split_ifs <;> rfl
  | n + 1, i, a, j, h => by
    have hi : a[i + 1]? = some a[i + 1] := List.getElem?_eq_getElem (by omega)
    rw [shift_down, hi]
    simp only
    rw [shift_down_get n (i + 1) (a.set i a[i + 1]) j (by rw [List.length_set]; omega)]
    simp only [List.getElem?_set]
    have hlt : i < a.length := by omega
    by_cases h1 : j < i
    · have : i ≠ j := by omega
      simp [h1, this, show j < i + 1 by omega]
    · by_cases h2 : j = i
      · subst h2
        simp [hlt, hi]
      · have h3 : i ≠ j := fun e => h2 e.symm
        have h4 : ¬ j < i + 1 := by omega
        have h5 : i ≠ j + 1 := by omega
        simp only [h1, h3, h4, h5, if_false]
        by_cases h6 : j < i + 1 + n
        · simp [h6, show j < i + (n + 1) by omega]
        · simp [h6, show ¬ j < i + (n + 1) by omega]

theorem realloc_array_length {α : Type} (a : List α) (n : Nat) (fresh : α) :
    (realloc_array a n fresh).length = n := by
  simp only [realloc_array, List.length_append, List.length_take, List.length_replicate]
  omega

theorem realloc_array_get {α : Type} (a : List α) (n : Nat) (fresh : α) (j : Nat)
    (hj : j < a.length) (hn : j < n) : (realloc_array a n fresh)[j]? = a[j]? := by
  rw [realloc_array, List.getElem?_append_left (by rw [List.length_take]; omega),
    List.getElem?_take_of_lt hn]

theorem init_slots_length : ∀ (n i : Nat) (fds : List PollFd) (ss : List SessionRef),
    (init_slots n i fds ss).1.length = fds.length ∧ (init_slots n i fds ss).2.length = ss.length
  | 0, _, _, _ => ⟨rfl, rfl⟩
  | n + 1, i, fds, ss => by
    rw [init_slots]
    obtain ⟨h1, h2⟩ := init_slots_length n (i + 1)
      (fds.modify (fun p => { p with fd := -1, events := 0 }) i) (ss.set i none)
    exact ⟨by rw [h1, List.length_modify], by rw [h2, List.length_set]⟩

theorem init_slots_get_below : ∀ (n i : Nat) (fds : List PollFd) (ss : List SessionRef)
    (j : Nat), j < i →
    (init_slots n i fds ss).1[j]? = fds[j]? ∧ (init_slots n i fds ss).2[j]? = ss[j]?
  | 0, _, _, _, _, _ => ⟨rfl, rfl⟩
  | n + 1, i, fds, ss, j, h => by
    rw [init_slots]
    obtain ⟨h1, h2⟩ := init_slots_get_below n (i + 1)
      (fds.modify (fun p => { p with fd := -1, events := 0 }) i) (ss.set i none) j (by omega)
    have hne : i ≠ j := by omega
    refine ⟨?_, ?_⟩
    · rw [h1, List.getElem?_modify]
      cases fds[j]? <;> simp [hne]
    · rw [h2, List.getElem?_set_ne hne]

/-- A growth step in which both `realloc`s succeed. -/
theorem expand_ok (env : Alloc) (r : Registry) (hwf : r.wf)
    (h1 : env.realloc_poll_fds = true) (h2 : env.realloc_sessions = true) :
    (expand_poll_arrays env r).poll_size = r.poll_size * 2
    ∧ (expand_poll_arrays env r).poll_count = r.poll_count
    ∧ (expand_poll_arrays env r).active_connections = r.active_connections
    ∧ (expand_poll_arrays env r).poll_fds.length = (r.poll_size * 2).toNat
    ∧ (expand_poll_arrays env r).sessions.length = (r.poll_size * 2).toNat
    ∧ ∀ j : Nat, j < r.poll_size.toNat →
        (expand_poll_arrays env r).poll_fds[j]? = r.poll_fds[j]?
        ∧ (expand_poll_arrays env r).sessions[j]? = r.sessions[j]? := by
  obtain ⟨w1, w2, w3, w4⟩ := hwf
  simp only [expand_poll_arrays, h1, h2, Bool.true_eq_false, if_false]
  refine ⟨trivial, trivial, trivial, ?_, ?_, ?_⟩
  · rw [(init_slots_length _ _ _ _).1, realloc_array_length]
  · rw [(init_slots_length _ _ _ _).2, realloc_array_length]
  · intro j hj
    obtain ⟨g1, g2⟩ := init_slots_get_below (r.poll_size * 2 - r.poll_size).toNat
      r.poll_size.toNat (realloc_array r.poll_fds (r.poll_size * 2).toNat env.fresh_fd)
      (realloc_array r.sessions (r.poll_size * 2).toNat env.fresh_ref) j hj
    rw [g1, g2]
    exact ⟨realloc_array_get _ _ _ _ (by omega) (by omega),
      realloc_array_get _ _ _ _ (by omega) (by omega)⟩

/-- The registry `add_to_poll` works on after its growth attempt keeps every
counter but `poll_size`, and every slot below the old `poll_size`. -/
theorem expand_any (env : Alloc) (r : Registry) (hwf : r.wf) :
    (expand_poll_arrays env r).poll_count = r.poll_count
    ∧ (expand_poll_arrays env r).active_connections = r.active_connections
    ∧ (expand_poll_arrays env r).wf
    ∧ ((expand_poll_arrays env r).poll_size = r.poll_size
        ∨ (expand_poll_arrays env r).poll_size = r.poll_size * 2)
    ∧ ∀ j : Nat, j < r.poll_size.toNat →
        (expand_poll_arrays env r).poll_fds[j]? = r.poll_fds[j]?
        ∧ (expand_poll_arrays env r).sessions[j]? = r.sessions[j]? := by
  by_cases h1 : env.realloc_poll_fds = true
  · by_cases h2 : env.realloc_sessions = true
    · obtain ⟨e1, e2, e3, e4, e5, e6⟩ := expand_ok env r hwf h1 h2
      obtain ⟨w1, w2, w3, w4⟩ := hwf
      refine ⟨e2, e3, ⟨?_, ?_, ?_, ?_⟩, Or.inr e1, e6⟩
      · rw [e2]; exact w1
      · rw [e2, e1]; omega
      · rw [e1, e4]
      · rw [e1, e5]
    · obtain ⟨w1, w2, w3, w4⟩ := hwf
      have h2f : env.realloc_sessions = false := by simpa using h2
      simp only [expand_poll_arrays, h1, h2f, Bool.true_eq_false, if_false, if_true]
      refine ⟨trivial, trivial, ⟨w1, w2, ?_, w4⟩, Or.inl trivial, ?_⟩
      · show r.poll_size.toNat ≤ (realloc_array r.poll_fds _ _).length
        rw [realloc_array_length]; omega
      · intro j hj
        exact ⟨realloc_array_get _ _ _ _ (by omega) (by omega), trivial⟩
  · have h1f : env.realloc_poll_fds = false := by simpa using h1
    simp only [expand_poll_arrays, h1f, if_true]
    exact ⟨trivial, trivial, hwf, Or.inl trivial, fun _ _ => ⟨trivial, trivial⟩⟩

/-- The slot `add_to_poll` writes, and the slots it leaves alone. -/
theorem add_slot_get (r1 : Registry) (sockfd : Int) (x : SessionRef) (k : Nat)
    (hk1 : k < r1.poll_fds.length) (hk2 : k < r1.sessions.length) :
    (∃ p, (r1.poll_fds.modify (fun p => { p with fd := sockfd, events := POLLIN }) k)[k]?
            = some p ∧ p.fd = sockfd ∧ p.events = POLLIN)
    ∧ (r1.sessions.set k x)[k]? = some x
    ∧ ∀ j : Nat, j ≠ k →
        (r1.poll_fds.modify (fun p => { p with fd := sockfd, events := POLLIN }) k)[j]?
            = r1.poll_fds[j]?
        ∧ (r1.sessions.set k x)[j]? = r1.sessions[j]? := by
  refine ⟨?_, ?_, ?_⟩
  · rw [List.getElem?_modify, List.getElem?_eq_getElem hk1]
    exact ⟨{ r1.poll_fds[k] with fd := sockfd, events := POLLIN }, by simp, rfl, rfl⟩
  · rw [List.getElem?_set]
    simp [hk2]
  · intro j hj
    refine ⟨?_, List.getElem?_set_ne (fun e => hj e.symm)⟩
    rw [List.getElem?_modify]
    have hkj : k ≠ j := fun e => hj e.symm
    cases r1.poll_fds[j]? <;> simp [hkj]

/-- The registry after the growth attempt at the start of `add_to_poll`. -/
theorem grow_stage (env : Alloc) (r : Registry) (hwf : r.wf) :
    (if r.poll_count ≥ r.poll_size then expand_poll_arrays env r else r).wf
    ∧ (if r.poll_count ≥ r.poll_size then expand_poll_arrays env r else r).poll_count
        = r.poll_count
    ∧ (if r.poll_count ≥ r.poll_size then expand_poll_arrays env r else r).active_connections
        = r.active_connections
    ∧ ((if r.poll_count ≥ r.poll_size then expand_poll_arrays env r else r).poll_size
          = r.poll_size
        ∨ (r.poll_count ≥ r.poll_size
            ∧ (if r.poll_count ≥ r.poll_size then expand_poll_arrays env r else r).poll_size
                = r.poll_size * 2))
    ∧ (r.poll_count ≥ r.poll_size → env.realloc_poll_fds = true →
        env.realloc_sessions = true →
        (if r.poll_count ≥ r.poll_size then expand_poll_arrays env r else r).poll_size
          = r.poll_size * 2)
    ∧ ∀ j : Nat, j < r.poll_count.toNat →
        (if r.poll_count ≥ r.poll_size then expand_poll_arrays env r else r).poll_fds[j]?
            = r.poll_fds[j]?
        ∧ (if r.poll_count ≥ r.poll_size then expand_poll_arrays env r else r).sessions[j]?
            = r.sessions[j]? := by
  by_cases hfull : r.poll_count ≥ r.poll_size
  · simp only [hfull, if_true]
    obtain ⟨e1, e2, e3, e4, e5⟩ := expand_any env r hwf
    refine ⟨e3, e1, e2, ?_, ?_, ?_⟩
    · rcases e4 with e | e
      · exact Or.inl e
      · exact Or.inr ⟨trivial, e⟩
    · intro _ h1 h2
      exact (expand_ok env r hwf h1 h2).1
    · intro j hj
      exact e5 j (by have := hwf.2.1; omega)
  · simp only [hfull, if_false]
    exact ⟨hwf, trivial, trivial, Or.inl trivial, fun h => h.elim,
      fun _ _ => ⟨trivial, trivial⟩⟩

/-- What a returning `add_to_poll` call has done, whatever its allocations did. -/
theorem add_returned (env : Alloc) (r : Registry) (sockfd : Int) (ip : List Char)
    (port : Int) (ret : Int) (r' : Registry) (hwf : r.wf)
    (h : add_to_poll env r sockfd ip port = AddOutcome.returned ret r') :
    r'.wf
    ∧ (∀ j : Nat, j < r.poll_count.toNat →
        r'.poll_fds[j]? = r.poll_fds[j]? ∧ r'.sessions[j]? = r.sessions[j]?)
    ∧ ((ret = -1 ∧ env.malloc_session = none ∧ r'.poll_count = r.poll_count
          ∧ r'.active_connections = r.active_connections
          ∧ (r'.poll_size = r.poll_size ∨ r'.poll_size = r.poll_size * 2))
       ∨ (ret = 0 ∧ r'.poll_count = r.poll_count + 1
          ∧ r'.active_connections = r.active_connections + 1
          ∧ r'.poll_size = (if r.poll_count < r.poll_size then r.poll_size
                            else r.poll_size * 2)
          ∧ (∃ p, r'.poll_fds[r.poll_count.toNat]? = some p ∧ p.fd = sockfd
                ∧ p.events = POLLIN)
          ∧ ∃ a, env.malloc_session = some a
                ∧ r'.sessions[r.poll_count.toNat]?
                    = some (some (a, new_session sockfd ip port)))) := by
  obtain ⟨g1, g2, g3, g4, _, g6⟩ := grow_stage env r hwf
  unfold add_to_poll at h
  simp only at h
  generalize (if r.poll_count ≥ r.poll_size then expand_poll_arrays env r else r) = r1
    at h g1 g2 g3 g4 g6
  obtain ⟨w1, w2, w3, w4⟩ := g1
  cases hm : env.malloc_session with
  | none =>
    simp only [hm, AddOutcome.returned.injEq] at h
    obtain ⟨hr, hreg⟩ := h
    subst hreg
    refine ⟨⟨w1, w2, w3, w4⟩, g6, Or.inl ⟨hr.symm, rfl, g2, g3, ?_⟩⟩
    rcases g4 with e | ⟨_, e⟩
    · exact Or.inl e
    · exact Or.inr e
  | some a =>
    simp only [hm] at h
    split_ifs at h with hc
    simp only [AddOutcome.returned.injEq] at h
    obtain ⟨hr, hreg⟩ := h
    obtain ⟨c0, c1, c2⟩ := hc
    obtain ⟨s1, s2, s3⟩ := add_slot_get r1 sockfd (some (a, new_session sockfd ip port))
      r1.poll_count.toNat c1 c2
    subst hreg
    have hsize : r1.poll_size = (if r.poll_count < r.poll_size then r.poll_size
        else r.poll_size * 2) := by
      rcases g4 with e | ⟨hf, e⟩
      · have : r.poll_count < r.poll_size := by omega
        rw [if_pos this]; exact e
      · rw [if_neg (by omega)]; exact e
    refine ⟨⟨?_, ?_, ?_, ?_⟩, ?_, Or.inr ⟨hr.symm, ?_, ?_, hsize, ?_, a, rfl, ?_⟩⟩
    · show 1 ≤ r1.poll_count + 1
      omega
    · show r1.poll_count + 1 ≤ r1.poll_size
      omega
    · show r1.poll_size.toNat ≤ (List.modify _ _ r1.poll_fds).length
      rw [List.length_modify]; exact w3
    · show (r1.sessions.set _ _).length = r1.poll_size.toNat
      rw [List.length_set]; exact w4
    · intro j hj
      obtain ⟨t1, t2⟩ := s3 j (by omega)
      obtain ⟨u1, u2⟩ := g6 j hj
      exact ⟨t1.trans u1, t2.trans u2⟩
    · show r1.poll_count + 1 = r.poll_count + 1
      omega
    · show r1.active_connections + 1 = r.active_connections + 1
      omega
    · rw [← g2]; exact s1
    · rw [← g2]; exact s2

/-- An `add_to_poll` call returns 0 when `malloc` succeeds and the arrays have
room or the growth step succeeds. -/
theorem add_succeeds (env : Alloc) (r : Registry) (sockfd : Int) (ip : List Char)
    (port : Int) (a : Nat) (hwf : r.wf) (hm : env.malloc_session = some a)
    (hroom : r.poll_count < r.poll_size
      ∨ (env.realloc_poll_fds = true ∧ env.realloc_sessions = true)) :
    ∃ r', add_to_poll env r sockfd ip port = AddOutcome.returned 0 r' := by
  obtain ⟨g1, g2, _, g4, g5, _⟩ := grow_stage env r hwf
  unfold add_to_poll
  simp only [hm]
  generalize (if r.poll_count ≥ r.poll_size then expand_poll_arrays env r else r) = r1
    at g1 g2 g4 g5
  obtain ⟨w1, w2, w3, w4⟩ := g1
  have hlt : r1.poll_count < r1.poll_size := by
    rcases hroom with h | ⟨h1, h2⟩
    · rcases g4 with e | ⟨hf, _⟩ <;> omega
    · by_cases hf : r.poll_count ≥ r.poll_size
      · have := g5 hf h1 h2
        have := hwf.1
        have := hwf.2.1
        omega
      · rcases g4 with e | ⟨hf2, _⟩ <;> omega
  have hc : 0 ≤ r1.poll_count ∧ r1.poll_count.toNat < r1.poll_fds.length
      ∧ r1.poll_count.toNat < r1.sessions.length := by
    refine ⟨by omega, by omega, by omega⟩
  rw [if_pos hc]
  exact ⟨_, rfl⟩

/-- C13 as stated fails: with all 64 slots in use and the growth step failing,
`add_to_poll` goes on after a successful `malloc` and writes slot 64 of arrays
that have 64 slots; nothing is installed in the arrays. -/
theorem C13_full_registry_without_growth :
    full_registry.map (fun r => (r.poll_count, r.poll_size, r.poll_fds.length,
        r.sessions.length, add_to_poll (alloc_no_growth 64) r 164 "10.0.0.2".toList 5064))
      = some (64, 64, 64, 64, AddOutcome.overrun 64) := by
  decide!

/-- C13 (amended): for every registry with `poll_count = k` whose arrays have
room, or whose growth step succeeds, when the `Session` allocation succeeds
`add_to_poll(sockfd, ip, port)` returns 0 and installs the connection at index
`k` of both arrays (`fd = sockfd`, `events = POLLIN`, a session with this
`sockfd`, `logged_in = 0`, empty username, `active = 1`, `leftover_len = 0`),
adds exactly one to `poll_count` and to `active_connections`, and leaves every
slot below `k` unchanged. -/
theorem C13_add_installs_connection (env : Alloc) (r : Registry) (sockfd : Int)
    (ip : List Char) (port : Int) (a : Nat) (hwf : r.wf)
    (hm : env.malloc_session = some a)
    (hroom : r.poll_count < r.poll_size
      ∨ (env.realloc_poll_fds = true ∧ env.realloc_sessions = true)) :
    ∃ r' s, add_to_poll env r sockfd ip port = AddOutcome.returned 0 r'
      ∧ (∃ p, r'.poll_fds[r.poll_count.toNat]? = some p ∧ p.fd = sockfd ∧ p.events = POLLIN)
      ∧ r'.sessions[r.poll_count.toNat]? = some (some (a, s))
      ∧ (s.sockfd = sockfd ∧ s.logged_in = 0 ∧ s.username = [] ∧ s.active = 1
          ∧ s.leftover_len = 0 ∧ s.client_port = port)
      ∧ r'.poll_count = r.poll_count + 1
      ∧ r'.active_connections = r.active_connections + 1
      ∧ ∀ j : Nat, j < r.poll_count.toNat →
          r'.poll_fds[j]? = r.poll_fds[j]? ∧ r'.sessions[j]? = r.sessions[j]? := by
  obtain ⟨r', hr⟩ := add_succeeds env r sockfd ip port a hwf hm hroom
  obtain ⟨_, hbelow, hcase⟩ := add_returned env r sockfd ip port 0 r' hwf hr
  rcases hcase with ⟨h0, _⟩ | ⟨_, hc, hac, _, hfd, a', ha', hs⟩
  · omega
  · have haa : a' = a := by
      rw [hm] at ha'
      exact (Option.some.inj ha').symm
    subst haa
    exact ⟨r', new_session sockfd ip port, hr, hfd, hs, ⟨rfl, rfl, rfl, rfl, rfl, rfl⟩, hc, hac,
      hbelow⟩

theorem C13_add_installs_connection_witness :
    ∃ r' s, add_to_poll (alloc_ok 1) (initial_registry 3) 101 "10.0.0.2".toList 5001
        = AddOutcome.returned 0 r'
      ∧ (∃ p, r'.poll_fds[(initial_registry 3).poll_count.toNat]? = some p ∧ p.fd = 101
            ∧ p.events = POLLIN)
      ∧ r'.sessions[(initial_registry 3).poll_count.toNat]? = some (some (1, s))
      ∧ (s.sockfd = 101 ∧ s.logged_in = 0 ∧ s.username = [] ∧ s.active = 1
          ∧ s.leftover_len = 0 ∧ s.client_port = 5001)
      ∧ r'.poll_count = (initial_registry 3).poll_count + 1
      ∧ r'.active_connections = (initial_registry 3).active_connections + 1
      ∧ ∀ j : Nat, j < (initial_registry 3).poll_count.toNat →
          r'.poll_fds[j]? = (initial_registry 3).poll_fds[j]?
          ∧ r'.sessions[j]? = (initial_registry 3).sessions[j]? :=
  C13_add_installs_connection (alloc_ok 1) (initial_registry 3) 101 "10.0.0.2".toList 5001 1
    (by decide) rfl (Or.inl (by decide))

/-- A `remove_from_poll` call with an index in range, slot by slot. -/
theorem remove_in_range (r : Registry) (index : Int)
    (hfds : r.poll_count.toNat ≤ r.poll_fds.length)
    (hss : r.poll_count.toNat ≤ r.sessions.length)
    (h0 : 0 ≤ index) (h1 : index < r.poll_count) :
    (remove_from_poll r index).poll_count = r.poll_count - 1
    ∧ (remove_from_poll r index).poll_size = r.poll_size
    ∧ (remove_from_poll r index).active_connections = r.active_connections - 1
    ∧ (remove_from_poll r index).poll_fds.length = r.poll_fds.length
    ∧ (remove_from_poll r index).sessions.length = r.sessions.length
    ∧ (∀ j : Nat, (j : Int) < index →
        (remove_from_poll r index).poll_fds[j]? = r.poll_fds[j]?
        ∧ (remove_from_poll r index).sessions[j]? = r.sessions[j]?)
    ∧ (∀ j : Nat, index < (j : Int) → (j : Int) < r.poll_count →
        (remove_from_poll r index).poll_fds[j - 1]? = r.poll_fds[j]?
        ∧ (remove_from_poll r index).sessions[j - 1]? = r.sessions[j]?) := by
  have hn : ¬ (index < 0 ∨ index ≥ r.poll_count) := by omega
  rw [remove_from_poll, if_neg hn]
  refine ⟨rfl, rfl, rfl, shift_down_length _ _ _, shift_down_length _ _ _, ?_, ?_⟩
  · intro j hj
    constructor
    · show (shift_down _ _ r.poll_fds)[j]? = _
      rw [shift_down_get _ _ _ _ (by omega), if_pos (by omega)]
    · show (shift_down _ _ r.sessions)[j]? = _
      rw [shift_down_get _ _ _ _ (by omega), if_pos (by omega)]
  · intro j hj1 hj2
    have hj : j - 1 + 1 = j := by omega
    constructor
    · show (shift_down _ _ r.poll_fds)[j - 1]? = _
      rw [shift_down_get _ _ _ _ (by omega), if_neg (by omega), if_pos (by omega), hj]
    · show (shift_down _ _ r.sessions)[j - 1]? = _
      rw [shift_down_get _ _ _ _ (by omega), if_neg (by omega), if_pos (by omega), hj]

/-- C15: `remove_from_poll(index)` leaves a registry unchanged when the index is
outside `0 .. poll_count - 1`; otherwise it leaves the slots below `index`
unchanged in both arrays, moves the content of each slot `j` with
`index < j < poll_count` to slot `j - 1`, and takes exactly one from
`poll_count`, `poll_size` staying as it is. -/
theorem C15_remove_compacts (r : Registry) (index : Int)
    (hfds : r.poll_count.toNat ≤ r.poll_fds.length)
    (hss : r.poll_count.toNat ≤ r.sessions.length) :
    ((index < 0 ∨ index ≥ r.poll_count) → remove_from_poll r index = r)
    ∧ (0 ≤ index → index < r.poll_count →
        (remove_from_poll r index).poll_count = r.poll_count - 1
        ∧ (remove_from_poll r index).poll_size = r.poll_size
        ∧ (∀ j : Nat, (j : Int) < index →
            (remove_from_poll r index).poll_fds[j]? = r.poll_fds[j]?
            ∧ (remove_from_poll r index).sessions[j]? = r.sessions[j]?)
        ∧ (∀ j : Nat, index < (j : Int) → (j : Int) < r.poll_count →
            (remove_from_poll r index).poll_fds[j - 1]? = r.poll_fds[j]?
            ∧ (remove_from_poll r index).sessions[j - 1]? = r.sessions[j]?)) := by
  constructor
  · intro h
    rw [remove_from_poll, if_pos h]
  · intro h0 h1
    obtain ⟨a, b, _, _, _, c, d⟩ := remove_in_range r index hfds hss h0 h1
    exact ⟨a, b, c, d⟩

theorem C15_remove_compacts_witness :
    remove_from_poll small_registry 7 = small_registry
    ∧ (remove_from_poll small_registry 1).poll_count = small_registry.poll_count - 1
    ∧ (remove_from_poll small_registry 1).poll_fds[0]? = small_registry.poll_fds[0]?
    ∧ (remove_from_poll small_registry 1).poll_fds[2 - 1]? = small_registry.poll_fds[2]?
    ∧ (remove_from_poll small_registry 1).sessions[3 - 1]? = small_registry.sessions[3]? :=
  ⟨(C15_remove_compacts small_registry 7 (by decide) (by decide)).1 (by decide),
   ((C15_remove_compacts small_registry 1 (by decide) (by decide)).2 (by decide)
      (by decide)).1,
   (((C15_remove_compacts small_registry 1 (by decide) (by decide)).2 (by decide)
      (by decide)).2.2.1 0 (by decide)).1,
   (((C15_remove_compacts small_registry 1 (by decide) (by decide)).2 (by decide)
      (by decide)).2.2.2 2 (by decide) (by decide)).1,
   (((C15_remove_compacts small_registry 1 (by decide) (by decide)).2 (by decide)
      (by decide)).2.2.2 3 (by decide) (by decide)).2⟩

/-- C18 fails: with all 64 slots in use, a failing `realloc` of `poll_fds`, or
of `sessions` after `poll_fds` was enlarged, makes `expand_poll_arrays` return
silently; `add_to_poll` does not notice, allocates the session and writes slot
64 of an array that has 64 slots, instead of returning -1 with the registry
unchanged. -/
theorem C18_growth_failure_overruns :
    full_registry.map (fun r => (r.poll_size, r.sessions.length,
        add_to_poll (alloc_no_growth 64) r 164 "10.0.0.2".toList 5064,
        add_to_poll (alloc_half_growth 64) r 164 "10.0.0.2".toList 5064))
      = some (64, 64, AddOutcome.overrun 64, AddOutcome.overrun 64)
    ∧ full_registry.map (fun r =>
        decide (add_to_poll (alloc_no_growth 64) r 164 "10.0.0.2".toList 5064
          = AddOutcome.returned (-1) r))
      = some false := by
  refine ⟨?_, ?_⟩ <;> decide!

/-- The invariant of the registry: its counters fit its arrays and every
connection slot is the same connection in both tables. -/
theorem registry_inv_step_add (env : Alloc) (r : Registry) (sockfd : Int) (ip : List Char)
    (port : Int) (ret : Int) (r' : Registry) (hwf : r.wf)
    (hinv : ∀ i : Nat, 1 ≤ i → (i : Int) < r.poll_count → slots_agree r i)
    (h : add_to_poll env r sockfd ip port = AddOutcome.returned ret r') :
    r'.wf ∧ ∀ i : Nat, 1 ≤ i → (i : Int) < r'.poll_count → slots_agree r' i := by
  obtain ⟨hwf', hbelow, hcase⟩ := add_returned env r sockfd ip port ret r' hwf h
  refine ⟨hwf', ?_⟩
  intro i hi1 hi2
  have hold : (i : Int) < r.poll_count → slots_agree r' i := by
    intro hlt
    obtain ⟨p, a, s, e1, e2, e3⟩ := hinv i hi1 hlt
    obtain ⟨b1, b2⟩ := hbelow i (by omega)
    exact ⟨p, a, s, b1.trans e1, b2.trans e2, e3⟩
  rcases hcase with ⟨_, _, hc, _⟩ | ⟨_, hc, _, _, ⟨p, hp, hfd, _⟩, a, _, hs⟩
  · exact hold (by omega)
  · by_cases hlt : (i : Int) < r.poll_count
    · exact hold hlt
    · have hik : i = r.poll_count.toNat := by omega
      subst hik
      exact ⟨p, a, new_session sockfd ip port, hp, hs, hfd⟩

theorem registry_inv_step_remove (r : Registry) (index : Int) (hwf : r.wf)
    (hinv : ∀ i : Nat, 1 ≤ i → (i : Int) < r.poll_count → slots_agree r i)
    (hidx : 1 ≤ index) :
    (remove_from_poll r index).wf
    ∧ ∀ i : Nat, 1 ≤ i → (i : Int) < (remove_from_poll r index).poll_count →
        slots_agree (remove_from_poll r index) i := by
  by_cases hr : index < r.poll_count
  · obtain ⟨w1, w2, w3, w4⟩ := hwf
    obtain ⟨c1, c2, _, c4, c5, c6, c7⟩ :=
      remove_in_range r index (by omega) (by omega) (by omega) hr
    refine ⟨⟨by omega, by omega, by omega, by omega⟩, ?_⟩
    intro i hi1 hi2
    by_cases hlt : (i : Int) < index
    · obtain ⟨p, a, s, e1, e2, e3⟩ := hinv i hi1 (by omega)
      obtain ⟨b1, b2⟩ := c6 i hlt
      exact ⟨p, a, s, b1.trans e1, b2.trans e2, e3⟩
    · obtain ⟨p, a, s, e1, e2, e3⟩ := hinv (i + 1) (by omega) (by omega)
      obtain ⟨b1, b2⟩ := c7 (i + 1) (by omega) (by omega)
      exact ⟨p, a, s, b1.trans e1, b2.trans e2, e3⟩
  · have : remove_from_poll r index = r := by
      rw [remove_from_poll, if_pos (Or.inr (by omega))]
    rw [this]
    exact ⟨hwf, hinv⟩

theorem initial_registry_wf (listen_sock : Int) : (initial_registry listen_sock).wf := by
  refine ⟨?_, ?_, ?_, ?_⟩
  · show (1 : Int) ≤ 1
    decide
  · show (1 : Int) ≤ (INITIAL_POLL_SIZE : Int)
    decide
  · simp [initial_registry, INITIAL_POLL_SIZE]
  · simp [initial_registry, INITIAL_POLL_SIZE]

/-- The invariant holds along every run of registry calls. -/
theorem run_ops_inv : ∀ (ops : List RegistryOp) (r0 r : Registry), r0.wf →
    (∀ i : Nat, 1 ≤ i → (i : Int) < r0.poll_count → slots_agree r0 i) →
    (∀ op ∈ ops, op.on_connection = true) →
    run_ops r0 ops = some r →
    r.wf ∧ ∀ i : Nat, 1 ≤ i → (i : Int) < r.poll_count → slots_agree r i
  | [], r0, r, hwf, hinv, _, hrun => by
    simp only [run_ops, Option.some.injEq] at hrun
    subst hrun
    exact ⟨hwf, hinv⟩
  | RegistryOp.add env sockfd ip port :: ops, r0, r, hwf, hinv, hrem, hrun => by
    rw [run_ops] at hrun
    cases hadd : add_to_poll env r0 sockfd ip port with
    | overrun k => simp [hadd] at hrun
    | returned ret r1 =>
      simp only [hadd] at hrun
      obtain ⟨hwf1, hinv1⟩ := registry_inv_step_add env r0 sockfd ip port ret r1 hwf hinv hadd
      exact run_ops_inv ops r1 r hwf1 hinv1
        (fun op hm => hrem op (List.mem_cons_of_mem _ hm)) hrun
  | RegistryOp.remove index :: ops, r0, r, hwf, hinv, hrem, hrun => by
    rw [run_ops] at hrun
    have hidx : 1 ≤ index := by
      have := hrem (RegistryOp.remove index) (List.mem_cons_self _ _)
      simpa [RegistryOp.on_connection] using this
    obtain ⟨hwf1, hinv1⟩ := registry_inv_step_remove r0 index hwf hinv hidx
    exact run_ops_inv ops _ r hwf1 hinv1
      (fun op hm => hrem op (List.mem_cons_of_mem _ hm)) hrun

/-- An `add_to_poll` call whose `realloc` calls succeed returns, without writing
outside the arrays. -/
theorem add_never_overruns (env : Alloc) (r : Registry) (sockfd : Int) (ip : List Char)
    (port : Int) (hwf : r.wf) (h1 : env.realloc_poll_fds = true)
    (h2 : env.realloc_sessions = true) :
    ∃ ret r', add_to_poll env r sockfd ip port = AddOutcome.returned ret r' := by
  cases hm : env.malloc_session with
  | none =>
    refine ⟨-1, if r.poll_count ≥ r.poll_size then expand_poll_arrays env r else r, ?_⟩
    unfold add_to_poll
    simp only [hm]
  | some a =>
    obtain ⟨r', hr⟩ := add_succeeds env r sockfd ip port a hwf hm (Or.inr ⟨h1, h2⟩)
    exact ⟨0, r', hr⟩

/-- A run of registry calls whose growth steps succeed reaches a state. -/
theorem run_ops_defined : ∀ (ops : List RegistryOp) (r0 : Registry), r0.wf →
    (∀ i : Nat, 1 ≤ i → (i : Int) < r0.poll_count → slots_agree r0 i) →
    (∀ op ∈ ops, op.on_connection = true) →
    (∀ op ∈ ops, op.growth_succeeds = true) →
    ∃ r, run_ops r0 ops = some r
  | [], r0, _, _, _, _ => ⟨r0, rfl⟩
  | RegistryOp.add env sockfd ip port :: ops, r0, hwf, hinv, hrem, hgrow => by
    have hg := hgrow (RegistryOp.add env sockfd ip port) (List.mem_cons_self _ _)
    simp only [RegistryOp.growth_succeeds, Bool.and_eq_true] at hg
    obtain ⟨ret, r1, hadd⟩ := add_never_overruns env r0 sockfd ip port hwf hg.1 hg.2
    obtain ⟨hwf1, hinv1⟩ := registry_inv_step_add env r0 sockfd ip port ret r1 hwf hinv hadd
    obtain ⟨r, hr⟩ := run_ops_defined ops r1 hwf1 hinv1
      (fun op hm => hrem op (List.mem_cons_of_mem _ hm))
      (fun op hm => hgrow op (List.mem_cons_of_mem _ hm))
    exact ⟨r, by rw [run_ops, hadd]; exact hr⟩
  | RegistryOp.remove index :: ops, r0, hwf, hinv, hrem, hgrow => by
    have hidx : 1 ≤ index := by
      have := hrem (RegistryOp.remove index) (List.mem_cons_self _ _)
      simpa [RegistryOp.on_connection] using this
    obtain ⟨hwf1, hinv1⟩ := registry_inv_step_remove r0 index hwf hinv hidx
    obtain ⟨r, hr⟩ := run_ops_defined ops _ hwf1 hinv1
      (fun op hm => hrem op (List.mem_cons_of_mem _ hm))
      (fun op hm => hgrow op (List.mem_cons_of_mem _ hm))
    exact ⟨r, by rw [run_ops]; exact hr⟩

/-- C16 as stated fails.  With all 64 slots in use, a 64th connection is accepted
while the `realloc` of `sessions` fails after the one of `poll_fds` succeeded:
`poll_fds` then has 128 slots, `sessions` still 64, and `add_to_poll` goes on to
index 64, which exists in the descriptor table only.  The session table has no
position 64 for the connection; the write to `sessions[64]` is outside the
array and the sequence reaches no registry state. -/
theorem C16_half_growth_has_no_session_slot :
    (run_ops (initial_registry 3) (sample_adds 63)).map
        (fun r => ((expand_poll_arrays (alloc_half_growth 64) r).poll_count,
          (expand_poll_arrays (alloc_half_growth 64) r).poll_fds.length,
          (expand_poll_arrays (alloc_half_growth 64) r).sessions.length))
      = some (64, 128, 64)
    ∧ (run_ops (initial_registry 3) (sample_adds 63)).map
        (fun r => ((expand_poll_arrays (alloc_half_growth 64) r).sessions[64]?,
          add_to_poll (alloc_half_growth 64) r 164 "10.0.0.2".toList 5064))
      = some (none, AddOutcome.overrun 64)
    ∧ run_ops (initial_registry 3) (sample_adds 63 ++ [half_grown_add]) = none
    ∧ (∀ op ∈ sample_adds 63 ++ [half_grown_add], op.on_connection = true) := by
  refine ⟨?_, ?_, ?_, ?_⟩ <;> decide!

/-- C16 (amended): in every registry state reached from the initial state by
`add_to_poll` calls and `remove_from_poll(i)` calls with `i >= 1`, none of the
`add_to_poll` calls writing outside the arrays, every index `i` with
`1 <= i < poll_count` holds a session, and `poll_fds[i].fd` is the `sockfd` of
that session; and such a state is reached whenever the growth step of every
`add_to_poll` call succeeds. -/
theorem C16_parallel_arrays (listen_sock : Int) (ops : List RegistryOp)
    (hrem : ∀ op ∈ ops, op.on_connection = true) :
    (∀ r : Registry, run_ops (initial_registry listen_sock) ops = some r →
      ∀ i : Nat, 1 ≤ i → (i : Int) < r.poll_count →
        ∃ p a s, r.poll_fds[i]? = some p ∧ r.sessions[i]? = some (some (a, s))
          ∧ p.fd = s.sockfd)
    ∧ ((∀ op ∈ ops, op.growth_succeeds = true) →
        ∃ r, run_ops (initial_registry listen_sock) ops = some r) := by
  have h0 : ∀ i : Nat, 1 ≤ i → (i : Int) < (initial_registry listen_sock).poll_count →
      slots_agree (initial_registry listen_sock) i := by
    intro i h1 h2
    have : (initial_registry listen_sock).poll_count = 1 := rfl
    omega
  exact ⟨fun r hrun =>
      (run_ops_inv ops (initial_registry listen_sock) r (initial_registry_wf listen_sock)
        h0 hrem hrun).2,
    fun hgrow => run_ops_defined ops (initial_registry listen_sock)
      (initial_registry_wf listen_sock) h0 hrem hgrow⟩

theorem C16_parallel_arrays_witness :
    (∃ p a s, sample_state.poll_fds[2]? = some p
        ∧ sample_state.sessions[2]? = some (some (a, s)) ∧ p.fd = s.sockfd)
    ∧ ∃ r, run_ops (initial_registry 3) sample_ops = some r :=
  ⟨(C16_parallel_arrays 3 sample_ops (by decide)).1 sample_state (by decide) 2
      (by decide) (by decide),
   (C16_parallel_arrays 3 sample_ops (by decide)).2 (by decide)⟩

theorem remove_all_counts : ∀ (removes : List Int) (r : Registry), r.wf →
    valid_removes r removes = true →
    (remove_all r removes).wf
    ∧ (remove_all r removes).poll_count = r.poll_count - (removes.length : Int)
    ∧ (remove_all r removes).active_connections
        = r.active_connections - (removes.length : Int)
    ∧ (remove_all r removes).poll_size = r.poll_size
  | [], r, hwf, _ => by
    simp only [remove_all, List.length_nil, Nat.cast_zero, sub_zero]
    exact ⟨hwf, trivial, trivial, trivial⟩
  | i :: rest, r, hwf, hv => by
    simp only [valid_removes, Bool.and_eq_true, decide_eq_true_eq] at hv
    obtain ⟨⟨h1, h2⟩, h3⟩ := hv
    obtain ⟨w1, w2, w3, w4⟩ := hwf
    obtain ⟨c1, c2, c3, c4, c5, _, _⟩ :=
      remove_in_range r i (by omega) (by omega) (by omega) h2
    have hwf1 : (remove_from_poll r i).wf := ⟨by omega, by omega, by omega, by omega⟩
    obtain ⟨e1, e2, e3, e4⟩ := remove_all_counts rest (remove_from_poll r i) hwf1 h3
    rw [remove_all]
    refine ⟨e1, ?_, ?_, ?_⟩
    · rw [e2, c1, List.length_cons]; push_cast; omega
    · rw [e3, c3, List.length_cons]; push_cast; omega
    · rw [e4, c2]

theorem add_all_room : ∀ (calls : List AddCall) (r : Registry), r.wf →
    (∀ c ∈ calls, c.env.malloc_session ≠ none) →
    r.poll_count + (calls.length : Int) ≤ r.poll_size →
    ∃ r', add_all r calls = some r'
      ∧ r'.wf
      ∧ r'.poll_count = r.poll_count + (calls.length : Int)
      ∧ r'.active_connections = r.active_connections + (calls.length : Int)
      ∧ r'.poll_size = r.poll_size
  | [], r, hwf, _, _ => ⟨r, rfl, hwf, by simp, by simp, rfl⟩
  | c :: rest, r, hwf, hm, hroom => by
    simp only [List.length_cons, Nat.cast_add, Nat.cast_one] at hroom
    have hlt : r.poll_count < r.poll_size := by omega
    obtain ⟨a, ha⟩ := Option.ne_none_iff_exists'.mp (hm c (List.mem_cons_self _ _))
    obtain ⟨r1, hr1⟩ := add_succeeds c.env r c.sockfd c.ip c.port a hwf ha (Or.inl hlt)
    obtain ⟨hwf1, _, hcase⟩ := add_returned c.env r c.sockfd c.ip c.port 0 r1 hwf hr1
    rcases hcase with ⟨h0, _⟩ | ⟨_, hc, hac, hsz, _, _⟩
    · omega
    · rw [if_pos hlt] at hsz
      obtain ⟨r', e0, e1, e2, e3, e4⟩ := add_all_room rest r1 hwf1
        (fun c' hc' => hm c' (List.mem_cons_of_mem _ hc')) (by rw [hc, hsz]; omega)
      refine ⟨r', ?_, e1, ?_, ?_, ?_⟩
      · rw [add_all, hr1]
        simpa using e0
      · rw [e2, hc, List.length_cons]; push_cast; omega
      · rw [e3, hac, List.length_cons]; push_cast; omega
      · rw [e4, hsz]

/-- C17 as stated fails: after one connection of three was removed, an
`add_to_poll` call whose `Session` allocation fails returns -1 and leaves
`poll_count` at 3 instead of bringing it back to 4. -/
theorem C17_add_fails_without_memory :
    three_connections.poll_count = 4
    ∧ valid_removes three_connections [1] = true
    ∧ (add_to_poll alloc_no_session (remove_all three_connections [1]) 104
          "10.0.0.2".toList 5004).summary = some (-1, 3, 64, 2)
    ∧ add_all (remove_all three_connections [1]) [failing_call] = none := by
  decide

/-- C17 (amended): for every registry whose counters fit its arrays (every
reachable one does) and every `N`: `N` valid `remove_from_poll` calls followed
by `N` `add_to_poll` calls whose `Session` allocations succeed all return 0,
bring `poll_count` and `active_connections` back to their previous values and
leave `poll_size` unchanged, without any growth step. -/
theorem C17_slots_are_reused (r : Registry) (removes : List Int) (calls : List AddCall)
    (hwf : r.wf) (hvalid : valid_removes r removes = true)
    (hlen : calls.length = removes.length)
    (hmalloc : ∀ c ∈ calls, c.env.malloc_session ≠ none) :
    ∃ r', add_all (remove_all r removes) calls = some r'
      ∧ r'.poll_count = r.poll_count
      ∧ r'.active_connections = r.active_connections
      ∧ r'.poll_size = r.poll_size := by
  obtain ⟨w1, e2, e3, e4⟩ := remove_all_counts removes r hwf hvalid
  obtain ⟨r', a0, _, a2, a3, a4⟩ := add_all_room calls (remove_all r removes) w1 hmalloc
    (by rw [e2, e4, hlen]; have := hwf.2.1; omega)
  refine ⟨r', a0, ?_, ?_, ?_⟩
  · rw [a2, e2, hlen]; omega
  · rw [a3, e3, hlen]; omega
  · rw [a4, e4]

theorem C17_slots_are_reused_witness :
    ∃ r', add_all (remove_all three_connections [2, 1])
        [{ sample_call 4 with env := alloc_no_growth 4 }, sample_call 5] = some r'
      ∧ r'.poll_count = three_connections.poll_count
      ∧ r'.active_connections = three_connections.active_connections
      ∧ r'.poll_size = three_connections.poll_size :=
  C17_slots_are_reused three_connections [2, 1]
    [{ sample_call 4 with env := alloc_no_growth 4 }, sample_call 5]
    (by decide) (by decide) (by decide) (by decide)

theorem holds_connections_step (listen_sock : Int) (r0 r1 : Registry) (done : List AddCall)
    (c : AddCall) (hwf : r0.wf) (hP : holds_connections listen_sock r0 done)
    (hadd : add_to_poll c.env r0 c.sockfd c.ip c.port = AddOutcome.returned 0 r1) :
    r1.wf ∧ holds_connections listen_sock r1 (done ++ [c]) := by
  obtain ⟨p1, p2, ⟨j, pj, pleast⟩, ⟨p0, hp0, hfd0⟩, pent⟩ := hP
  obtain ⟨hwf1, hbelow, hcase⟩ := add_returned c.env r0 c.sockfd c.ip c.port 0 r1 hwf hadd
  rcases hcase with ⟨h0, _⟩ | ⟨_, hc, _, hsz, ⟨p, hp, hpfd, hpev⟩, a, ha, hs⟩
  · omega
  refine ⟨hwf1, ?_, hwf1.2.1, ?_, ?_, ?_⟩
  · rw [hc, p1, List.length_append, List.length_singleton]; push_cast; omega
  · by_cases hlt : r0.poll_count < r0.poll_size
    · rw [if_pos hlt] at hsz
      refine ⟨j, by rw [hsz, pj], fun j' hj' => ?_⟩
      have := pleast j' hj'
      rw [List.length_append, List.length_singleton]
      omega
    · rw [if_neg hlt] at hsz
      refine ⟨j + 1, ?_, fun j' hj' => ?_⟩
      · rw [hsz, pj, pow_succ]; push_cast; ring
      · have hle : 2 ^ j' ≤ 2 ^ j := Nat.pow_le_pow_right (by decide) (by omega)
        have hfull : ((INITIAL_POLL_SIZE * 2 ^ j : Nat) : Int) = (done.length : Int) + 1 := by
          rw [← pj, ← p1]; omega
        have hfull' : INITIAL_POLL_SIZE * 2 ^ j = done.length + 1 := by exact_mod_cast hfull
        have hmul : INITIAL_POLL_SIZE * 2 ^ j' ≤ INITIAL_POLL_SIZE * 2 ^ j :=
          Nat.mul_le_mul_left _ hle
        rw [List.length_append, List.length_singleton]
        omega
  · obtain ⟨b1, _⟩ := hbelow 0 (by omega)
    exact ⟨p0, b1.trans hp0, hfd0⟩
  · intro i c' hi
    by_cases hlt : i < done.length
    · rw [List.getElem?_append_left hlt] at hi
      obtain ⟨a', p', e1, e2, e3, e4, e5⟩ := pent i c' hi
      obtain ⟨b1, b2⟩ := hbelow (i + 1) (by omega)
      exact ⟨a', p', e1, b2.trans e2, b1.trans e3, e4, e5⟩
    · have hlen : i < (done ++ [c]).length := by
        by_contra hge
        rw [List.getElem?_eq_none (by omega)] at hi
        exact Option.noConfusion hi
      rw [List.length_append, List.length_singleton] at hlen
      have hi' : i = done.length := by omega
      subst hi'
      rw [List.getElem?_append_right (le_refl _), Nat.sub_self] at hi
      simp only [List.getElem?_cons_zero, Option.some.injEq] at hi
      subst hi
      have hk : r0.poll_count.toNat = done.length + 1 := by omega
      rw [hk] at hp hs
      exact ⟨a, p, ha, hs, hp, hpfd, hpev⟩

theorem holds_connections_run (listen_sock : Int) : ∀ (rest done : List AddCall)
    (r0 r : Registry), r0.wf → holds_connections listen_sock r0 done →
    add_all r0 rest = some r → holds_connections listen_sock r (done ++ rest)
  | [], done, r0, r, _, hP, hrun => by
    simp only [add_all, Option.some.injEq] at hrun
    subst hrun
    rw [List.append_nil]; exact hP
  | c :: rest, done, r0, r, hwf, hP, hrun => by
    rw [add_all] at hrun
    cases hadd : add_to_poll c.env r0 c.sockfd c.ip c.port with
    | overrun k => simp [hadd] at hrun
    | returned ret r1 =>
      simp only [hadd] at hrun
      by_cases hret : ret = 0
      · subst hret
        simp only [if_true] at hrun
        obtain ⟨hwf1, hP1⟩ := holds_connections_step listen_sock r0 r1 done c hwf hP hadd
        have := holds_connections_run listen_sock rest (done ++ [c]) r1 r hwf1 hP1 hrun
        rwa [List.append_assoc, List.singleton_append] at this
      · simp [hret] at hrun

theorem holds_connections_initial (listen_sock : Int) :
    holds_connections listen_sock (initial_registry listen_sock) [] := by
  refine ⟨rfl, ?_, ⟨0, rfl, fun j' hj' => absurd hj' (Nat.not_lt_zero _)⟩,
    ⟨_, rfl, rfl⟩, fun i c hi => ?_⟩
  · show (1 : Int) ≤ (INITIAL_POLL_SIZE : Int)
    decide
  · simp at hi

/-- Calls whose allocations all succeed all return 0. -/
theorem add_all_defined : ∀ (calls : List AddCall) (r0 : Registry), r0.wf →
    (∀ c ∈ calls, c.env.malloc_session.isSome = true ∧ c.env.realloc_poll_fds = true
      ∧ c.env.realloc_sessions = true) →
    ∃ r, add_all r0 calls = some r
  | [], r0, _, _ => ⟨r0, rfl⟩
  | c :: calls, r0, hwf, halloc => by
    obtain ⟨hm, h1, h2⟩ := halloc c (List.mem_cons_self _ _)
    obtain ⟨a, ha⟩ := Option.isSome_iff_exists.mp hm
    obtain ⟨r1, hadd⟩ := add_succeeds c.env r0 c.sockfd c.ip c.port a hwf ha (Or.inr ⟨h1, h2⟩)
    obtain ⟨hwf1, _, _⟩ := add_returned c.env r0 c.sockfd c.ip c.port 0 r1 hwf hadd
    obtain ⟨r, hr⟩ := add_all_defined calls r1 hwf1
      (fun x hx => halloc x (List.mem_cons_of_mem _ hx))
    exact ⟨r, by rw [add_all, hadd]; simpa using hr⟩

/-- C14 as stated fails.  After 63 successful calls the registry is full
(`poll_count = poll_size = 64`); a 64th call whose `realloc` of `poll_fds` fails
does not grow the arrays, yet goes on, after a successful `malloc`, to write
slot 64 and to add one to `poll_count`: the call that the program completes
with return value 0 leaves `poll_count` above `poll_size`, and the embedding
has no registry state for it. -/
theorem C14_failed_growth_exceeds_capacity :
    (add_all (initial_registry 3) (sample_calls 63)).map
        (fun r => (r.poll_count, r.poll_size, r.poll_fds.length, r.sessions.length))
      = some (64, 64, 64, 64)
    ∧ (add_all (initial_registry 3) (sample_calls 63)).map
        (fun r => ((expand_poll_arrays ungrown_call.env r).poll_size,
          (add_to_poll ungrown_call.env r ungrown_call.sockfd ungrown_call.ip
            ungrown_call.port).summary))
      = some (64, none)
    ∧ add_all (initial_registry 3) (sample_calls 63 ++ [ungrown_call]) = none := by
  refine ⟨?_, ?_, ?_⟩ <;> decide!

/-- C14 (amended): after any `n` `add_to_poll` calls on the initial registry
(capacity 64, listening socket at index 0, `poll_count = 1`) that all return 0
without writing outside the arrays, and no removal, `poll_count = n + 1 <=
poll_size`, `poll_size` is `64 * 2^j` for the least `j` with `64 * 2^j >= n + 1`,
the listening socket is still at index 0, and for every `i` the `i`-th added
connection sits at index `i` of both arrays with the session `add_to_poll`
created for it; and the calls do all return 0 in this way whenever their
allocations succeed. -/
theorem C14_growth_keeps_sessions (listen_sock : Int) (calls : List AddCall) :
    (∀ r : Registry, add_all (initial_registry listen_sock) calls = some r →
      r.poll_count = (calls.length : Int) + 1
      ∧ r.poll_count ≤ r.poll_size
      ∧ (∃ j : Nat, r.poll_size = ((64 * 2 ^ j : Nat) : Int)
          ∧ calls.length + 1 ≤ 64 * 2 ^ j
          ∧ ∀ j' : Nat, j' < j → 64 * 2 ^ j' < calls.length + 1)
      ∧ (∃ p, r.poll_fds[0]? = some p ∧ p.fd = listen_sock)
      ∧ ∀ (i : Nat) (c : AddCall), calls[i]? = some c →
          ∃ a p, c.env.malloc_session = some a
            ∧ r.sessions[i + 1]? = some (some (a, new_session c.sockfd c.ip c.port))
            ∧ r.poll_fds[i + 1]? = some p ∧ p.fd = c.sockfd ∧ p.events = POLLIN)
    ∧ ((∀ c ∈ calls, c.env.malloc_session.isSome = true ∧ c.env.realloc_poll_fds = true
          ∧ c.env.realloc_sessions = true) →
        ∃ r, add_all (initial_registry listen_sock) calls = some r) := by
  refine ⟨?_, fun halloc => add_all_defined calls _ (initial_registry_wf listen_sock) halloc⟩
  intro r hrun
  have h := holds_connections_run listen_sock calls [] (initial_registry listen_sock) r
    (initial_registry_wf listen_sock) (holds_connections_initial listen_sock) hrun
  rw [List.nil_append] at h
  obtain ⟨p1, p2, ⟨j, pj, pleast⟩, p4, p5⟩ := h
  refine ⟨p1, p2, ⟨j, pj, ?_, pleast⟩, p4, p5⟩
  have : ((calls.length + 1 : Nat) : Int) ≤ ((INITIAL_POLL_SIZE * 2 ^ j : Nat) : Int) := by
    rw [← pj]; push_cast; omega
  exact_mod_cast this

theorem C14_growth_keeps_sessions_witness :
    (grown_registry.poll_count = ((sample_calls 65).length : Int) + 1
      ∧ grown_registry.poll_count ≤ grown_registry.poll_size
      ∧ (∃ j : Nat, grown_registry.poll_size = ((64 * 2 ^ j : Nat) : Int)
          ∧ (sample_calls 65).length + 1 ≤ 64 * 2 ^ j
          ∧ ∀ j' : Nat, j' < j → 64 * 2 ^ j' < (sample_calls 65).length + 1)
      ∧ (∃ p, grown_registry.poll_fds[0]? = some p ∧ p.fd = 3)
      ∧ ∀ (i : Nat) (c : AddCall), (sample_calls 65)[i]? = some c →
          ∃ a p, c.env.malloc_session = some a
            ∧ grown_registry.sessions[i + 1]?
                = some (some (a, new_session c.sockfd c.ip c.port))
            ∧ grown_registry.poll_fds[i + 1]? = some p ∧ p.fd = c.sockfd
            ∧ p.events = POLLIN)
    ∧ ∃ r, add_all (initial_registry 3) (sample_calls 65) = some r :=
  ⟨(C14_growth_keeps_sessions 3 (sample_calls 65)).1 grown_registry (by decide!),
   (C14_growth_keeps_sessions 3 (sample_calls 65)).2 (by decide)⟩

/-! # Work queue -/

/-- C19: when the work queue is at capacity (`queue_count = 100`),
`enqueue_work` leaves the stored items, `queue_front`, `queue_rear` and
`queue_count` unchanged; when `queue_count < 100` it stores the item (the
session pointer and the message, cut to `BUFF_SIZE - 1` bytes) in the slot
`queue_rear`, touches no other slot, advances `queue_rear` by one modulo 100,
keeps `queue_front` and adds exactly one to `queue_count`. -/
theorem C19_enqueue_drops_when_full (q : WorkQueue) (session : SessionPtr)
    (message : List Char) :
    (q.queue_count = 100 → enqueue_work q session message = q)
    ∧ (q.queue_count < 100 →
        (enqueue_work q session message).queue_count = q.queue_count + 1
        ∧ (enqueue_work q session message).queue_front = q.queue_front
        ∧ (enqueue_work q session message).queue_rear = (q.queue_rear + 1) % 100
        ∧ (q.queue_rear.toNat < q.work_queue.length →
            (enqueue_work q session message).work_queue[q.queue_rear.toNat]?
              = some (stored_item session message))
        ∧ (∀ j : Nat, j ≠ q.queue_rear.toNat →
            (enqueue_work q session message).work_queue[j]? = q.work_queue[j]?)
        ∧ (message.length < BUFF_SIZE →
            stored_item session message = { session := session, message := message })) := by
  constructor
  · intro h
    rw [enqueue_work, if_neg (by omega)]
  · intro h
    rw [enqueue_work, if_pos h]
    refine ⟨rfl, rfl, rfl, ?_, ?_, ?_⟩
    · intro hlt
      show (q.work_queue.set _ _)[q.queue_rear.toNat]? = _
      rw [List.getElem?_set]
      simp [hlt, stored_item]
    · intro j hj
      exact List.getElem?_set_ne (fun e => hj e.symm)
    · intro hlen
      have : message.take (BUFF_SIZE - 1) = message :=
        List.take_of_length_le (by unfold BUFF_SIZE at *; omega)
      rw [stored_item, this]

theorem queue_contents_length (q : WorkQueue) :
    (queue_contents q).length = q.queue_count.toNat := by
  simp [queue_contents]

theorem enqueue_refines (q : WorkQueue) (session : SessionPtr) (message : List Char)
    (hwf : q.wf) :
    (enqueue_work q session message).wf
    ∧ queue_contents (enqueue_work q session message)
        = fifo_enqueue (queue_contents q) (stored_item session message) := by
  obtain ⟨w1, w2, w3, w4, w5, w6⟩ := hwf
  by_cases h : q.queue_count < 100
  · rw [enqueue_work, if_pos h]
    refine ⟨⟨?_, w2, w3, ?_, ?_, ?_⟩, ?_⟩
    · show (q.work_queue.set _ _).length = 100
      rw [List.length_set]; exact w1
    · show 0 ≤ q.queue_count + 1
      omega
    · show q.queue_count + 1 ≤ 100
      omega
    · show (q.queue_rear + 1) % 100 = (q.queue_front + (q.queue_count + 1)) % 100
      omega
    · have hn : (q.queue_count + 1).toNat = q.queue_count.toNat + 1 := by omega
      have hrear : q.queue_rear.toNat = (q.queue_front.toNat + q.queue_count.toNat) % 100 := by
        omega
      rw [fifo_enqueue, if_pos (by rw [queue_contents_length]; omega)]
      simp only [queue_contents, hn, List.range_succ, List.map_append, List.map_cons,
        List.map_nil]
      congr 1
      · apply List.map_congr_left
        intro k hk
        rw [List.mem_range] at hk
        rw [List.getElem?_set_ne (by omega)]
      · rw [← hrear, List.getElem?_set]
        simp [w1, show q.queue_rear.toNat < 100 by omega, stored_item]
  · rw [enqueue_work, if_neg h, fifo_enqueue, if_neg (by rw [queue_contents_length]; omega)]
    exact ⟨⟨w1, w2, w3, w4, w5, w6⟩, rfl⟩

theorem dequeue_refines (q : WorkQueue) (hwf : q.wf) :
    (q.queue_count = 0 → dequeue_work q = none ∧ queue_contents q = [])
    ∧ (q.queue_count ≠ 0 →
        ∃ item q1, dequeue_work q = some (item, q1) ∧ q1.wf
          ∧ queue_contents q = item :: queue_contents q1) := by
  obtain ⟨w1, w2, w3, w4, w5, w6⟩ := hwf
  constructor
  · intro h
    refine ⟨by rw [dequeue_work, if_pos h], ?_⟩
    simp [queue_contents, h]
  · intro h
    rw [dequeue_work, if_neg h]
    refine ⟨_, _, rfl, ⟨w1, by show 0 ≤ (q.queue_front + 1) % 100; omega,
      by show (q.queue_front + 1) % 100 < 100; omega,
      by show 0 ≤ q.queue_count - 1; omega,
      by show q.queue_count - 1 ≤ 100; omega,
      by show q.queue_rear = ((q.queue_front + 1) % 100 + (q.queue_count - 1)) % 100; omega⟩,
      ?_⟩
    obtain ⟨m, hm⟩ : ∃ m : Nat, q.queue_count.toNat = m + 1 := ⟨q.queue_count.toNat - 1, by omega⟩
    have hm1 : (q.queue_count - 1).toNat = m := by omega
    simp only [queue_contents, hm, hm1, List.range_succ_eq_map, List.map_cons, List.map_map]
    congr 1
    · have : (q.queue_front.toNat + 0) % 100 = q.queue_front.toNat := by omega
      rw [this]
    · apply List.map_congr_left
      intro k _
      have : (q.queue_front.toNat + (k + 1)) % 100
          = (((q.queue_front + 1) % 100).toNat + k) % 100 := by omega
      simp only [Function.comp, Nat.succ_eq_add_one, this]

theorem initial_queue_wf : initial_queue.wf := by
  refine ⟨by simp [initial_queue], ?_, ?_, ?_, ?_, ?_⟩ <;> decide

theorem initial_queue_empty : queue_contents initial_queue = [] := by
  simp [queue_contents, initial_queue]

/-- Along every run the circular buffer behaves as the bounded FIFO list does on
the list of its contents. -/
theorem run_queue_refines : ∀ (ops : List QueueOp) (q : WorkQueue), q.wf →
    (run_queue q ops).1.wf
    ∧ run_fifo (queue_contents q) ops
        = (queue_contents (run_queue q ops).1, (run_queue q ops).2)
    ∧ queue_contents q ++ accepted_items q ops
        = (run_queue q ops).2 ++ queue_contents (run_queue q ops).1
  | [], q, hwf => by
    simp only [run_queue, run_fifo, accepted_items, List.append_nil, List.nil_append]
    exact ⟨hwf, trivial, trivial⟩
  | QueueOp.enqueue session message :: ops, q, hwf => by
    obtain ⟨hwf1, hc⟩ := enqueue_refines q session message hwf
    obtain ⟨i1, i2, i3⟩ := run_queue_refines ops (enqueue_work q session message) hwf1
    rw [run_queue, run_fifo, ← hc]
    refine ⟨i1, i2, ?_⟩
    rw [← i3, hc, accepted_items]
    by_cases h : q.queue_count < 100
    · rw [if_pos h, fifo_enqueue, if_pos (by rw [queue_contents_length]; have := hwf.2.2.2.1; omega)]
      simp
    · rw [if_neg h, fifo_enqueue, if_neg (by rw [queue_contents_length]; have := hwf.2.2.2.1; omega)]
  | QueueOp.dequeue :: ops, q, hwf => by
    obtain ⟨d0, d1⟩ := dequeue_refines q hwf
    by_cases h : q.queue_count = 0
    · obtain ⟨e1, e2⟩ := d0 h
      obtain ⟨i1, i2, i3⟩ := run_queue_refines ops q hwf
      rw [run_queue, accepted_items, e1]
      simp only
      rw [e2] at i2 i3 ⊢
      rw [run_fifo]
      exact ⟨i1, i2, i3⟩
    · obtain ⟨item, q1, e1, hwf1, e2⟩ := d1 h
      obtain ⟨i1, i2, i3⟩ := run_queue_refines ops q1 hwf1
      rw [run_queue, accepted_items, e1]
      simp only
      rw [e2, run_fifo, i2]
      refine ⟨i1, rfl, ?_⟩
      rw [List.cons_append, i3, List.cons_append]

/-- C20: the circular work queue refines a bounded FIFO list of capacity 100.
In every state reached from the empty queue by `enqueue_work` calls and worker
dequeues in any interleaving, `0 <= queue_count <= 100` and
`queue_rear = (queue_front + queue_count) mod 100`; the FIFO list run over the
same steps ends with the contents of the circular buffer and yields the same
dequeued items; the accepted items are exactly the dequeued items, in the same
order, followed by those still queued; and an accepted item carries the session
pointer it was offered with and, for a message shorter than `BUFF_SIZE`, the
identical message. -/
theorem C20_queue_refines_fifo (ops : List QueueOp) :
    (0 ≤ (run_queue initial_queue ops).1.queue_count
      ∧ (run_queue initial_queue ops).1.queue_count ≤ 100
      ∧ (run_queue initial_queue ops).1.queue_rear
          = ((run_queue initial_queue ops).1.queue_front
              + (run_queue initial_queue ops).1.queue_count) % 100)
    ∧ run_fifo [] ops
        = (queue_contents (run_queue initial_queue ops).1, (run_queue initial_queue ops).2)
    ∧ accepted_items initial_queue ops
        = (run_queue initial_queue ops).2 ++ queue_contents (run_queue initial_queue ops).1
    ∧ ∀ (session : SessionPtr) (message : List Char), message.length < BUFF_SIZE →
        stored_item session message = { session := session, message := message } := by
  obtain ⟨⟨_, _, _, w4, w5, w6⟩, h2, h3⟩ := run_queue_refines ops initial_queue initial_queue_wf
  rw [initial_queue_empty] at h2 h3
  refine ⟨⟨w4, w5, w6⟩, h2, by simpa using h3, ?_⟩
  intro session message hlen
  have : message.take (BUFF_SIZE - 1) = message :=
    List.take_of_length_le (by unfold BUFF_SIZE at *; omega)
  rw [stored_item, this]
/-! # Workers, accounts and command names -/

/-- C21: a dequeued item whose session pointer is `NULL`, or whose session has
`active = 0`, is not processed: nothing is sent and the session is left as it
is; for a session with a non-zero `active` the worker performs exactly
`process_command` on the item's session and message. -/
theorem C21_worker_checks_active (file : Option (List Char)) (message : List Char) :
    worker_process file none message = (none, [])
    ∧ (∀ s : Session, s.active = 0 → worker_process file (some s) message = (some s, []))
    ∧ (∀ s : Session, s.active ≠ 0 →
        worker_process file (some s) message
          = (some (process_command file s message).1, (process_command file s message).2)) := by
  refine ⟨rfl, ?_, ?_⟩
  · intro s h
    simp [worker_process, h]
  · intro s h
    simp [worker_process, h]

theorem C21_worker_checks_active_witness :
    worker_process sample_file none "POST".toList = (none, [])
    ∧ worker_process sample_file (some { auth_session with active := 0 }) "POST".toList
        = (some { auth_session with active := 0 }, [])
    ∧ worker_process sample_file (some auth_session) "POST".toList
        = (some auth_session, [(7, "120\r\n".toList)]) :=
  ⟨(C21_worker_checks_active sample_file "POST".toList).1,
   (C21_worker_checks_active sample_file "POST".toList).2.1 _ rfl,
   ((C21_worker_checks_active sample_file "POST".toList).2.2 auth_session (by decide)).trans
     (by decide)⟩
/-- The status is what the `int` of `load_account` holds: `atoi` keeps the low 32
bits of the number, so `4294967296` reads as 0 and `alice 4294967296` is a
locked account. -/
theorem atoi_keeps_an_int :
    atoi "4294967296".toList = 0 ∧ atoi "2147483648".toList = -2147483648
    ∧ atoi "-5".toList = -5 ∧ atoi " 12x".toList = 12
    ∧ (process_user_command (some "alice 4294967296\n".toList) anon_session
        "alice".toList).2 = [(7, "211\r\n".toList)] := by
  refine ⟨?_, ?_, ?_, ?_, ?_⟩ <;> decide

theorem toupper_same_letter (c d : Char) (h : same_letter c d) : toupper c = toupper d := by
  have key : ∀ x y : Char, 65 ≤ x.toNat → x.toNat ≤ 90 → y.toNat = x.toNat + 32 →
      toupper x = toupper y := by
    intro x y h1 h2 h3
    have hx : ¬ (97 ≤ x.toNat ∧ x.toNat ≤ 122) := by omega
    have hy : 97 ≤ y.toNat ∧ y.toNat ≤ 122 := by omega
    rw [toupper, toupper, if_neg hx, if_pos hy, h3, Nat.add_sub_cancel, Char.ofNat_toNat]
  rcases h with h | ⟨h1, h2, h3⟩ | ⟨h1, h2, h3⟩
  · rw [h]
  · exact key c d h1 h2 h3
  · exact (key d c h1 h2 h3).symm

theorem same_letter_space (c d : Char) (h : same_letter c d) (hc : c ≠ Char.ofNat 32) :
    d ≠ Char.ofNat 32 := by
  rcases h with h | ⟨h1, h2, h3⟩ | ⟨h1, h2, h3⟩
  · rw [← h]; exact hc
  · intro hd
    rw [hd] at h3
    have : (Char.ofNat 32).toNat = 32 := by decide
    omega
  · intro hd
    rw [hd] at h1
    have : (Char.ofNat 32).toNat = 32 := by decide
    omega

theorem same_letter_names : ∀ (name name' : List Char), List.Forall₂ same_letter name name' →
    Char.ofNat 32 ∉ name →
    Char.ofNat 32 ∉ name' ∧ name'.length = name.length
      ∧ ∀ k : Nat, (name'.take k).map toupper = (name.take k).map toupper
  | [], _, h, _ => by
    cases h
    exact ⟨by simp, rfl, fun k => rfl⟩
  | c :: cs, _, h, hsp => by
    cases h with
    | cons hcd htl =>
      rename_i d ds
      have hc : c ≠ Char.ofNat 32 := fun e => hsp (e ▸ List.mem_cons_self _ _)
      have hcs : Char.ofNat 32 ∉ cs := fun m => hsp (List.mem_cons_of_mem _ m)
      obtain ⟨i1, i2, i3⟩ := same_letter_names cs ds htl hcs
      refine ⟨?_, by simp [i2], ?_⟩
      · intro m
        rcases List.mem_cons.mp m with e | m
        · exact same_letter_space c d hcd hc e.symm
        · exact i1 m
      · intro k
        cases k with
        | zero => rfl
        | succ k =>
          simp only [List.take_succ_cons, List.map_cons, i3 k, toupper_same_letter c d hcd]

theorem strchr_append_not_mem (c : Char) : ∀ (name rest : List Char), c ∉ name →
    strchr (name ++ rest) c = (strchr rest c).map (· + name.length)
  | [], rest, _ => by
    cases h : strchr rest c <;> simp [h]
  | x :: xs, rest, h => by
    have hx : x ≠ c := fun e => h (e ▸ List.mem_cons_self _ _)
    have hxs : c ∉ xs := fun m => h (List.mem_cons_of_mem _ m)
    rw [List.cons_append, strchr, if_neg hx, strchr_append_not_mem c xs rest hxs]
    cases strchr rest c <;> simp [Nat.add_assoc]

/-- The command and argument `process_command` parses from a line whose command
name is `name`. -/
theorem parse_command_name (name rest : List Char) (hname : Char.ofNat 32 ∉ name)
    (hrest : rest = [] ∨ rest.head? = some (Char.ofNat 32)) :
    parse_command (name ++ rest)
      = (name.take (if name.length ≥ 20 then 19 else if rest = [] then 19 else name.length),
         (rest.drop 1).take (BUFF_SIZE - 1)) := by
  rcases hrest with h | h
  · subst h
    have : strchr (name ++ []) (Char.ofNat 32) = none := by
      rw [strchr_append_not_mem _ _ _ hname]; rfl
    rw [parse_command, this]
    simp only [List.append_nil, List.drop_nil, List.take_nil, if_true]
    split_ifs <;> rfl
  · cases rest with
    | nil => simp at h
    | cons x arg =>
      have hx : x = Char.ofNat 32 := by simpa using h
      subst hx
      have : strchr (name ++ Char.ofNat 32 :: arg) (Char.ofNat 32) = some name.length := by
        rw [strchr_append_not_mem _ _ _ hname, strchr, if_pos rfl]
        simp
      rw [parse_command, this]
      simp only [List.drop_succ_cons, List.drop_zero, reduceCtorEq, if_false]
      congr 1
      · split_ifs with h20
        · rw [List.take_append_of_le_length (by omega)]
        · rw [List.take_append_of_le_length (Nat.le_refl _)]
      · have hd : (name ++ Char.ofNat 32 :: arg).drop (name.length + 1) = arg := by
          rw [← List.drop_drop, List.drop_left]
          rfl
        rw [hd]

/-- C28: `process_command` gives the same response and the same session on a
line and on the line whose command name (the text before the first space) has
its letters in any other mix of upper and lower case; the argument after the
first space is parsed from the line unchanged. -/
theorem C28_command_name_case (file : Option (List Char)) (s : Session)
    (name name' rest : List Char) (hcase : List.Forall₂ same_letter name name')
    (hname : Char.ofNat 32 ∉ name)
    (hrest : rest = [] ∨ rest.head? = some (Char.ofNat 32)) :
    process_command file s (name' ++ rest) = process_command file s (name ++ rest)
    ∧ (parse_command (name' ++ rest)).2 = (rest.drop 1).take (BUFF_SIZE - 1)
    ∧ (parse_command (name ++ rest)).2 = (rest.drop 1).take (BUFF_SIZE - 1) := by
  obtain ⟨h1, h2, h3⟩ := same_letter_names name name' hcase hname
  have p1 := parse_command_name name rest hname hrest
  have p2 := parse_command_name name' rest h1 hrest
  refine ⟨?_, by rw [p2], by rw [p1]⟩
  unfold process_command
  rw [p1, p2, h2]
  simp only [h3]

theorem C28_command_name_case_witness :
    process_command sample_file anon_session ("uSeR".toList ++ " alice".toList)
      = process_command sample_file anon_session ("USER".toList ++ " alice".toList)
    ∧ (parse_command ("uSeR".toList ++ " alice".toList)).2
      = (" alice".toList.drop 1).take (BUFF_SIZE - 1)
    ∧ (parse_command ("USER".toList ++ " alice".toList)).2
      = (" alice".toList.drop 1).take (BUFF_SIZE - 1) :=
  C28_command_name_case sample_file anon_session "USER".toList "uSeR".toList " alice".toList
    (by decide) (by decide) (by decide)
/-! # Reads after an overflow, stale bytes, partial lines -/

theorem cstr_set_nul_prefix : ∀ (buf : List Char) (i : Nat),
    ∃ x, cstr buf = cstr (buf.set i NUL) ++ x
  | [], _ => ⟨[], rfl⟩
  | c :: cs, 0 => ⟨cstr (c :: cs), by rw [List.set_cons_zero, cstr_nul_cons]; rfl⟩
  | c :: cs, i + 1 => by
    obtain ⟨x, hx⟩ := cstr_set_nul_prefix cs i
    rw [List.set_cons_succ]
    unfold cstr at hx ⊢
    by_cases hc : (c != NUL) = true
    · simp only [List.takeWhile_cons, hc, if_true, hx]
      exact ⟨x, rfl⟩
    · simp only [List.takeWhile_cons, hc]
      exact ⟨[], rfl⟩

/-- Terminating a buffer earlier cannot make `strstr` find a delimiter. -/
theorem strstr_set_nul (buf delim : List Char) (i : Nat) (h : strstr buf delim = none) :
    strstr (buf.set i NUL) delim = none := by
  obtain ⟨x, hx⟩ := cstr_set_nul_prefix buf i
  unfold strstr at h ⊢
  cases hf : find_sub delim (cstr (buf.set i NUL)) with
  | none => rfl
  | some n =>
    have := find_sub_append delim x _ n hf
    rw [← hx, h] at this
    exact absurd this (by simp)

/-- One read at `total_len = max_len - 1`: nothing of it is stored. -/
theorem recv_loop_discard (max_len : Int) (delim : List Char) (rest : List RecvResult)
    (s : Session) (out_buf : List Char) (bytes : List Char)
    (h : strstr out_buf delim = none) (hpos : bytes ≠ []) :
    recv_loop max_len delim (RecvResult.received bytes :: rest) s out_buf (max_len - 1)
      = recv_loop max_len delim rest s (out_buf.set (max_len - 1).toNat NUL) (max_len - 1) := by
  have hlen : 0 < bytes.length := List.length_pos.mpr hpos
  have h1 : ¬ ((bytes.length : Int) ≤ 0) := by omega
  have h2 : max_len - 1 + (bytes.length : Int) ≥ max_len := by omega
  rw [recv_loop]
  simp only [h, h1, h2, if_false, if_true]
  have h3 : max_len - (max_len - 1) - 1 = 0 := by omega
  rw [h3]
  simp [memcpy]

/-- The loop at `total_len = max_len - 1` over reads that all deliver bytes,
followed by the results `tail`: the reads are consumed one by one and leave the
buffer as it is, up to the terminator at `max_len - 1`. -/
theorem recv_loop_overflow (max_len : Int) (delim : List Char) (s : Session)
    (tail : List RecvResult) : ∀ (reads : List (List Char)) (out_buf : List Char),
    strstr out_buf delim = none → (∀ b ∈ reads, b ≠ []) →
    recv_loop max_len delim (reads.map RecvResult.received ++ tail) s out_buf (max_len - 1)
      = recv_loop max_len delim tail s
          (if reads = [] then out_buf else out_buf.set (max_len - 1).toNat NUL) (max_len - 1)
  | [], _, _, _ => rfl
  | b :: bs, out_buf, h, hb => by
    rw [List.map_cons, List.cons_append,
      recv_loop_discard max_len delim _ s out_buf b h (hb b (List.mem_cons_self _ _)),
      recv_loop_overflow max_len delim s tail bs _ (strstr_set_nul _ _ _ h)
        (fun x hx => hb x (List.mem_cons_of_mem _ hx))]
    simp only [reduceCtorEq, if_false]
    split_ifs
    · rfl
    · rw [List.set_set]

/-- C30: once the loop of `recv_until_delim` holds `max_len - 1` bytes and
`strstr` finds no delimiter in them, every read that delivers bytes is
discarded in full (the buffer only keeps its terminator at `max_len - 1`),
whatever it contains; the call does not return while such reads go on, and it
returns the value of the first read that gives 0 or fails. -/
theorem C30_overflow_discards_reads (max_len : Int) (delim : List Char) (s : Session)
    (out_buf : List Char) (reads : List (List Char)) (rest : List RecvResult)
    (hnone : strstr out_buf delim = none) (hreads : ∀ b ∈ reads, b ≠ []) :
    recv_loop max_len delim (reads.map RecvResult.received) s out_buf (max_len - 1) = none
    ∧ recv_loop max_len delim (reads.map RecvResult.received ++ RecvResult.received [] :: rest)
        s out_buf (max_len - 1)
      = some { ret := 0, session := s,
               out_buf := if reads = [] then out_buf
                          else out_buf.set (max_len - 1).toNat NUL,
               sock := rest }
    ∧ recv_loop max_len delim (reads.map RecvResult.received ++ RecvResult.failed :: rest)
        s out_buf (max_len - 1)
      = some { ret := -1, session := s,
               out_buf := if reads = [] then out_buf
                          else out_buf.set (max_len - 1).toNat NUL,
               sock := rest } := by
  have hb : strstr (if reads = [] then out_buf else out_buf.set (max_len - 1).toNat NUL) delim
      = none := by
    split_ifs
    · exact hnone
    · exact strstr_set_nul _ _ _ hnone
  refine ⟨?_, ?_, ?_⟩
  · have := recv_loop_overflow max_len delim s [] reads out_buf hnone hreads
    rw [List.append_nil] at this
    rw [this, recv_loop, hb]
  · rw [recv_loop_overflow max_len delim s _ reads out_buf hnone hreads, recv_loop, hb]
    simp
  · rw [recv_loop_overflow max_len delim s _ reads out_buf hnone hreads, recv_loop, hb]

theorem C30_overflow_discards_reads_witness :
    recv_loop 8 crlf (["X\r\n".toList, "\r\n".toList].map RecvResult.received) anon_session
        "ABCDEFG\x00".toList (8 - 1) = none
    ∧ recv_loop 8 crlf (["X\r\n".toList, "\r\n".toList].map RecvResult.received
          ++ RecvResult.received [] :: []) anon_session "ABCDEFG\x00".toList (8 - 1)
      = some { ret := 0, session := anon_session,
               out_buf := if ["X\r\n".toList, "\r\n".toList] = [] then "ABCDEFG\x00".toList
                          else "ABCDEFG\x00".toList.set ((8 : Int) - 1).toNat NUL,
               sock := [] }
    ∧ recv_loop 8 crlf (["X\r\n".toList, "\r\n".toList].map RecvResult.received
          ++ RecvResult.failed :: []) anon_session "ABCDEFG\x00".toList (8 - 1)
      = some { ret := -1, session := anon_session,
               out_buf := if ["X\r\n".toList, "\r\n".toList] = [] then "ABCDEFG\x00".toList
                          else "ABCDEFG\x00".toList.set ((8 : Int) - 1).toNat NUL,
               sock := [] } :=
  C30_overflow_discards_reads 8 crlf anon_session "ABCDEFG\x00".toList
    ["X\r\n".toList, "\r\n".toList] [] (by decide) (by decide)
/-! # The pass of the event loop over the table -/

theorem to_examine_get (r : Registry) (i j : Nat) :
    (to_examine r i)[j]? = if i + j < r.poll_count.toNat then r.poll_fds[i + j]? else none := by
  rw [to_examine, List.getElem?_drop, List.getElem?_take]

theorem to_examine_cons (r : Registry) (i : Nat) (p : PollFd)
    (hi : (i : Int) < r.poll_count) (hp : r.poll_fds[i]? = some p) :
    to_examine r i = p :: to_examine r (i + 1) := by
  apply List.ext_getElem?
  intro j
  rw [to_examine_get]
  cases j with
  | zero =>
    have : i + 0 < r.poll_count.toNat := by omega
    rw [if_pos this]
    simpa using hp
  | succ j =>
    rw [List.getElem?_cons_succ, to_examine_get]
    have : i + (j + 1) = i + 1 + j := by omega
    rw [this]

theorem to_examine_remove (r : Registry) (i : Nat)
    (hfds : r.poll_count.toNat ≤ r.poll_fds.length)
    (hss : r.poll_count.toNat ≤ r.sessions.length)
    (hi : (i : Int) < r.poll_count) :
    to_examine (remove_from_poll r i) i = to_examine r (i + 1) := by
  obtain ⟨c1, _, _, _, _, _, c7⟩ := remove_in_range r i hfds hss (by omega) hi
  apply List.ext_getElem?
  intro j
  rw [to_examine_get, to_examine_get, c1]
  by_cases hj : i + 1 + j < r.poll_count.toNat
  · have h1 : i + j < (r.poll_count - 1).toNat := by omega
    rw [if_pos h1, if_pos hj]
    have := (c7 (i + 1 + j) (by omega) (by omega)).1
    have e : i + 1 + j - 1 = i + j := by omega
    rw [e] at this
    exact this
  · have h1 : ¬ i + j < (r.poll_count - 1).toNat := by omega
    rw [if_neg h1, if_neg hj]

/-- Successive teardowns at the indices `i`, `i - 1`, ... leave, from the next
index of the loop on, the entries that were behind index `i`. -/
theorem teardown_removes_examine : ∀ (n i : Nat) (r : Registry),
    r.poll_count ≤ r.poll_size → r.poll_size.toNat ≤ r.poll_fds.length →
    r.sessions.length = r.poll_size.toNat → (i : Int) < r.poll_count → n ≤ i + 1 →
    (teardown_removes n i r).poll_count ≤ (teardown_removes n i r).poll_size
    ∧ (teardown_removes n i r).poll_size.toNat ≤ (teardown_removes n i r).poll_fds.length
    ∧ (teardown_removes n i r).sessions.length = (teardown_removes n i r).poll_size.toNat
    ∧ ((i + 1 - n : Nat) : Int) ≤ (teardown_removes n i r).poll_count
    ∧ to_examine (teardown_removes n i r) (i + 1 - n) = to_examine r (i + 1)
  | 0, i, r, h1, h2, h3, hi, _ => by
    refine ⟨h1, h2, h3, ?_, rfl⟩
    show ((i + 1 - 0 : Nat) : Int) ≤ r.poll_count
    omega
  | n + 1, i, r, h1, h2, h3, hi, hn => by
    obtain ⟨c1, c2, _, c4, c5, _, _⟩ :=
      remove_in_range r i (by omega) (by omega) (by omega) hi
    have hrem := to_examine_remove r i (by omega) (by omega) hi
    rw [teardown_removes]
    cases n with
    | zero =>
      rw [teardown_removes]
      refine ⟨by rw [c1, c2]; omega, by rw [c2, c4]; exact h2, by rw [c5, c2]; exact h3, ?_, ?_⟩
      · show ((i + 1 - 1 : Nat) : Int) ≤ (remove_from_poll r i).poll_count
        rw [c1]
        omega
      · show to_examine (remove_from_poll r i) (i + 1 - 1) = _
        rw [Nat.add_sub_cancel]
        exact hrem
    | succ m =>
      have hi1 : 1 ≤ i := by omega
      have hcast : (i : Int) - 1 = ((i - 1 : Nat) : Int) := by omega
      rw [hcast]
      obtain ⟨e1, e2, e3, e4, e5⟩ := teardown_removes_examine (m + 1) (i - 1)
        (remove_from_poll r i) (by rw [c1, c2]; omega) (by rw [c2, c4]; exact h2)
        (by rw [c5, c2]; exact h3) (by rw [c1]; omega) (by omega)
      have hidx : i - 1 + 1 - (m + 1) = i + 1 - (m + 1 + 1) := by omega
      have hback : i - 1 + 1 = i := by omega
      rw [hidx, hback] at e5
      rw [hidx] at e4
      exact ⟨e1, e2, e3, e4, e5.trans hrem⟩

theorem to_examine_add (env : Alloc) (r r' : Registry) (sockfd : Int) (ip : List Char)
    (port : Int) (ret : Int) (i : Nat) (hwf : r.wf) (hi : (i : Int) ≤ r.poll_count)
    (h : add_to_poll env r sockfd ip port = AddOutcome.returned ret r') :
    (ret = 0 ∧ ∃ p, p.fd = sockfd ∧ to_examine r' i = to_examine r i ++ [p])
    ∨ (ret ≠ 0 ∧ to_examine r' i = to_examine r i) := by
  obtain ⟨_, hbelow, hcase⟩ := add_returned env r sockfd ip port ret r' hwf h
  have w1 := hwf.1
  rcases hcase with ⟨hr, _, hc, _⟩ | ⟨hr, hc, _, _, ⟨p, hp, hfd, _⟩, _⟩
  · refine Or.inr ⟨by omega, ?_⟩
    apply List.ext_getElem?
    intro j
    rw [to_examine_get, to_examine_get, hc]
    split_ifs with hj
    · exact (hbelow (i + j) hj).1
    · rfl
  · refine Or.inl ⟨hr, p, hfd, ?_⟩
    have hlen : (to_examine r i).length = r.poll_count.toNat - i := by
      rw [to_examine, List.length_drop, List.length_take]
      have := hwf.2.1
      have := hwf.2.2.1
      omega
    apply List.ext_getElem?
    intro j
    rw [to_examine_get, hc]
    by_cases hj : i + j < r.poll_count.toNat
    · rw [if_pos (by omega), List.getElem?_append_left (by omega), to_examine_get, if_pos hj]
      exact (hbelow (i + j) hj).1
    · by_cases hj2 : i + j = r.poll_count.toNat
      · rw [if_pos (by omega), hj2, hp, List.getElem?_append_right (by omega)]
        have : j - (to_examine r i).length = 0 := by omega
        rw [this]
        rfl
      · rw [if_neg (by omega), List.getElem?_append_right (by omega)]
        have : j - (to_examine r i).length = (j - (to_examine r i).length - 1) + 1 := by omega
        rw [this]
        rfl
theorem to_examine_end (r : Registry) (i : Nat) (hi : ¬ (i : Int) < r.poll_count) :
    to_examine r i = [] := by
  apply List.eq_nil_of_length_eq_zero
  rw [to_examine, List.length_drop, List.length_take]
  omega

/-- What a step of the pass has to establish: the invariant for the next index,
or, when the pass ends inside the step, that the entries examined are an
initial part of the table followed by accepted connections. -/
theorem accept_connection_inv (table : List PollFd)
    (accepts : List AcceptResult) (i : Nat) (s : Server)
    (hinv : pass_inv table accepts (i + 1) s) :
    match accept_connection i s with
    | Step.next j s1 => pass_inv table accepts j s1
    | Step.stop o =>
      ∃ rest added, o.server.examined ++ rest = table ++ added ∧ o.is_completed = false
        ∧ ∀ p ∈ added, accepted_among accepts p
    | Step.out_of_fuel => True := by
  obtain ⟨f1, f2, f3, hi, ⟨used, hused⟩, added, hex, hadd⟩ := hinv
  have hwf : s.reg.wf := ⟨by omega, f1, f2, f3⟩
  unfold accept_connection
  cases hacc : s.accepts with
  | nil => exact ⟨_, added, hex, rfl, hadd⟩
  | cons a rest =>
    have hused' : accepts = (used ++ [a]) ++ rest := by
      rw [hused, hacc, List.append_assoc]; rfl
    cases a with
    | failed => exact ⟨f1, f2, f3, hi, ⟨_, hused'⟩, added, hex, hadd⟩
    | connected new_sock ip port env =>
      have hmem : AcceptResult.connected new_sock ip port env ∈ accepts := by
        rw [hused']; simp
      simp only
      cases hadd_to : add_to_poll env s.reg new_sock ip port with
      | overrun k => exact ⟨_, added, hex, rfl, hadd⟩
      | returned ret reg1 =>
        obtain ⟨hwf1, hbelow, hcase⟩ :=
          add_returned env s.reg new_sock ip port ret reg1 hwf hadd_to
        have hcount : s.reg.poll_count ≤ reg1.poll_count := by
          rcases hcase with ⟨_, _, hc, _⟩ | ⟨_, hc, _⟩ <;> omega
        rcases to_examine_add env s.reg reg1 new_sock ip port ret (i + 1) hwf hi hadd_to with
          ⟨hr, p, hfd, hte⟩ | ⟨hr, hte⟩
        · simp only [hr, if_true]
          refine ⟨hwf1.2.1, hwf1.2.2.1, hwf1.2.2.2,
            by show ((i + 1 : Nat) : Int) ≤ reg1.poll_count; omega,
            ⟨_, hused'⟩, added ++ [p], ?_, ?_⟩
          · show s.examined ++ to_examine reg1 (i + 1) = table ++ (added ++ [p])
            rw [hte, ← List.append_assoc, hex, List.append_assoc]
          · intro q hq
            rcases List.mem_append.mp hq with hq | hq
            · exact hadd q hq
            · have : q = p := by simpa using hq
              subst this
              exact ⟨ip, port, env, hfd ▸ hmem⟩
        · simp only [hr, if_false]
          refine ⟨hwf1.2.1, hwf1.2.2.1, hwf1.2.2.2,
            by show ((i + 1 : Nat) : Int) ≤ reg1.poll_count; omega,
            ⟨_, hused'⟩, added, ?_, hadd⟩
          show s.examined ++ to_examine reg1 (i + 1) = table ++ added
          rw [hte, hex]

theorem serve_connection_inv (table : List PollFd)
    (accepts : List AcceptResult) (fuel : Nat) (i : Nat) (s : Server)
    (hinv : pass_inv table accepts (i + 1) s) :
    match serve_connection fuel i s with
    | Step.next j s1 => pass_inv table accepts j s1
    | Step.stop o =>
      ∃ rest added, o.server.examined ++ rest = table ++ added ∧ o.is_completed = false
        ∧ ∀ p ∈ added, accepted_among accepts p
    | Step.out_of_fuel => True := by
  obtain ⟨f1, f2, f3, hi, hused, added, hex, hadd⟩ := hinv
  unfold serve_connection
  cases hs : s.reg.sessions[i]? with
  | none => exact ⟨_, added, hex, rfl, hadd⟩
  | some ref =>
    cases ref with
    | none => exact ⟨f1, f2, f3, hi, hused, added, hex, hadd⟩
    | some as =>
      obtain ⟨a, session⟩ := as
      simp only
      cases hread : read_loop (some a) fuel session s.buff (pending s.conns session.sockfd)
          s.queue with
      | none => trivial
      | some out =>
        cases out with
        | blocked q => exact ⟨_, added, hex, rfl, hadd⟩
        | finished session1 buff1 sock1 q =>
          refine ⟨f1, f2, ?_, hi, hused, added, hex, hadd⟩
          show (s.reg.sessions.set _ _).length = _
          rw [List.length_set]
          exact f3
        | torn_down n session1 buff1 sock1 q =>
          simp only
          split_ifs with hneg
          · exact ⟨_, added, hex, rfl, hadd⟩
          · have hlt : (i : Int) < s.reg.poll_count := by omega
            obtain ⟨e1, e2, e3, e4, e5⟩ :=
              teardown_removes_examine n i s.reg f1 f2 f3 hlt (by omega)
            refine ⟨e1, e2, e3, e4, hused, added, ?_, hadd⟩
            show s.examined ++ to_examine (teardown_removes n i s.reg) (i + 1 - n)
              = table ++ added
            rw [e5, hex]

theorem visit_inv (listen_sock : Int) (table : List PollFd) (accepts : List AcceptResult)
    (fuel : Nat) (i : Nat) (s : Server) (hinv : pass_inv table accepts i s)
    (hlt : (i : Int) < s.reg.poll_count) :
    match visit listen_sock fuel i s with
    | Step.next j s1 => pass_inv table accepts j s1
    | Step.stop o =>
      ∃ rest added, o.server.examined ++ rest = table ++ added ∧ o.is_completed = false
        ∧ ∀ p ∈ added, accepted_among accepts p
    | Step.out_of_fuel => True := by
  obtain ⟨f1, f2, f3, _, hused, added, hex, hadd⟩ := hinv
  unfold visit
  cases hp : s.reg.poll_fds[i]? with
  | none => exact ⟨_, added, hex, rfl, hadd⟩
  | some p =>
    have hnext : pass_inv table accepts (i + 1)
        { s with examined := s.examined ++ [p] } := by
      refine ⟨f1, f2, f3, by show ((i + 1 : Nat) : Int) ≤ s.reg.poll_count; omega, hused,
        added, ?_, hadd⟩
      show (s.examined ++ [p]) ++ to_examine s.reg (i + 1) = table ++ added
      rw [← hex, to_examine_cons s.reg i p hlt hp, List.append_assoc]
      rfl
    simp only
    split_ifs with hr hfd
    · exact accept_connection_inv table accepts i _ hnext
    · exact serve_connection_inv table accepts fuel i _ hnext
    · exact hnext

/-- The whole pass: whatever its outcome, the entries examined are an initial
part of the table `poll` returned, in its order, followed by entries of
connections accepted during the pass; a completed pass has examined all of the
table. -/
theorem poll_pass_loop_inv (listen_sock : Int) (table : List PollFd)
    (accepts : List AcceptResult) (fuel : Nat) : ∀ (steps i : Nat) (s : Server) (o : PassOutcome),
    pass_inv table accepts i s →
    poll_pass_loop listen_sock fuel steps i s = some o →
    ∃ rest added, o.server.examined ++ rest = table ++ added
      ∧ (o.is_completed = true → rest = [])
      ∧ ∀ p ∈ added, accepted_among accepts p
  | 0, _, _, _, _, h => by simp [poll_pass_loop] at h
  | steps + 1, i, s, o, hinv, h => by
    rw [poll_pass_loop] at h
    by_cases hlt : (i : Int) < s.reg.poll_count
    · rw [if_pos hlt] at h
      have hv := visit_inv listen_sock table accepts fuel i s hinv hlt
      cases hvis : visit listen_sock fuel i s with
      | next j s1 =>
        rw [hvis] at h hv
        exact poll_pass_loop_inv listen_sock table accepts fuel steps j s1 o hv h
      | stop o1 =>
        rw [hvis] at h hv
        simp only [Option.some.injEq] at h
        subst h
        obtain ⟨rest, added, e1, e2, e3⟩ := hv
        exact ⟨rest, added, e1, fun hc => by rw [e2] at hc; exact absurd hc (by decide), e3⟩
      | out_of_fuel =>
        rw [hvis] at h
        simp at h
    · rw [if_neg hlt] at h
      simp only [Option.some.injEq] at h
      subst h
      obtain ⟨_, _, _, _, _, added, hex, hadd⟩ := hinv
      rw [to_examine_end s.reg i hlt] at hex
      exact ⟨[], added, hex, fun _ => rfl, hadd⟩
theorem poll_revents_length (ready : List Int) : ∀ (n : Nat) (fds : List PollFd),
    (poll_revents ready n fds).length = fds.length
  | 0, _ => rfl
  | _ + 1, [] => rfl
  | n + 1, p :: fds => by
    rw [poll_revents, List.length_cons, List.length_cons, poll_revents_length ready n fds]

theorem pass_inv_start (ready : List Int) (s : Server) (hwf : s.reg.wf) :
    pass_inv (to_examine (poll ready s.reg) 0) s.accepts 0
      { s with reg := poll ready s.reg, examined := [], read_from := [] } := by
  obtain ⟨w1, w2, w3, w4⟩ := hwf
  refine ⟨w2, ?_, w4, ?_, ⟨[], rfl⟩, [], ?_, ?_⟩
  · show s.reg.poll_size.toNat ≤ (poll_revents ready _ s.reg.poll_fds).length
    rw [poll_revents_length]
    exact w3
  · show ((0 : Nat) : Int) ≤ s.reg.poll_count
    omega
  · show [] ++ to_examine (poll ready s.reg) 0 = to_examine (poll ready s.reg) 0 ++ []
    simp
  · intro q hq
    simp at hq

/-- C22: in a pass of the event loop, whenever the body for a connection at
index `i` lets the loop go on, after no teardown, after one (`remove_from_poll(i);
i--`, the case of a zero-byte or failed read) or after several, the loop is
left with exactly the entries that were behind index `i`, from the one that
was at `i + 1` on, each with the `revents` it had; hence the entries examined
in a pass are the entries of the table as `poll` returned it, each once and in
order, followed only by entries of connections accepted during the pass (all
of the table when the pass runs to its end, an initial part of it when a call
blocks or the index leaves the table). -/
theorem C22_pass_examines_each_entry_once (listen_sock : Int) (fuel steps : Nat)
    (ready : List Int) (s : Server) (o : PassOutcome) (hwf : s.reg.wf)
    (hrun : event_pass listen_sock fuel steps ready s = some o) :
    (∀ (i j : Nat) (s1 : Server), (i : Int) < s.reg.poll_count →
        serve_connection fuel i s = Step.next j s1 →
        to_examine s1.reg j = to_examine s.reg (i + 1)
          ∧ (j = i → s1.reg = remove_from_poll s.reg i))
    ∧ ∃ rest added, o.server.examined ++ rest = to_examine (poll ready s.reg) 0 ++ added
        ∧ (o.is_completed = true → rest = [])
        ∧ ∀ p ∈ added, accepted_among s.accepts p := by
  refine ⟨?_, ?_⟩
  · intro i j s1 hi hstep
    obtain ⟨w1, w2, w3, w4⟩ := hwf
    unfold serve_connection at hstep
    split at hstep
    · simp at hstep
    · simp only [Step.next.injEq] at hstep
      obtain ⟨hj, hs⟩ := hstep
      subst hj; subst hs
      exact ⟨rfl, fun h => by omega⟩
    · split at hstep
      · simp at hstep
      · simp at hstep
      · simp only [Step.next.injEq] at hstep
        obtain ⟨hj, hs⟩ := hstep
        subst hj; subst hs
        exact ⟨rfl, fun h => by omega⟩
      · rename_i n session1 buff1 sock1 q _
        split_ifs at hstep with hneg
        simp only [Step.next.injEq] at hstep
        obtain ⟨hj, hs⟩ := hstep
        subst hj; subst hs
        refine ⟨(teardown_removes_examine n i s.reg w2 w3 w4 hi (by omega)).2.2.2.2, ?_⟩
        intro h
        have hn : n = 1 := by omega
        subst hn
        rfl
  · exact poll_pass_loop_inv listen_sock _ s.accepts fuel steps 0 _ o
      (pass_inv_start ready s hwf) hrun

theorem C22_pass_examines_each_entry_once_witness :
    (∀ (i j : Nat) (s1 : Server), (i : Int) < three_accepted.reg.poll_count →
        serve_connection 10 i three_accepted = Step.next j s1 →
        to_examine s1.reg j = to_examine three_accepted.reg (i + 1)
          ∧ (j = i → s1.reg = remove_from_poll three_accepted.reg i))
    ∧ ∃ rest added, three_served.server.examined ++ rest
          = to_examine (poll [4, 5, 6] three_accepted.reg) 0 ++ added
        ∧ (three_served.is_completed = true → rest = [])
        ∧ ∀ p ∈ added, accepted_among three_accepted.accepts p :=
  C22_pass_examines_each_entry_once 3 10 100 [4, 5, 6] three_accepted three_served
    (by decide!) (by decide!)

/-- Two empty lines in one read: the first makes `recv_until_delim` return 0 with
the second still in the leftover, so after the teardown the loop runs again on
the freed session, gets 0 once more and tears down a second time with the
index already decremented: `remove_from_poll(0)` takes the listening socket out
of the table and `poll_count` ends at 0. -/
theorem two_empty_lines_tear_down_twice :
    (read_loop (some 1) 10 anon_session zero_buf [RecvResult.received "\r\n\r\n".toList]
        initial_queue).map (fun o => (o.teardowns, o.queue))
      = some (2, initial_queue)
    ∧ (event_passes 3 10 100 empty_lines_client [[3], [4]]).map
        (fun o => (o.summary, o.server.closed))
      = some ({ completed := true, poll_count := 0, examined := [(3, 0), (4, 1)],
                read_from := [4], sent := [(4, "100\r\n".toList)] }, [4, 4]) := by
  refine ⟨?_, ?_⟩ <;> decide!
/-- C24 fails.  A first client connects (descriptor 4, slot 1) and closes: in
the second pass its entry, the last of the table, is removed while its
`revents` is `POLLIN`, and slot 1 keeps that value.  A second client connects
and sends nothing.  In the third pass `poll` reports the listening socket
only (descriptor 3); `add_to_poll` puts the new connection in slot 1 without
touching `revents`, the loop reaches index 1 in the same pass, finds `POLLIN`
there and calls `recv_until_delim` on the new connection, which has nothing to
deliver: the `recv` does not return. -/
theorem C24_new_connection_read_unready :
    (event_passes 3 10 100 late_client [[3], [4]]).map
        (fun o => (o.summary, o.server.reg.poll_fds[1]?, pending o.server.conns 4))
      = some ({ completed := true, poll_count := 1, examined := [(3, 0), (4, 1)],
                read_from := [4], sent := [(4, "100\r\n".toList)] },
              some { fd := 4, events := POLLIN, revents := POLLIN }, [])
    ∧ (event_passes 3 10 100 late_client [[3], [4], [3]]).map PassOutcome.summary
      = some { completed := false, poll_count := 2, examined := [(3, 1), (4, 1)],
               read_from := [4], sent := [(4, "100\r\n".toList), (4, "100\r\n".toList)] }
    ∧ (4 : Int) ∉ [(3 : Int)] := by
  refine ⟨?_, ?_, ?_⟩ <;> decide!

/-- C29 fails on the bytes `POST\r\nX\r\nBYE` delivered by one read.  The calls
return `POST`, then `X` with the three bytes `BYE` kept; the third call has
these three bytes buffered and no read to come, yet it returns the 7-byte line
`BYEBYEX`: `strstr` runs on into the bytes the earlier calls left in `out_buf`
and matches the `\r\n` at offset 7, beyond `total_len = 3`. -/
theorem C29_stale_bytes_are_returned :
    (recv_until_delim anon_session zero_buf BUFF_SIZE crlf
        [RecvResult.received "POST\r\nX\r\nBYE".toList]).map RecvReturn.summary
      = some (4, "POST".toList, "X\r\nBYE".toList, [])
    ∧ (next_call (recv_until_delim anon_session zero_buf BUFF_SIZE crlf
        [RecvResult.received "POST\r\nX\r\nBYE".toList])).map
        (fun r => (r.summary, r.session.leftover_len))
      = some ((1, "X".toList, "BYE".toList, []), 3)
    ∧ (next_call (next_call (recv_until_delim anon_session zero_buf BUFF_SIZE crlf
        [RecvResult.received "POST\r\nX\r\nBYE".toList]))).map RecvReturn.summary
      = some (7, "BYEBYEX".toList, [], [])
    ∧ ¬ ((7 : Int) + (crlf.length : Int) ≤ 3) := by
  refine ⟨?_, ?_, ?_, ?_⟩ <;> decide!
/-! # Lock order -/

theorem held_after_append : ∀ (t1 t2 : List LockEvent) (held : List Mutex),
    held_after held (t1 ++ t2) = held_after (held_after held t1) t2
  | [], _, _ => rfl
  | LockEvent.lock m :: t1, t2, held => by
    rw [List.cons_append, held_after, held_after, held_after_append t1 t2]
  | LockEvent.unlock m :: t1, t2, held => by
    rw [List.cons_append, held_after, held_after, held_after_append t1 t2]

theorem lock_order_kept_append : ∀ (t1 t2 : List LockEvent) (held : List Mutex),
    lock_order_kept held (t1 ++ t2)
      = (lock_order_kept held t1 && lock_order_kept (held_after held t1) t2)
  | [], _, _ => by simp [lock_order_kept, held_after]
  | LockEvent.lock m :: t1, t2, held => by
    rw [List.cons_append, lock_order_kept, lock_order_kept, held_after,
      lock_order_kept_append t1 t2, Bool.and_assoc]
  | LockEvent.unlock m :: t1, t2, held => by
    rw [List.cons_append, lock_order_kept, lock_order_kept, held_after,
      lock_order_kept_append t1 t2]

/-- A handler takes the lock of its session and releases it, and `process_command`
takes no other lock. -/
theorem process_command_locks_shape (file : Option (List Char)) (a : Nat) (s : Session)
    (buffer : List Char) :
    process_command_locks file a s buffer = []
    ∨ process_command_locks file a s buffer
      = [LockEvent.lock (Mutex.session_lock a), LockEvent.unlock (Mutex.session_lock a)] := by
  unfold process_command_locks
  split
  simp only
  split_ifs
  · right
    unfold process_user_command_locks
    split_ifs
    · rfl
    · rfl
    · split
      split_ifs <;> rfl
  · exact Or.inr rfl
  · exact Or.inr rfl
  · exact Or.inl rfl

theorem registry_locks_shape :
    (∀ env : Alloc, add_to_poll_locks env
        = [LockEvent.lock Mutex.sessions_mutex, LockEvent.unlock Mutex.sessions_mutex])
    ∧ (∀ (r : Registry) (index : Int), remove_from_poll_locks r index
        = [LockEvent.lock Mutex.sessions_mutex, LockEvent.unlock Mutex.sessions_mutex])
    ∧ (∀ (r : Registry) (sockfd : Int), (find_session_by_sockfd r sockfd).2
        = [LockEvent.lock Mutex.sessions_mutex, LockEvent.unlock Mutex.sessions_mutex]) := by
  refine ⟨?_, ?_, ?_⟩
  · intro env
    unfold add_to_poll_locks
    split <;> rfl
  · intro r index
    unfold remove_from_poll_locks
    split_ifs <;> rfl
  · intro r sockfd
    unfold find_session_by_sockfd
    split <;> rfl

theorem waits_locks : ∀ waits : Nat,
    lock_order_kept [Mutex.queue_mutex]
        (List.replicate waits
          [LockEvent.unlock Mutex.queue_mutex, LockEvent.lock Mutex.queue_mutex]).flatten = true
    ∧ held_after [Mutex.queue_mutex]
        (List.replicate waits
          [LockEvent.unlock Mutex.queue_mutex, LockEvent.lock Mutex.queue_mutex]).flatten
      = [Mutex.queue_mutex]
  | 0 => ⟨rfl, rfl⟩
  | n + 1 => by
    obtain ⟨h1, h2⟩ := waits_locks n
    rw [List.replicate_succ, List.flatten_cons, lock_order_kept_append, held_after_append]
    have e : held_after [Mutex.queue_mutex]
        [LockEvent.unlock Mutex.queue_mutex, LockEvent.lock Mutex.queue_mutex]
        = [Mutex.queue_mutex] := by decide
    rw [e, h1, h2]
    exact ⟨by decide, rfl⟩

/-- Every call keeps the lock order and returns with no lock held. -/
theorem call_locks_balanced (c : LockingCall) :
    lock_order_kept [] c.locks = true ∧ held_after [] c.locks = [] := by
  obtain ⟨r1, r2, r3⟩ := registry_locks_shape
  cases c with
  | add env => rw [LockingCall.locks, r1]; exact ⟨by decide, by decide⟩
  | remove r index => rw [LockingCall.locks, r2]; exact ⟨by decide, by decide⟩
  | find r sockfd => rw [LockingCall.locks, r3]; exact ⟨by decide, by decide⟩
  | enqueue => exact ⟨by decide, by decide⟩
  | work file waits target message =>
    obtain ⟨w1, w2⟩ := waits_locks waits
    have hcmd : ∀ t : List LockEvent, (t = [] ∨ ∃ a, t
        = [LockEvent.lock (Mutex.session_lock a), LockEvent.unlock (Mutex.session_lock a)]) →
        lock_order_kept [] t = true ∧ held_after [] t = [] := by
      intro t ht
      rcases ht with h | ⟨a, h⟩
      · subst h; exact ⟨rfl, rfl⟩
      · subst h
        simp [lock_order_kept, held_after]
    have htail : lock_order_kept [] (match target with
          | none => []
          | some (a, s) =>
            if s.active ≠ 0 then process_command_locks file a s message else [])
          = true
        ∧ held_after [] (match target with
          | none => []
          | some (a, s) =>
            if s.active ≠ 0 then process_command_locks file a s message else []) = [] := by
      apply hcmd
      cases target with
      | none => exact Or.inl rfl
      | some p =>
        obtain ⟨a, s⟩ := p
        simp only
        split_ifs
        · rcases process_command_locks_shape file a s message with h | h
          · exact Or.inl h
          · exact Or.inr ⟨a, h⟩
        · exact Or.inl rfl
    have hempty : [Mutex.queue_mutex].erase Mutex.queue_mutex = [] := by decide
    have key : ∀ tail : List LockEvent, lock_order_kept [] tail = true →
        held_after [] tail = [] →
        lock_order_kept [] ([LockEvent.lock Mutex.queue_mutex]
            ++ (List.replicate waits [LockEvent.unlock Mutex.queue_mutex,
                  LockEvent.lock Mutex.queue_mutex]).flatten
            ++ [LockEvent.unlock Mutex.queue_mutex] ++ tail) = true
        ∧ held_after [] ([LockEvent.lock Mutex.queue_mutex]
            ++ (List.replicate waits [LockEvent.unlock Mutex.queue_mutex,
                  LockEvent.lock Mutex.queue_mutex]).flatten
            ++ [LockEvent.unlock Mutex.queue_mutex] ++ tail) = [] := by
      intro tail h1 h2
      rw [List.append_assoc, List.append_assoc, List.singleton_append, List.singleton_append,
        lock_order_kept, held_after, lock_order_kept_append, held_after_append, w1, w2,
        lock_order_kept, held_after, hempty, h1, h2]
      exact ⟨by decide, rfl⟩
    exact key _ htail.1 htail.2

theorem thread_locks_balanced : ∀ calls : List LockingCall,
    lock_order_kept [] (thread_locks calls) = true ∧ held_after [] (thread_locks calls) = []
  | [] => ⟨rfl, rfl⟩
  | c :: calls => by
    obtain ⟨c1, c2⟩ := call_locks_balanced c
    obtain ⟨i1, i2⟩ := thread_locks_balanced calls
    have e : thread_locks (c :: calls) = c.locks ++ thread_locks calls := by
      simp [thread_locks]
    rw [e, lock_order_kept_append, held_after_append, c1, c2]
    exact ⟨by simpa using i1, i2⟩

/-- C27: along the lock calls of any thread (the event loop calling
`add_to_poll`, `remove_from_poll` and `enqueue_work`, a worker running its
iterations, a caller of `find_session_by_sockfd`) no `session_lock` is acquired
while `sessions_mutex` is held, and every call returns with no lock held: the
three registry functions lock `sessions_mutex`, release it on each of their
return paths and lock nothing else, and `process_command` with its handlers
never locks `sessions_mutex`. -/
theorem C27_lock_order (calls : List LockingCall) :
    lock_order_kept [] (thread_locks calls) = true
    ∧ held_after [] (thread_locks calls) = []
    ∧ (∀ env : Alloc, add_to_poll_locks env
        = [LockEvent.lock Mutex.sessions_mutex, LockEvent.unlock Mutex.sessions_mutex])
    ∧ (∀ (r : Registry) (index : Int), remove_from_poll_locks r index
        = [LockEvent.lock Mutex.sessions_mutex, LockEvent.unlock Mutex.sessions_mutex])
    ∧ (∀ (r : Registry) (sockfd : Int), (find_session_by_sockfd r sockfd).2
        = [LockEvent.lock Mutex.sessions_mutex, LockEvent.unlock Mutex.sessions_mutex])
    ∧ (∀ (file : Option (List Char)) (a : Nat) (s : Session) (buffer : List Char),
        LockEvent.lock Mutex.sessions_mutex ∉ process_command_locks file a s buffer)
    ∧ lock_order_kept []
        [LockEvent.lock Mutex.sessions_mutex, LockEvent.lock (Mutex.session_lock 1),
         LockEvent.unlock (Mutex.session_lock 1), LockEvent.unlock Mutex.sessions_mutex]
      = false := by
  obtain ⟨r1, r2, r3⟩ := registry_locks_shape
  obtain ⟨t1, t2⟩ := thread_locks_balanced calls
  refine ⟨t1, t2, r1, r2, r3, ?_, by decide⟩
  intro file a s buffer
  rcases process_command_locks_shape file a s buffer with h | h
  · rw [h]; simp
  · rw [h]; simp
/-! # Partial lines in the extraction loop -/

end TcpServer
